import Mathlib

/-! Polyquad: the hexahedral domain descriptor (`src/hex.hpp`).

A shallow embedding of `polyquad::HexDomain<T>` and proofs about it.

* The scalar type `T` is a type parameter `α`; the orbit tables only use `0` and unary
  minus, `clamp_arg` additionally uses the order and `1`.  Theorems that need exact
  arithmetic are stated over a linear ordered field.
* C++ `int` values are integers (`Int`).  In `nbfn_for_qdeg` and `eval_orthob_block` the
  `int` arithmetic is 32-bit: the result of every `x += 2`, `++n`, `++off`, `qdeg - i`
  and `qdeg - i - j` is reduced modulo `2 ^ 32` into the range of `int` (`wrap32`), and
  `qdeg` stands for a value in that range.  The offsets of the descriptor (`aoff + 2`,
  `poff + 47`) are not reduced.
* An Eigen vector is a `List α`, the `N x 3` point matrix is a list of rows
  (`List (Vector3T α)`).  Element access is partial: `getAt` and `setAt` return `none`
  for an index outside the container.
* `assert(0 && "Bad orbit"), abort()` is the outcome `abort` (`badOrbit` for a function
  that returns a value).
* Loops are run with an iteration bound; the theorems show that the bound is not
  reached for a degree `qdeg` such that `qdeg + 2` is an `int`.
* Not part of hex.hpp: `clamp` (util.hpp), `rand` (base class), `jacobi_poly`
  (jacobi_poly.hpp) and `qdeg()` (base class).  `clamp` and `jacobi_poly` are modelled from
  the specification (projection onto an interval, Legendre polynomial); `rand`, `qdeg()`
  and `sqrt` are parameters.  The statements about integrals take `α` to be the real
  numbers and `sqrt` the real square root.
-/

namespace Polyquad

/-! ## Data model -/

/-- `Eigen::Matrix<T, 3, 1>`: the three Cartesian coordinates of a point. -/
structure Vector3T (α : Type) where
  x : α
  y : α
  z : α
deriving DecidableEq

/-- Result of a member function that returns a value: either the returned value or the
fatal path `assert(0 && "Bad orbit"), abort()`. -/
inductive Checked (β : Type) where
  | val (v : β)
  | badOrbit
deriving DecidableEq

/-- Result of a member function that writes to a container passed by reference.
`ret s`: normal return, `s` is the container after the call.
`abort s`: the fatal path `assert(0 && "Bad orbit"), abort()` was taken, `s` is the
container at that moment.
`oob`: an element access fell outside the container (undefined behaviour in C++). -/
inductive Outcome (σ : Type) where
  | ret (s : σ)
  | abort (s : σ)
  | oob
deriving DecidableEq

/-- Lift a chain of element accesses to an outcome: `none` is an out-of-range access. -/
def Outcome.ofAccess {σ : Type} : Option σ → Outcome σ
  | some s => .ret s
  | none => .oob

/-- Read access `v(k)` to an Eigen vector (or `m.row(k)` to a matrix) with an `int` index. -/
def getAt {β : Type} (xs : List β) (k : Int) : Option β :=
  if 0 ≤ k then xs.get? k.toNat else none

/-- Write access `v(k) = x` (or `m.row(k) = x`) with an `int` index. -/
def setAt {β : Type} (xs : List β) (k : Int) (x : β) : Option (List β) :=
  if 0 ≤ k ∧ k < xs.length then some (xs.set k.toNat x) else none

/-- Execute a sequence of row assignments `pts.row(r) = v` from first to last. -/
def assignRows {β : Type} (pts : List β) : List (Int × β) → Option (List β)
  | [] => some pts
  | (r, v) :: ws => (setAt pts r v).bind (fun pts' => assignRows pts' ws)

/-! ## `npts_for_orbit`, `narg_for_orbit` -/

/-- `HexDomain::npts_for_orbit` (hex.hpp:72-94). -/
def npts_for_orbit (i : Int) : Checked Int :=
  match i with
  | 0 => .val 1
  | 1 => .val 6
  | 2 => .val 8
  | 3 => .val 12
  | 4 | 5 => .val 24
  | 6 => .val 48
  | _ => .badOrbit

/-- `HexDomain::narg_for_orbit` (hex.hpp:96-116). -/
def narg_for_orbit (i : Int) : Checked Int :=
  match i with
  | 0 => .val 0
  | 1 | 2 | 3 => .val 1
  | 4 | 5 => .val 2
  | 6 => .val 3
  | _ => .badOrbit

/-! ## `expand_orbit` -/

variable {α : Type}

/-- The row assignments of `case 0` of `expand_orbit`, in source order: each entry
`(r, v)` stands for the statement `pts.row(r) = v`. -/
def expand_case0 [Zero α] [Neg α] (poff : Int) : List (Int × Vector3T α) :=
  [(poff, ⟨0, 0, 0⟩)]

/-- The row assignments of `case 1` of `expand_orbit`, in source order: each entry
`(r, v)` stands for the statement `pts.row(r) = v`. -/
def expand_case1 [Zero α] [Neg α] (poff : Int) (a : α) : List (Int × Vector3T α) :=
  [(poff + 0, ⟨-a, 0, 0⟩),
   (poff + 1, ⟨0, 0, a⟩),
   (poff + 2, ⟨0, a, 0⟩),
   (poff + 3, ⟨0, 0, -a⟩),
   (poff + 4, ⟨a, 0, 0⟩),
   (poff + 5, ⟨0, -a, 0⟩)]

/-- The row assignments of `case 2` of `expand_orbit`, in source order: each entry
`(r, v)` stands for the statement `pts.row(r) = v`. -/
def expand_case2 [Zero α] [Neg α] (poff : Int) (a : α) : List (Int × Vector3T α) :=
  [(poff + 0, ⟨a, -a, -a⟩),
   (poff + 1, ⟨-a, a, a⟩),
   (poff + 2, ⟨-a, a, -a⟩),
   (poff + 3, ⟨-a, -a, -a⟩),
   (poff + 4, ⟨-a, -a, a⟩),
   (poff + 5, ⟨a, a, -a⟩),
   (poff + 6, ⟨a, a, a⟩),
   (poff + 7, ⟨a, -a, a⟩)]

/-- The row assignments of `case 3` of `expand_orbit`, in source order: each entry
`(r, v)` stands for the statement `pts.row(r) = v`. -/
def expand_case3 [Zero α] [Neg α] (poff : Int) (a : α) : List (Int × Vector3T α) :=
  [(poff + 0, ⟨-a, -a, 0⟩),
   (poff + 1, ⟨a, 0, -a⟩),
   (poff + 2, ⟨0, a, -a⟩),
   (poff + 3, ⟨a, a, 0⟩),
   (poff + 4, ⟨a, 0, a⟩),
   (poff + 5, ⟨0, -a, a⟩),
   (poff + 6, ⟨0, -a, -a⟩),
   (poff + 7, ⟨-a, 0, a⟩),
   (poff + 8, ⟨-a, a, 0⟩),
   (poff + 9, ⟨a, -a, 0⟩),
   (poff + 10, ⟨0, a, a⟩),
   (poff + 11, ⟨-a, 0, -a⟩)]

/-- The row assignments of `case 4` of `expand_orbit`, in source order: each entry
`(r, v)` stands for the statement `pts.row(r) = v`. -/
def expand_case4 [Zero α] [Neg α] (poff : Int) (a b : α) : List (Int × Vector3T α) :=
  [(poff + 0, ⟨0, a, -b⟩),
   (poff + 1, ⟨-a, 0, -b⟩),
   (poff + 2, ⟨0, b, a⟩),
   (poff + 3, ⟨b, -a, 0⟩),
   (poff + 4, ⟨0, a, b⟩),
   (poff + 5, ⟨0, -a, b⟩),
   (poff + 6, ⟨a, 0, -b⟩),
   (poff + 7, ⟨0, -a, -b⟩),
   (poff + 8, ⟨-b, 0, a⟩),
   (poff + 9, ⟨-b, -a, 0⟩),
   (poff + 10, ⟨a, b, 0⟩),
   (poff + 11, ⟨b, 0, a⟩),
   (poff + 12, ⟨0, b, -a⟩),
   (poff + 13, ⟨b, 0, -a⟩),
   (poff + 14, ⟨0, -b, -a⟩),
   (poff + 15, ⟨a, -b, 0⟩),
   (poff + 16, ⟨-a, b, 0⟩),
   (poff + 17, ⟨a, 0, b⟩),
   (poff + 18, ⟨-b, a, 0⟩),
   (poff + 19, ⟨-b, 0, -a⟩),
   (poff + 20, ⟨b, a, 0⟩),
   (poff + 21, ⟨-a, 0, b⟩),
   (poff + 22, ⟨0, -b, a⟩),
   (poff + 23, ⟨-a, -b, 0⟩)]

/-- The row assignments of `case 5` of `expand_orbit`, in source order: each entry
`(r, v)` stands for the statement `pts.row(r) = v`. -/
def expand_case5 [Zero α] [Neg α] (poff : Int) (a b : α) : List (Int × Vector3T α) :=
  [(poff + 0, ⟨a, b, -a⟩),
   (poff + 1, ⟨-a, -b, a⟩),
   (poff + 2, ⟨-a, b, -a⟩),
   (poff + 3, ⟨-b, -a, a⟩),
   (poff + 4, ⟨-a, -a, b⟩),
   (poff + 5, ⟨b, a, -a⟩),
   (poff + 6, ⟨a, -b, -a⟩),
   (poff + 7, ⟨a, -b, a⟩),
   (poff + 8, ⟨-a, -b, -a⟩),
   (poff + 9, ⟨a, a, -b⟩),
   (poff + 10, ⟨-b, a, -a⟩),
   (poff + 11, ⟨-a, a, -b⟩),
   (poff + 12, ⟨-a, a, b⟩),
   (poff + 13, ⟨-a, -a, -b⟩),
   (poff + 14, ⟨a, -a, b⟩),
   (poff + 15, ⟨b, -a, -a⟩),
   (poff + 16, ⟨a, b, a⟩),
   (poff + 17, ⟨b, a, a⟩),
   (poff + 18, ⟨b, -a, a⟩),
   (poff + 19, ⟨-b, a, a⟩),
   (poff + 20, ⟨a, a, b⟩),
   (poff + 21, ⟨-a, b, a⟩),
   (poff + 22, ⟨a, -a, -b⟩),
   (poff + 23, ⟨-b, -a, -a⟩)]

/-- The row assignments of `case 6` of `expand_orbit`, in source order: each entry
`(r, v)` stands for the statement `pts.row(r) = v`. -/
def expand_case6 [Zero α] [Neg α] (poff : Int) (a b c : α) : List (Int × Vector3T α) :=
  [(poff + 0, ⟨-b, -c, a⟩),
   (poff + 1, ⟨-b, a, -c⟩),
   (poff + 2, ⟨-a, -c, -b⟩),
   (poff + 3, ⟨a, c, b⟩),
   (poff + 4, ⟨-c, b, -a⟩),
   (poff + 5, ⟨c, -b, a⟩),
   (poff + 6, ⟨c, b, a⟩),
   (poff + 7, ⟨-b, c, a⟩),
   (poff + 8, ⟨c, a, -b⟩),
   (poff + 9, ⟨b, c, -a⟩),
   (poff + 10, ⟨-b, -a, -c⟩),
   (poff + 11, ⟨-c, -a, -b⟩),
   (poff + 12, ⟨a, -c, b⟩),
   (poff + 13, ⟨c, a, b⟩),
   (poff + 14, ⟨-a, -b, c⟩),
   (poff + 15, ⟨-a, c, b⟩),
   (poff + 16, ⟨b, -a, c⟩),
   (poff + 17, ⟨b, a, c⟩),
   (poff + 18, ⟨-c, -b, -a⟩),
   (poff + 19, ⟨-a, b, -c⟩),
   (poff + 20, ⟨-a, c, -b⟩),
   (poff + 21, ⟨c, b, -a⟩),
   (poff + 22, ⟨a, -c, -b⟩),
   (poff + 23, ⟨c, -a, b⟩),
   (poff + 24, ⟨-a, -c, b⟩),
   (poff + 25, ⟨-b, -c, -a⟩),
   (poff + 26, ⟨-b, c, -a⟩),
   (poff + 27, ⟨c, -b, -a⟩),
   (poff + 28, ⟨-c, -b, a⟩),
   (poff + 29, ⟨-b, a, c⟩),
   (poff + 30, ⟨c, -a, -b⟩),
   (poff + 31, ⟨a, b, -c⟩),
   (poff + 32, ⟨-a, b, c⟩),
   (poff + 33, ⟨a, -b, -c⟩),
   (poff + 34, ⟨b, a, -c⟩),
   (poff + 35, ⟨b, -a, -c⟩),
   (poff + 36, ⟨a, -b, c⟩),
   (poff + 37, ⟨-c, a, -b⟩),
   (poff + 38, ⟨-c, b, a⟩),
   (poff + 39, ⟨-a, -b, -c⟩),
   (poff + 40, ⟨b, -c, a⟩),
   (poff + 41, ⟨b, c, a⟩),
   (poff + 42, ⟨a, b, c⟩),
   (poff + 43, ⟨-c, -a, b⟩),
   (poff + 44, ⟨-b, -a, c⟩),
   (poff + 45, ⟨-c, a, b⟩),
   (poff + 46, ⟨b, -c, -a⟩),
   (poff + 47, ⟨a, c, -b⟩)]

/-- `HexDomain::expand_orbit` (hex.hpp:131-300).  `args` is read-only, `pts` is the
matrix written to; the arguments are read before the first row is assigned. -/
def expand_orbit [Zero α] [Neg α] (i aoff poff : Int) (args : List α)
    (pts : List (Vector3T α)) : Outcome (List (Vector3T α)) :=
  match i with
  | 0 => .ofAccess (assignRows pts (expand_case0 poff))
  | 1 => .ofAccess do
      let a ← getAt args aoff
      assignRows pts (expand_case1 poff a)
  | 2 => .ofAccess do
      let a ← getAt args aoff
      assignRows pts (expand_case2 poff a)
  | 3 => .ofAccess do
      let a ← getAt args aoff
      assignRows pts (expand_case3 poff a)
  | 4 => .ofAccess do
      let a ← getAt args (aoff + 0)
      let b ← getAt args (aoff + 1)
      assignRows pts (expand_case4 poff a b)
  | 5 => .ofAccess do
      let a ← getAt args (aoff + 0)
      let b ← getAt args (aoff + 1)
      assignRows pts (expand_case5 poff a b)
  | 6 => .ofAccess do
      let a ← getAt args (aoff + 0)
      let b ← getAt args (aoff + 1)
      let c ← getAt args (aoff + 2)
      assignRows pts (expand_case6 poff a b c)
  | _ => .abort pts

/-! ## Derived notions used in the statements -/

/-- The assignments `pts.row(k) = v`, `pts.row(k + 1) = v'`, ... for a list of values. -/
def zipOff {β : Type} (k : Int) : List β → List (Int × β)
  | [] => []
  | v :: vs => (k, v) :: zipOff (k + 1) vs

/-- Rows `poff, ..., poff + n - 1` of a matrix. -/
def rowsAt {β : Type} (pts : List β) (poff n : Int) : List β :=
  (pts.drop poff.toNat).take n.toNat

/-- The `k`-th orbit argument `args(aoff + k)` (`0` when there is none). -/
def argAt [Zero α] (args : List α) (aoff : Int) (k : Int) : α :=
  (getAt args (aoff + k)).getD 0

/-- The values assigned by `expand_orbit` for orbit type `i` and arguments `a b c`, in
source order (orbit types with fewer arguments ignore the others). -/
def orbitRows [Zero α] [Neg α] (i : Int) (a b c : α) : List (Vector3T α) :=
  match i with
  | 0 => (expand_case0 0).map Prod.snd
  | 1 => (expand_case1 0 a).map Prod.snd
  | 2 => (expand_case2 0 a).map Prod.snd
  | 3 => (expand_case3 0 a).map Prod.snd
  | 4 => (expand_case4 0 a b).map Prod.snd
  | 5 => (expand_case5 0 a b).map Prod.snd
  | 6 => (expand_case6 0 a b c).map Prod.snd
  | _ => []

/-! ## The symmetry group of the cube -/

/-- Generator: the sign flip `(x, y, z) -> (-x, y, z)`. -/
def flipX [Neg α] (v : Vector3T α) : Vector3T α := ⟨-v.x, v.y, v.z⟩

/-- Generator: the swap `(x, y, z) -> (y, x, z)`. -/
def swapXY (v : Vector3T α) : Vector3T α := ⟨v.y, v.x, v.z⟩

/-- Generator: the swap `(x, y, z) -> (x, z, y)`. -/
def swapYZ (v : Vector3T α) : Vector3T α := ⟨v.x, v.z, v.y⟩

/-- The six permutations of the coordinate axes, named by the image of `(x, y, z)`. -/
inductive AxisPerm where
  | xyz | xzy | yxz | yzx | zxy | zyx
deriving DecidableEq

/-- Action of an axis permutation on a point. -/
def AxisPerm.act : AxisPerm → Vector3T α → Vector3T α
  | .xyz, v => ⟨v.x, v.y, v.z⟩
  | .xzy, v => ⟨v.x, v.z, v.y⟩
  | .yxz, v => ⟨v.y, v.x, v.z⟩
  | .yzx, v => ⟨v.y, v.z, v.x⟩
  | .zxy, v => ⟨v.z, v.x, v.y⟩
  | .zyx, v => ⟨v.z, v.y, v.x⟩

/-- Multiplication by `-1` (true) or `+1` (false). -/
def signed [Neg α] (s : Bool) (t : α) : α := if s then -t else t

/-- A signed coordinate permutation: permute the axes, then negate the coordinates
whose flag is set. There are `6 * 2 * 2 * 2 = 48` of them. -/
structure SignedPerm where
  perm : AxisPerm
  negx : Bool
  negy : Bool
  negz : Bool
deriving DecidableEq

/-- Action of a signed coordinate permutation on a point. -/
def SignedPerm.act [Neg α] (g : SignedPerm) (v : Vector3T α) : Vector3T α :=
  ⟨signed g.negx (g.perm.act v).x, signed g.negy (g.perm.act v).y,
    signed g.negz (g.perm.act v).z⟩

/-- All 48 signed coordinate permutations. -/
def SignedPerm.all : List SignedPerm :=
  [AxisPerm.xyz, .xzy, .yxz, .yzx, .zxy, .zyx].flatMap fun p =>
    [false, true].flatMap fun sx => [false, true].flatMap fun sy => [false, true].map fun sz =>
      ⟨p, sx, sy, sz⟩

/-- The inverse of a signed coordinate permutation. -/
def SignedPerm.inv (g : SignedPerm) : SignedPerm :=
  match g.perm with
  | .xyz => ⟨.xyz, g.negx, g.negy, g.negz⟩
  | .xzy => ⟨.xzy, g.negx, g.negz, g.negy⟩
  | .yxz => ⟨.yxz, g.negy, g.negx, g.negz⟩
  | .yzx => ⟨.zxy, g.negz, g.negx, g.negy⟩
  | .zxy => ⟨.yzx, g.negy, g.negz, g.negx⟩
  | .zyx => ⟨.zyx, g.negz, g.negy, g.negx⟩

/-- The representative point of orbit type `i`: `(0,0,0)`, `(a,0,0)`, `(a,a,a)`,
`(a,a,0)`, `(a,b,0)`, `(a,a,b)`, `(a,b,c)` for `i = 0..6`. -/
def representative [Zero α] (i : Int) (a b c : α) : Vector3T α :=
  match i with
  | 1 => ⟨a, 0, 0⟩
  | 2 => ⟨a, a, a⟩
  | 3 => ⟨a, a, 0⟩
  | 4 => ⟨a, b, 0⟩
  | 5 => ⟨a, a, b⟩
  | 6 => ⟨a, b, c⟩
  | _ => ⟨0, 0, 0⟩

/-- For each row of the table of orbit type `i`, in source order, a signed coordinate
permutation that maps the representative point to that row. -/
def orbitElems (i : Int) : List SignedPerm :=
  match i with
  | 0 =>
    [⟨.xyz, false, false, false⟩]
  | 1 =>
    [⟨.xyz, true, false, false⟩, ⟨.yzx, false, false, false⟩, ⟨.yxz, false, false, false⟩,
     ⟨.yzx, false, false, true⟩, ⟨.xyz, false, false, false⟩, ⟨.yxz, false, true, false⟩]
  | 2 =>
    [⟨.xyz, false, true, true⟩, ⟨.xyz, true, false, false⟩, ⟨.xyz, true, false, true⟩,
     ⟨.xyz, true, true, true⟩, ⟨.xyz, true, true, false⟩, ⟨.xyz, false, false, true⟩,
     ⟨.xyz, false, false, false⟩, ⟨.xyz, false, true, false⟩]
  | 3 =>
    [⟨.xyz, true, true, false⟩, ⟨.xzy, false, false, true⟩, ⟨.zxy, false, false, true⟩,
     ⟨.xyz, false, false, false⟩, ⟨.xzy, false, false, false⟩, ⟨.zxy, false, true, false⟩,
     ⟨.zxy, false, true, true⟩, ⟨.xzy, true, false, false⟩, ⟨.xyz, true, false, false⟩,
     ⟨.xyz, false, true, false⟩, ⟨.zxy, false, false, false⟩, ⟨.xzy, true, false, true⟩]
  | 4 =>
    [⟨.zxy, false, false, true⟩, ⟨.xzy, true, false, true⟩, ⟨.zyx, false, false, false⟩,
     ⟨.yxz, false, true, false⟩, ⟨.zxy, false, false, false⟩, ⟨.zxy, false, true, false⟩,
     ⟨.xzy, false, false, true⟩, ⟨.zxy, false, true, true⟩, ⟨.yzx, true, false, false⟩,
     ⟨.yxz, true, true, false⟩, ⟨.xyz, false, false, false⟩, ⟨.yzx, false, false, false⟩,
     ⟨.zyx, false, false, true⟩, ⟨.yzx, false, false, true⟩, ⟨.zyx, false, true, true⟩,
     ⟨.xyz, false, true, false⟩, ⟨.xyz, true, false, false⟩, ⟨.xzy, false, false, false⟩,
     ⟨.yxz, true, false, false⟩, ⟨.yzx, true, false, true⟩, ⟨.yxz, false, false, false⟩,
     ⟨.xzy, true, false, false⟩, ⟨.zyx, false, true, false⟩, ⟨.xyz, true, true, false⟩]
  | 5 =>
    [⟨.xzy, false, false, true⟩, ⟨.xzy, true, true, false⟩, ⟨.xzy, true, false, true⟩,
     ⟨.zxy, true, true, false⟩, ⟨.xyz, true, true, false⟩, ⟨.zxy, false, false, true⟩,
     ⟨.xzy, false, true, true⟩, ⟨.xzy, false, true, false⟩, ⟨.xzy, true, true, true⟩,
     ⟨.xyz, false, false, true⟩, ⟨.zxy, true, false, true⟩, ⟨.xyz, true, false, true⟩,
     ⟨.xyz, true, false, false⟩, ⟨.xyz, true, true, true⟩, ⟨.xyz, false, true, false⟩,
     ⟨.zxy, false, true, true⟩, ⟨.xzy, false, false, false⟩, ⟨.zxy, false, false, false⟩,
     ⟨.zxy, false, true, false⟩, ⟨.zxy, true, false, false⟩, ⟨.xyz, false, false, false⟩,
     ⟨.xzy, true, false, false⟩, ⟨.xyz, false, true, true⟩, ⟨.zxy, true, true, true⟩]
  | 6 =>
    [⟨.yzx, true, true, false⟩, ⟨.yxz, true, false, true⟩, ⟨.xzy, true, true, true⟩,
     ⟨.xzy, false, false, false⟩, ⟨.zyx, true, false, true⟩, ⟨.zyx, false, true, false⟩,
     ⟨.zyx, false, false, false⟩, ⟨.yzx, true, false, false⟩, ⟨.zxy, false, false, true⟩,
     ⟨.yzx, false, false, true⟩, ⟨.yxz, true, true, true⟩, ⟨.zxy, true, true, true⟩,
     ⟨.xzy, false, true, false⟩, ⟨.zxy, false, false, false⟩, ⟨.xyz, true, true, false⟩,
     ⟨.xzy, true, false, false⟩, ⟨.yxz, false, true, false⟩, ⟨.yxz, false, false, false⟩,
     ⟨.zyx, true, true, true⟩, ⟨.xyz, true, false, true⟩, ⟨.xzy, true, false, true⟩,
     ⟨.zyx, false, false, true⟩, ⟨.xzy, false, true, true⟩, ⟨.zxy, false, true, false⟩,
     ⟨.xzy, true, true, false⟩, ⟨.yzx, true, true, true⟩, ⟨.yzx, true, false, true⟩,
     ⟨.zyx, false, true, true⟩, ⟨.zyx, true, true, false⟩, ⟨.yxz, true, false, false⟩,
     ⟨.zxy, false, true, true⟩, ⟨.xyz, false, false, true⟩, ⟨.xyz, true, false, false⟩,
     ⟨.xyz, false, true, true⟩, ⟨.yxz, false, false, true⟩, ⟨.yxz, false, true, true⟩,
     ⟨.xyz, false, true, false⟩, ⟨.zxy, true, false, true⟩, ⟨.zyx, true, false, false⟩,
     ⟨.xyz, true, true, true⟩, ⟨.yzx, false, true, false⟩, ⟨.yzx, false, false, false⟩,
     ⟨.xyz, false, false, false⟩, ⟨.zxy, true, true, false⟩, ⟨.yxz, true, true, false⟩,
     ⟨.zxy, true, false, false⟩, ⟨.yzx, false, true, true⟩, ⟨.xzy, false, false, true⟩]
  | _ => []

/-- Apply a function to the three coordinates. -/
def Vector3T.map {β : Type} (f : α → β) (v : Vector3T α) : Vector3T β := ⟨f v.x, f v.y, f v.z⟩

/-- Integer code of a coordinate value relative to a list of parameters: `k` for the
`k`-th parameter, `-k` for its negative, `0` for anything else. -/
def codeFrom [DecidableEq α] [Neg α] : Int → List α → α → Int
  | _, [], _ => 0
  | k, p :: ps, x => if x = p then k else if x = -p then -k else codeFrom (k + 1) ps x

/-- The parameter vector of an orbit: the entries `args(aoff), ..., args(aoff + n - 1)`. -/
def argWindow [Zero α] (args : List α) (aoff n : Int) : List α :=
  (List.range n.toNat).map (fun k => argAt args aoff k)

/-! ## `nbfn_for_qdeg`, `eval_orthob_block` -/

/-- The value that a 32-bit two's complement `int` holds after an operation whose exact
result is `x`: the representative of `x` modulo `2 ^ 32 = 4294967296` in the range
`-2147483648 .. 2147483647`. -/
def wrap32 (x : Int) : Int := (x + 2147483648) % 4294967296 - 2147483648

/-- The loop `for (int x = x0; x <= hi; x += 2) body` acting on a state of type `σ`,
started at `x` in state `s`.  `body x s` is `none` when the body fails.  The loop is run
with a bound `fuel` on the number of iterations and is `none` when the bound is reached
while the loop condition still holds. -/
def forStep2 {σ : Type} (hi : Int) (body : Int → σ → Option σ) : Nat → Int → σ → Option σ
  | 0, x, s => if x ≤ hi then none else some s
  | fuel + 1, x, s =>
    if x ≤ hi then (body x s).bind (forStep2 hi body fuel (wrap32 (x + 2))) else some s

/-- Iteration bound used for the three loops over the degree `qdeg`. -/
def loopFuel (qdeg : Int) : Nat := qdeg.toNat + 1

/-- `HexDomain::nbfn_for_qdeg` (hex.hpp:118-129): three nested loops whose innermost
increment expression is `k += 2, ++n`; the result is the final `n`, an `int`. -/
def nbfn_for_qdeg (qdeg : Int) : Option Int :=
  forStep2 qdeg (fun i n =>
    forStep2 (wrap32 (qdeg - i)) (fun j n =>
      forStep2 (wrap32 (wrap32 (qdeg - i) - j)) (fun _ n => some (wrap32 (n + 1)))
        (loopFuel qdeg) j n)
      (loopFuel qdeg) i n)
    (loopFuel qdeg) 0 0

/-- `HexDomain::eval_orthob_block` (hex.hpp:330-358), for the degree `qdeg = this->qdeg()`.
The value assigned to `out.row(off)` for the index `(i, j, k)`, the product
`cijk * jacobi_poly(i, 0, 0, p) * jacobi_poly(j, 0, 0, q) * jacobi_poly(k, 0, 0, r)`, is the
parameter `basisRow i j k`.  The state of the loops is the pair `(off, out)`; the result
is the final pair, `none` when a row assignment is out of range.  The counter `off` is
an `int`. -/
def eval_orthob_block {ρ : Type} (qdeg : Int) (basisRow : Int → Int → Int → ρ)
    (out : List ρ) : Option (Int × List ρ) :=
  forStep2 qdeg (fun i s =>
    forStep2 (wrap32 (qdeg - i)) (fun j s =>
      forStep2 (wrap32 (wrap32 (qdeg - i) - j)) (fun k s =>
        (setAt s.2 s.1 (basisRow i j k)).map (fun out' => (wrap32 (s.1 + 1), out')))
        (loopFuel qdeg) j s)
      (loopFuel qdeg) i s)
    (loopFuel qdeg) 0 (0, out)

/-- A basis index of degree at most `qdeg`: a triple of even non-negative integers
`i <= j <= k` with `i + j + k <= qdeg`. -/
def IsBasisIndex (qdeg : Int) (t : Int × Int × Int) : Prop :=
  0 ≤ t.1 ∧ t.1 ≤ t.2.1 ∧ t.2.1 ≤ t.2.2 ∧ t.1 + t.2.1 + t.2.2 ≤ qdeg ∧
    2 ∣ t.1 ∧ 2 ∣ t.2.1 ∧ 2 ∣ t.2.2

/-- Strict lexicographic order on index triples. -/
def lexLt (s t : Int × Int × Int) : Prop :=
  s.1 < t.1 ∨ (s.1 = t.1 ∧ (s.2.1 < t.2.1 ∨ (s.2.1 = t.2.1 ∧ s.2.2 < t.2.2)))

/-- The values `x, x + 2, ...` not exceeding `hi` (at most `fuel` of them). -/
def stepsFrom (hi : Int) : Nat → Int → List Int
  | 0, _ => []
  | fuel + 1, x => if x ≤ hi then x :: stepsFrom hi fuel (x + 2) else []

/-- The index triples in the order in which the loops of `nbfn_for_qdeg` and
`eval_orthob_block` visit them. -/
def basisIndices (qdeg : Int) : List (Int × Int × Int) :=
  (stepsFrom qdeg (loopFuel qdeg) 0).flatMap fun i =>
    (stepsFrom (qdeg - i) (loopFuel qdeg) i).flatMap fun j =>
      (stepsFrom (qdeg - i - j) (loopFuel qdeg) j).map fun k => (i, j, k)

/-- The number of pairs `(j, k)` of even integers with `0 <= j <= k` and `j + k <= w`. -/
def pairCount (w : Int) : Int := if w < 0 then 0 else (w / 4 + 1) * (w / 2 + 1 - w / 4)

/-- The sum of `pairCount (qdeg - 6 * s)` over the `2 ^ d` values `s = t, ..., t + 2 ^ d - 1`,
added up by halving the range. -/
def countTree (qdeg : Int) : Nat → Int → Int
  | 0, t => pairCount (qdeg - 6 * t)
  | d + 1, t => countTree qdeg d t + countTree qdeg d (t + 2 ^ d)

/-! ## `validate_orbit`, `seed_orbit`, `clamp_arg` -/

/-- `HexDomain::validate_orbit` (hex.hpp:48-49).  `VectorOrb` is a vector of 7 `int`s, one
multiplicity per orbit type. -/
def validate_orbit (orb : Fin 7 → Int) : Bool :=
  decide (orb 0 ≤ 1)

/-- `HexDomain::seed_orbit` (hex.hpp:302-328).  The member `rand` of the base class is not
part of hex.hpp; it is the parameter `rand lo hi gen`, which returns the draw and the next
state of the generator.  The state of the call is the pair of `args` and the generator. -/
def seed_orbit {γ : Type} [Zero α] [One α] (rand : α → α → γ → α × γ) (i aoff : Int)
    (args : List α) (gen : γ) : Outcome (List α × γ) :=
  match i with
  | 0 => .ret (args, gen)
  | 1 | 2 | 3 => .ofAccess do
      let r₀ := rand 0 1 gen
      let args ← setAt args aoff r₀.1
      pure (args, r₀.2)
  | 4 | 5 => .ofAccess do
      let r₀ := rand 0 1 gen
      let args ← setAt args (aoff + 0) r₀.1
      let r₁ := rand 0 1 r₀.2
      let args ← setAt args (aoff + 1) r₁.1
      pure (args, r₁.2)
  | 6 => .ofAccess do
      let r₀ := rand 0 1 gen
      let args ← setAt args (aoff + 0) r₀.1
      let r₁ := rand 0 1 r₀.2
      let args ← setAt args (aoff + 1) r₁.1
      let r₂ := rand 0 1 r₁.2
      let args ← setAt args (aoff + 2) r₂.1
      pure (args, r₂.2)
  | _ => .abort (args, gen)

/-- Modelled from the spec: `clamp` is declared in util.hpp, which is not among the
sources.  The spec says that `clampArg` projects each parameter into its feasible closed
interval; `clamp l v h` is the projection of `v` onto `[l, h]`. -/
def clamp [LT α] [DecidableRel (fun x y : α => x < y)] (l v h : α) : α :=
  if v < l then l else if h < v then h else v

/-- The statement `args(k) = clamp(0, args(k), 1)`. -/
def clampAt [Zero α] [One α] [LT α] [DecidableRel (fun x y : α => x < y)]
    (args : List α) (k : Int) : Option (List α) := do
  let x ← getAt args k
  setAt args k (clamp 0 x 1)

/-- `HexDomain::clamp_arg` (hex.hpp:360-386). -/
def clamp_arg [Zero α] [One α] [LT α] [DecidableRel (fun x y : α => x < y)]
    (i aoff : Int) (args : List α) : Outcome (List α) :=
  match i with
  | 0 => .ret args
  | 1 | 2 | 3 => .ofAccess (clampAt args aoff)
  | 4 | 5 => .ofAccess do
      let args ← clampAt args (aoff + 0)
      clampAt args (aoff + 1)
  | 6 => .ofAccess do
      let args ← clampAt args (aoff + 0)
      let args ← clampAt args (aoff + 1)
      clampAt args (aoff + 2)
  | _ => .abort args

/-- Symbolic coordinate values: `0`, `a`, `-a`, `b`, `-b`, `c`, `-c`. -/
inductive Sym where
  | zero | pa | na | pb | nb | pc | nc
deriving DecidableEq

instance : Zero Sym := ⟨.zero⟩

instance : Neg Sym :=
  ⟨fun s => match s with
    | .zero => .zero
    | .pa => .na
    | .na => .pa
    | .pb => .nb
    | .nb => .pb
    | .pc => .nc
    | .nc => .pc⟩

/-- The value of a symbolic coordinate for given arguments `a b c`. -/
def Sym.eval [Zero α] [Neg α] (a b c : α) : Sym → α
  | .zero => 0
  | .pa => a
  | .na => -a
  | .pb => b
  | .nb => -b
  | .pc => c
  | .nc => -c

/-! ## The random source as an explicit stream -/

/-- State of an explicit random stream: the number of draws consumed so far and the
ranges `(lo, hi)` requested so far, oldest first. -/
structure StreamState (α : Type) where
  pos : Nat
  log : List (α × α)
deriving DecidableEq

/-- The random source as an explicit stream `s`: the call `rand(lo, hi)` returns the
next element of the stream and records the requested range. -/
def streamRand (s : Nat → α) (lo hi : α) (g : StreamState α) : α × StreamState α :=
  (s g.pos, ⟨g.pos + 1, g.log ++ [(lo, hi)]⟩)

/-- Which argument a symbolic coordinate refers to: 0 for `0`, 1 for `a` and `-a`, 2 for
`b` and `-b`, 3 for `c` and `-c`. -/
def Sym.rank : Sym → Int
  | .zero => 0
  | .pa => 1
  | .na => 1
  | .pb => 2
  | .nb => 2
  | .pc => 3
  | .nc => 3

/-- The sum of the monomial `x^p * y^q * z^r` over a list of points. -/
def moment [Semiring α] (rows : List (Vector3T α)) (p q r : Nat) : α :=
  (rows.map (fun v => v.x ^ p * v.y ^ q * v.z ^ r)).sum

/-! ## The orthonormal basis -/

/-- Modelled from the spec: `jacobi_poly` is declared in jacobi_poly.hpp, which is not
among the sources.  hex.hpp only calls `jacobi_poly(n, 0, 0, x)`, the one-dimensional
orthogonal polynomial of order `n`, which is the Legendre polynomial of degree `n`:
`P_n(x) = 2^(-n) * sum_k (n choose k)^2 * (x - 1)^k * (x + 1)^(n - k)`. -/
def legendre [Field α] (n : Nat) (x : α) : α :=
  (∑ k in Finset.range (n + 1), (n.choose k : α) ^ 2 * (x - 1) ^ k * (x + 1) ^ (n - k)) / 2 ^ n

/-- Modelled from the spec: the call `jacobi_poly(n, 0, 0, x)` for an `int` order `n`,
the Legendre polynomial of degree `n` (see `legendre`). -/
def jacobi_poly [Field α] (n : Int) (x : α) : α := legendre n.toNat x

/-- The normalisation constant `cijk = sqrt((i + half)*(j + half)*(k + half))` with
`half = 0.5` (hex.hpp:341, 349); `sqrt` is a parameter. -/
def cijk [Field α] (sqrt : α → α) (i j k : Int) : α :=
  sqrt (((i : α) + 1 / 2) * ((j : α) + 1 / 2) * ((k : α) + 1 / 2))

/-- One entry of the row assigned to `out.row(off)` (hex.hpp:351-354): the value
`cijk * jacobi_poly(i, 0, 0, p) * jacobi_poly(j, 0, 0, q) * jacobi_poly(k, 0, 0, r)` at the
point `v = (p, q, r)`. -/
def orthob_value [Field α] (sqrt : α → α) (i j k : Int) (v : Vector3T α) : α :=
  cijk sqrt i j k * jacobi_poly i v.x * jacobi_poly j v.y * jacobi_poly k v.z

/-- The row assigned to `out.row(off)` for the index `(i, j, k)`: one entry per point
(row) of `pqr`. -/
def orthob_row [Field α] (sqrt : α → α) (pqr : List (Vector3T α)) (i j k : Int) : List α :=
  pqr.map (orthob_value sqrt i j k)

/-- The constant `sqrt(T(8))` that the constructor `HexDomain()` passes to its base class
(hex.hpp:45). -/
def HexDomain_scale [OfNat α 8] (sqrt : α → α) : α := sqrt 8

/-! ## Element access and row assignment -/

theorem getAt_argAt [Zero α] (args : List α) (aoff k : Int) (h0 : 0 ≤ aoff + k)
    (h1 : aoff + k < args.length) : getAt args (aoff + k) = some (argAt args aoff k) := by
  have h : (aoff + k).toNat < args.length := by omega
  simp [argAt, getAt, h0, List.getElem?_eq_getElem h]

theorem assignRows_zipOff {β : Type} (vs : List β) :
    ∀ (pre old post : List β), old.length = vs.length →
      assignRows (pre ++ old ++ post) (zipOff (pre.length : Int) vs) = some (pre ++ vs ++ post) := by
  induction vs with
  | nil =>
    intro pre old post h
    have : old = [] := List.length_eq_zero.mp h
    simp [this, zipOff, assignRows]
  | cons v vs ih =>
    intro pre old post h
    obtain ⟨o, old', rfl⟩ : ∃ o old', old = o :: old' := by
      cases old with
      | nil => simp at h
      | cons o old' => exact ⟨o, old', rfl⟩
    have hlen : old'.length = vs.length := by simpa using h
    have hset : setAt (pre ++ o :: old' ++ post) (pre.length : Int) v
        = some ((pre ++ [v]) ++ old' ++ post) := by
      have hpos : (0 : Int) < (old'.length : Int) + (post.length : Int) + 1 := by omega
      simp [setAt, List.set_append, hpos]
    have := ih (pre ++ [v]) old' post hlen
    simp only [List.length_append, List.length_singleton, Nat.cast_add, Nat.cast_one] at this
    simp only [zipOff, assignRows, hset, Option.some_bind, this]
    simp

theorem assignRows_window {β : Type} (pts : List β) (poff : Int) (vs : List β)
    (h0 : 0 ≤ poff) (h1 : poff + vs.length ≤ pts.length) :
    assignRows pts (zipOff poff vs)
      = some (pts.take poff.toNat ++ vs ++ pts.drop (poff.toNat + vs.length)) := by
  have hp : (poff.toNat : Int) = poff := Int.toNat_of_nonneg h0
  have hle : poff.toNat + vs.length ≤ pts.length := by omega
  have hsplit : pts = pts.take poff.toNat ++ (pts.drop poff.toNat).take vs.length
      ++ pts.drop (poff.toNat + vs.length) := by
    rw [List.append_assoc, ← List.drop_drop, List.take_append_drop, List.take_append_drop]
  have hlen : (pts.take poff.toNat).length = poff.toNat := by
    rw [List.length_take]; omega
  have key := assignRows_zipOff vs (pts.take poff.toNat) ((pts.drop poff.toNat).take vs.length)
    (pts.drop (poff.toNat + vs.length)) (by rw [List.length_take, List.length_drop]; omega)
  rw [hlen, hp, ← hsplit] at key
  exact key

theorem expand_case0_eq [Zero α] [Neg α] (poff : Int) (a b c : α) :
    expand_case0 poff = zipOff poff (orbitRows 0 a b c) := by
  simp [expand_case0, orbitRows, zipOff]

theorem expand_case1_eq [Zero α] [Neg α] (poff : Int) (a b c : α) :
    expand_case1 poff a = zipOff poff (orbitRows 1 a b c) := by
  simp [expand_case1, orbitRows, zipOff, add_assoc]

theorem expand_case2_eq [Zero α] [Neg α] (poff : Int) (a b c : α) :
    expand_case2 poff a = zipOff poff (orbitRows 2 a b c) := by
  simp [expand_case2, orbitRows, zipOff, add_assoc]

theorem expand_case3_eq [Zero α] [Neg α] (poff : Int) (a b c : α) :
    expand_case3 poff a = zipOff poff (orbitRows 3 a b c) := by
  simp [expand_case3, orbitRows, zipOff, add_assoc]

theorem expand_case4_eq [Zero α] [Neg α] (poff : Int) (a b c : α) :
    expand_case4 poff a b = zipOff poff (orbitRows 4 a b c) := by
  simp [expand_case4, orbitRows, zipOff, add_assoc]

theorem expand_case5_eq [Zero α] [Neg α] (poff : Int) (a b c : α) :
    expand_case5 poff a b = zipOff poff (orbitRows 5 a b c) := by
  simp [expand_case5, orbitRows, zipOff, add_assoc]

theorem expand_case6_eq [Zero α] [Neg α] (poff : Int) (a b c : α) :
    expand_case6 poff a b c = zipOff poff (orbitRows 6 a b c) := by
  simp [expand_case6, orbitRows, zipOff, add_assoc]

theorem orbitRows_length [Zero α] [Neg α] (i m : Int) (a b c : α)
    (hm : npts_for_orbit i = .val m) : ((orbitRows i a b c).length : Int) = m := by
  unfold npts_for_orbit at hm
  split at hm <;> simp_all [orbitRows, expand_case0, expand_case1, expand_case2, expand_case3,
    expand_case4, expand_case5, expand_case6]

/-- In-range orbit type and in-bounds offsets: `expand_orbit` returns, and the matrix
after the call is the old one with the window starting at `poff` replaced by the orbit's rows. -/
theorem expand_orbit_eq [Zero α] [Neg α] (i aoff poff n m : Int) (args : List α)
    (pts : List (Vector3T α))
    (hn : narg_for_orbit i = .val n) (hm : npts_for_orbit i = .val m)
    (ha0 : 0 ≤ aoff) (ha1 : aoff + n ≤ args.length)
    (hp0 : 0 ≤ poff) (hp1 : poff + m ≤ pts.length) :
    expand_orbit i aoff poff args pts
      = .ret (pts.take poff.toNat
          ++ orbitRows i (argAt args aoff 0) (argAt args aoff 1) (argAt args aoff 2)
          ++ pts.drop (poff.toNat + m.toNat)) := by
  have hlen := orbitRows_length i m (argAt args aoff 0) (argAt args aoff 1) (argAt args aoff 2) hm
  have hw := assignRows_window pts poff
    (orbitRows i (argAt args aoff 0) (argAt args aoff 1) (argAt args aoff 2)) hp0 (by omega)
  have hmn : m.toNat = (orbitRows i (argAt args aoff 0) (argAt args aoff 1)
      (argAt args aoff 2)).length := by omega
  rw [hmn]
  have g0 : ∀ k : Int, 0 ≤ k → k < n → getAt args (aoff + k) = some (argAt args aoff k) :=
    fun k hk0 hk1 => getAt_argAt args aoff k (by omega) (by omega)
  unfold narg_for_orbit at hn
  split at hn
  · simp [expand_orbit, expand_case0_eq _ (argAt args aoff 0) (argAt args aoff 1)
      (argAt args aoff 2), hw, Outcome.ofAccess]
  · have h0 := g0 0 (by omega) (by simp at hn; omega)
    rw [add_zero] at h0
    simp [expand_orbit, expand_case1_eq _ _ (argAt args aoff 1) (argAt args aoff 2), h0, hw,
      Outcome.ofAccess]
  · have h0 := g0 0 (by omega) (by simp at hn; omega)
    rw [add_zero] at h0
    simp [expand_orbit, expand_case2_eq _ _ (argAt args aoff 1) (argAt args aoff 2), h0, hw,
      Outcome.ofAccess]
  · have h0 := g0 0 (by omega) (by simp at hn; omega)
    rw [add_zero] at h0
    simp [expand_orbit, expand_case3_eq _ _ (argAt args aoff 1) (argAt args aoff 2), h0, hw,
      Outcome.ofAccess]
  · have h0 := g0 0 (by omega) (by simp at hn; omega)
    have h1 := g0 1 (by omega) (by simp at hn; omega)
    rw [add_zero] at h0
    simp [expand_orbit, expand_case4_eq _ _ _ (argAt args aoff 2), h0, h1, hw,
      Outcome.ofAccess]
  · have h0 := g0 0 (by omega) (by simp at hn; omega)
    have h1 := g0 1 (by omega) (by simp at hn; omega)
    rw [add_zero] at h0
    simp [expand_orbit, expand_case5_eq _ _ _ (argAt args aoff 2), h0, h1, hw,
      Outcome.ofAccess]
  · have h0 := g0 0 (by omega) (by simp at hn; omega)
    have h1 := g0 1 (by omega) (by simp at hn; omega)
    rw [add_zero] at h0
    have h2 := g0 2 (by omega) (by simp at hn; omega)
    simp [expand_orbit, expand_case6_eq, h0, h1, h2, hw, Outcome.ofAccess]
  · simp at hn

theorem splice_length {β : Type} (pts rows : List β) (p : Nat)
    (h : p + rows.length ≤ pts.length) :
    (pts.take p ++ rows ++ pts.drop (p + rows.length)).length = pts.length := by
  simp only [List.length_append, List.length_take, List.length_drop]
  omega

theorem splice_getElem? {β : Type} (pts rows : List β) (p r : Nat)
    (h : p + rows.length ≤ pts.length) (hr : r < p ∨ p + rows.length ≤ r) :
    (pts.take p ++ rows ++ pts.drop (p + rows.length))[r]? = pts[r]? := by
  have hlen : (pts.take p).length = p := by rw [List.length_take]; omega
  rcases hr with hr | hr
  · rw [List.append_assoc, List.getElem?_append_left (by omega), List.getElem?_take_of_lt hr]
  · rw [List.getElem?_append_right (by simp only [List.length_append, hlen]; omega)]
    simp only [List.length_append, hlen, List.getElem?_drop]
    congr 1
    omega

theorem splice_window {β : Type} (pts rows : List β) (p : Nat)
    (h : p + rows.length ≤ pts.length) :
    ((pts.take p ++ rows ++ pts.drop (p + rows.length)).drop p).take rows.length = rows := by
  have hlen : (pts.take p).length = p := by rw [List.length_take]; omega
  rw [List.append_assoc, List.drop_append_of_le_length (by omega)]
  rw [List.drop_of_length_le (by omega), List.nil_append, List.take_left']
  rfl

/-- In-range orbit type and in-bounds offsets: `expand_orbit` returns and the rows
`poff .. poff + m - 1` of the matrix hold the orbit's rows. -/
theorem expand_orbit_rows [Zero α] [Neg α] (i aoff poff n m : Int) (args : List α)
    (pts : List (Vector3T α))
    (hn : narg_for_orbit i = .val n) (hm : npts_for_orbit i = .val m)
    (ha0 : 0 ≤ aoff) (ha1 : aoff + n ≤ args.length)
    (hp0 : 0 ≤ poff) (hp1 : poff + m ≤ pts.length) :
    ∃ pts', expand_orbit i aoff poff args pts = .ret pts' ∧
      rowsAt pts' poff m
        = orbitRows i (argAt args aoff 0) (argAt args aoff 1) (argAt args aoff 2) := by
  have hlen := orbitRows_length i m (argAt args aoff 0) (argAt args aoff 1) (argAt args aoff 2) hm
  refine ⟨_, expand_orbit_eq i aoff poff n m args pts hn hm ha0 ha1 hp0 hp1, ?_⟩
  have hmn : m.toNat = (orbitRows i (argAt args aoff 0) (argAt args aoff 1)
      (argAt args aoff 2)).length := by omega
  unfold rowsAt
  rw [hmn]
  exact splice_window pts _ poff.toNat (by omega)

/-! ## C1: the rows written by `expand_orbit` -/

/-- C1: for an orbit type in `0..6` (the calls `narg_for_orbit i`, `npts_for_orbit i`
return `n`, `m`) and offsets in bounds, `expand_orbit` returns; the matrix keeps its
number of rows; rows `poff, ..., poff + m - 1` hold the `m` values of the orbit table,
which depend on the arguments only; every other row is unchanged.  The row counts for
`i = 0..6` are 1, 6, 8, 12, 24, 24, 48. -/
theorem expand_orbit_writes_window [Zero α] [Neg α] (i aoff poff n m : Int) (args : List α)
    (pts : List (Vector3T α))
    (hn : narg_for_orbit i = .val n) (hm : npts_for_orbit i = .val m)
    (ha0 : 0 ≤ aoff) (ha1 : aoff + n ≤ args.length)
    (hp0 : 0 ≤ poff) (hp1 : poff + m ≤ pts.length) :
    List.map npts_for_orbit [0, 1, 2, 3, 4, 5, 6]
        = [.val 1, .val 6, .val 8, .val 12, .val 24, .val 24, .val 48] ∧
    ∃ pts', expand_orbit i aoff poff args pts = .ret pts' ∧
      pts'.length = pts.length ∧
      rowsAt pts' poff m
        = orbitRows i (argAt args aoff 0) (argAt args aoff 1) (argAt args aoff 2) ∧
      ((rowsAt pts' poff m).length : Int) = m ∧
      ∀ r : Int, (r < poff ∨ poff + m ≤ r) → getAt pts' r = getAt pts r := by
  refine ⟨by decide, ?_⟩
  have hlen := orbitRows_length i m (argAt args aoff 0) (argAt args aoff 1) (argAt args aoff 2) hm
  have hmn : m.toNat = (orbitRows i (argAt args aoff 0) (argAt args aoff 1)
      (argAt args aoff 2)).length := by omega
  have hle : poff.toNat + (orbitRows i (argAt args aoff 0) (argAt args aoff 1)
      (argAt args aoff 2)).length ≤ pts.length := by omega
  have hwin : rowsAt (pts.take poff.toNat
          ++ orbitRows i (argAt args aoff 0) (argAt args aoff 1) (argAt args aoff 2)
          ++ pts.drop (poff.toNat + m.toNat)) poff m
        = orbitRows i (argAt args aoff 0) (argAt args aoff 1) (argAt args aoff 2) := by
    unfold rowsAt
    rw [hmn]
    exact splice_window pts _ poff.toNat hle
  refine ⟨_, expand_orbit_eq i aoff poff n m args pts hn hm ha0 ha1 hp0 hp1, ?_, hwin, ?_, ?_⟩
  · rw [hmn]
    exact splice_length pts _ poff.toNat hle
  · rw [hwin]
    exact hlen
  · intro r hr
    unfold getAt
    by_cases h0 : 0 ≤ r
    · simp only [h0, if_true, List.get?_eq_getElem?]
      rw [hmn]
      exact splice_getElem? pts _ poff.toNat r.toNat hle (by omega)
    · simp [h0]

/-- Instance of `expand_orbit_writes_window`: orbit type 4 with arguments `(2, 3)` read at
offset 1, written to rows `1 .. 24` of a 26-row matrix. -/
theorem expand_orbit_writes_window_witness :
    (narg_for_orbit 4 = .val 2 ∧ npts_for_orbit 4 = .val 24 ∧
      (0 : Int) ≤ 1 ∧ (1 : Int) + 2 ≤ ([7, 2, 3] : List ℚ).length ∧
      (0 : Int) ≤ 1 ∧ (1 : Int) + 24 ≤ (List.replicate 26 (⟨9, 9, 9⟩ : Vector3T ℚ)).length) ∧
    (List.map npts_for_orbit [0, 1, 2, 3, 4, 5, 6]
        = [.val 1, .val 6, .val 8, .val 12, .val 24, .val 24, .val 48] ∧
    ∃ pts', expand_orbit 4 1 1 [7, 2, 3] (List.replicate 26 (⟨9, 9, 9⟩ : Vector3T ℚ)) = .ret pts' ∧
      pts'.length = (List.replicate 26 (⟨9, 9, 9⟩ : Vector3T ℚ)).length ∧
      rowsAt pts' 1 24
        = orbitRows 4 (argAt [7, 2, 3] 1 0) (argAt [7, 2, 3] 1 1) (argAt [7, 2, 3] 1 2) ∧
      ((rowsAt pts' 1 24).length : Int) = 24 ∧
      ∀ r : Int, (r < 1 ∨ 1 + 24 ≤ r) →
        getAt pts' r = getAt (List.replicate 26 (⟨9, 9, 9⟩ : Vector3T ℚ)) r) :=
  ⟨by decide, expand_orbit_writes_window 4 1 1 2 24 [7, 2, 3] _ (by decide) (by decide)
    (by decide) (by decide) (by decide) (by decide)⟩

theorem SignedPerm.all_length : SignedPerm.all.length = 48 := by decide
theorem SignedPerm.all_nodup : SignedPerm.all.Nodup := by decide
theorem SignedPerm.mem_all (g : SignedPerm) : g ∈ SignedPerm.all := by
  rcases g with ⟨p, sx, sy, sz⟩
  cases p <;> cases sx <;> cases sy <;> cases sz <;> decide

/-! ## The orbit tables, symbolically -/

theorem orbitRows_eq_map_eval [Zero α] [Neg α] (i : Int) (a b c : α) :
    orbitRows i a b c
      = (orbitRows i Sym.pa Sym.pb Sym.pc).map (Vector3T.map (Sym.eval a b c)) := by
  unfold orbitRows
  split <;> rfl

set_option maxRecDepth 100000 in
theorem orbitRows_sym_closed (i : Int) :
    ∀ v ∈ orbitRows i Sym.pa Sym.pb Sym.pc,
      flipX v ∈ orbitRows i Sym.pa Sym.pb Sym.pc ∧
      swapXY v ∈ orbitRows i Sym.pa Sym.pb Sym.pc ∧
      swapYZ v ∈ orbitRows i Sym.pa Sym.pb Sym.pc := by
  unfold orbitRows
  split <;> decide

theorem Sym.eval_neg [LinearOrderedRing α] (a b c : α) (s : Sym) :
    Sym.eval a b c (-s) = -Sym.eval a b c s := by
  cases s <;> simp [Sym.eval, Neg.neg]

theorem orbitRows_closed [LinearOrderedRing α] (i : Int) (a b c : α) :
    ∀ v ∈ orbitRows i a b c,
      flipX v ∈ orbitRows i a b c ∧ swapXY v ∈ orbitRows i a b c ∧
        swapYZ v ∈ orbitRows i a b c := by
  intro v hv
  rw [orbitRows_eq_map_eval] at hv ⊢
  obtain ⟨w, hw, rfl⟩ := List.mem_map.mp hv
  obtain ⟨h1, h2, h3⟩ := orbitRows_sym_closed i w hw
  refine ⟨List.mem_map.mpr ⟨_, h1, ?_⟩, List.mem_map.mpr ⟨_, h2, rfl⟩,
    List.mem_map.mpr ⟨_, h3, rfl⟩⟩
  simp [flipX, Vector3T.map, Sym.eval_neg]

theorem SignedPerm.act_inv [LinearOrderedRing α] (g : SignedPerm) (v : Vector3T α) :
    g.act (g.inv.act v) = v := by
  rcases g with ⟨p, sx, sy, sz⟩
  cases p <;> cases sx <;> cases sy <;> cases sz <;>
    simp [SignedPerm.act, SignedPerm.inv, AxisPerm.act, signed]

/-- A property of points preserved by the three generators is preserved by every signed
coordinate permutation. -/
theorem SignedPerm.closed_of_generators [LinearOrderedRing α] (P : Vector3T α → Prop)
    (hf : ∀ v, P v → P (flipX v)) (hxy : ∀ v, P v → P (swapXY v))
    (hyz : ∀ v, P v → P (swapYZ v)) (g : SignedPerm) (v : Vector3T α) (hv : P v) :
    P (g.act v) := by
  have hfy : ∀ v, P v → P (⟨v.x, -v.y, v.z⟩ : Vector3T α) := fun v h => by
    simpa [flipX, swapXY] using hxy _ (hf _ (hxy _ h))
  have hfz : ∀ v, P v → P (⟨v.x, v.y, -v.z⟩ : Vector3T α) := fun v h => by
    simpa [swapYZ] using hyz _ (hfy _ (hyz _ h))
  have hperm : P (g.perm.act v) := by
    cases hp : g.perm
    · simpa [AxisPerm.act] using hv
    · simpa [AxisPerm.act, swapYZ] using hyz _ hv
    · simpa [AxisPerm.act, swapXY] using hxy _ hv
    · simpa [AxisPerm.act, swapXY, swapYZ] using hyz _ (hxy _ hv)
    · simpa [AxisPerm.act, swapXY, swapYZ] using hxy _ (hyz _ hv)
    · simpa [AxisPerm.act, swapXY, swapYZ] using hxy _ (hyz _ (hxy _ hv))
  have hx : P (⟨signed g.negx (g.perm.act v).x, (g.perm.act v).y, (g.perm.act v).z⟩ :
      Vector3T α) := by
    cases g.negx
    · simpa [signed] using hperm
    · simpa [signed, flipX] using hf _ hperm
  have hy : P (⟨signed g.negx (g.perm.act v).x, signed g.negy (g.perm.act v).y,
      (g.perm.act v).z⟩ : Vector3T α) := by
    cases g.negy
    · simpa [signed] using hx
    · simpa [signed] using hfy _ hx
  cases hz : g.negz
  · simpa [SignedPerm.act, signed, hz] using hy
  · simpa [SignedPerm.act, signed, hz] using hfz _ hy

theorem SignedPerm.image_eq_of_closed [LinearOrderedRing α] (S : Set (Vector3T α))
    (h : ∀ v ∈ S, flipX v ∈ S ∧ swapXY v ∈ S ∧ swapYZ v ∈ S) (g : SignedPerm) :
    Set.image g.act S = S := by
  have hall : ∀ (g : SignedPerm) (v : Vector3T α), v ∈ S → g.act v ∈ S := fun g v hv =>
    SignedPerm.closed_of_generators (fun v => v ∈ S) (fun v hv => (h v hv).1)
      (fun v hv => (h v hv).2.1) (fun v hv => (h v hv).2.2) g v hv
  ext v
  constructor
  · rintro ⟨u, hu, rfl⟩
    exact hall g u hu
  · intro hv
    exact ⟨g.inv.act v, hall g.inv v hv, SignedPerm.act_inv g v⟩

theorem flipX_eq_act [Neg α] (v : Vector3T α) :
    flipX v = (⟨.xyz, true, false, false⟩ : SignedPerm).act v := by
  simp [flipX, SignedPerm.act, AxisPerm.act, signed]

theorem swapXY_eq_act [Neg α] (v : Vector3T α) :
    swapXY v = (⟨.yxz, false, false, false⟩ : SignedPerm).act v := by
  simp [swapXY, SignedPerm.act, AxisPerm.act, signed]

theorem swapYZ_eq_act [Neg α] (v : Vector3T α) :
    swapYZ v = (⟨.xzy, false, false, false⟩ : SignedPerm).act v := by
  simp [swapYZ, SignedPerm.act, AxisPerm.act, signed]

/-! ## C2: symmetry closure -/

/-- C2: for an orbit type in `0..6`, arguments in an ordered field and offsets in bounds,
`expand_orbit` returns and the set of rows it wrote (rows `poff .. poff + m - 1` of the
matrix) is mapped onto itself by the sign flip of `x`, by the swap of `x` and `y`, by the
swap of `y` and `z`, and by every one of the 48 signed coordinate permutations. -/
theorem expand_orbit_symmetry_closed [LinearOrderedField α] (i aoff poff n m : Int)
    (args : List α) (pts : List (Vector3T α))
    (hn : narg_for_orbit i = .val n) (hm : npts_for_orbit i = .val m)
    (ha0 : 0 ≤ aoff) (ha1 : aoff + n ≤ args.length)
    (hp0 : 0 ≤ poff) (hp1 : poff + m ≤ pts.length) :
    ∃ pts', expand_orbit i aoff poff args pts = .ret pts' ∧
      Set.image flipX {v | v ∈ rowsAt pts' poff m} = {v | v ∈ rowsAt pts' poff m} ∧
      Set.image swapXY {v | v ∈ rowsAt pts' poff m} = {v | v ∈ rowsAt pts' poff m} ∧
      Set.image swapYZ {v | v ∈ rowsAt pts' poff m} = {v | v ∈ rowsAt pts' poff m} ∧
      ∀ g : SignedPerm,
        Set.image g.act {v | v ∈ rowsAt pts' poff m} = {v | v ∈ rowsAt pts' poff m} := by
  obtain ⟨pts', hret, hrows⟩ := expand_orbit_rows i aoff poff n m args pts hn hm ha0 ha1 hp0 hp1
  have hall : ∀ g : SignedPerm,
      Set.image g.act {v | v ∈ rowsAt pts' poff m} = {v | v ∈ rowsAt pts' poff m} := by
    intro g
    apply SignedPerm.image_eq_of_closed
    intro v hv
    rw [Set.mem_setOf_eq, hrows] at hv
    simp only [Set.mem_setOf_eq, hrows]
    exact orbitRows_closed i _ _ _ v hv
  refine ⟨pts', hret, ?_, ?_, ?_, hall⟩
  · have hf : (flipX : Vector3T α → Vector3T α)
        = (⟨.xyz, true, false, false⟩ : SignedPerm).act := funext flipX_eq_act
    rw [hf]
    exact hall _
  · have hf : (swapXY : Vector3T α → Vector3T α)
        = (⟨.yxz, false, false, false⟩ : SignedPerm).act := funext swapXY_eq_act
    rw [hf]
    exact hall _
  · have hf : (swapYZ : Vector3T α → Vector3T α)
        = (⟨.xzy, false, false, false⟩ : SignedPerm).act := funext swapYZ_eq_act
    rw [hf]
    exact hall _

/-- Instance of `expand_orbit_symmetry_closed`: orbit type 6 with arguments `(2, 3, 5)`
read at offset 1, written to rows `2 .. 49` of a 50-row matrix. -/
theorem expand_orbit_symmetry_closed_witness :
    (narg_for_orbit 6 = .val 3 ∧ npts_for_orbit 6 = .val 48 ∧
      (0 : Int) ≤ 1 ∧ (1 : Int) + 3 ≤ ([7, 2, 3, 5] : List ℚ).length ∧
      (0 : Int) ≤ 2 ∧ (2 : Int) + 48 ≤ (List.replicate 50 (⟨9, 9, 9⟩ : Vector3T ℚ)).length) ∧
    ∃ pts', expand_orbit 6 1 2 [7, 2, 3, 5] (List.replicate 50 (⟨9, 9, 9⟩ : Vector3T ℚ))
        = .ret pts' ∧
      Set.image flipX {v | v ∈ rowsAt pts' 2 48} = {v | v ∈ rowsAt pts' 2 48} ∧
      Set.image swapXY {v | v ∈ rowsAt pts' 2 48} = {v | v ∈ rowsAt pts' 2 48} ∧
      Set.image swapYZ {v | v ∈ rowsAt pts' 2 48} = {v | v ∈ rowsAt pts' 2 48} ∧
      ∀ g : SignedPerm,
        Set.image g.act {v | v ∈ rowsAt pts' 2 48} = {v | v ∈ rowsAt pts' 2 48} :=
  ⟨by decide, expand_orbit_symmetry_closed 6 1 2 3 48 [7, 2, 3, 5] _ (by decide) (by decide)
    (by decide) (by decide) (by decide) (by decide)⟩

/-! ## C3: the rows are the orbit of the representative -/

theorem SignedPerm.act_map_eval [LinearOrderedRing α] (a b c : α) (g : SignedPerm)
    (v : Vector3T Sym) :
    (g.act v).map (Sym.eval a b c) = g.act (v.map (Sym.eval a b c)) := by
  rcases g with ⟨p, sx, sy, sz⟩
  cases p <;> cases sx <;> cases sy <;> cases sz <;>
    simp [SignedPerm.act, AxisPerm.act, signed, Vector3T.map, Sym.eval_neg]

theorem representative_map_eval [Zero α] [Neg α] (i : Int) (a b c : α) :
    (representative i Sym.pa Sym.pb Sym.pc).map (Sym.eval a b c) = representative i a b c := by
  unfold representative
  split <;> rfl

set_option maxRecDepth 100000 in
theorem orbitRows_sym_eq_map_act (i : Int) :
    orbitRows i Sym.pa Sym.pb Sym.pc
      = (orbitElems i).map (fun g => g.act (representative i Sym.pa Sym.pb Sym.pc)) := by
  unfold orbitRows orbitElems representative
  split <;> first | decide | rfl

theorem orbitRows_eq_map_act [LinearOrderedRing α] (i : Int) (a b c : α) :
    orbitRows i a b c = (orbitElems i).map (fun g => g.act (representative i a b c)) := by
  rw [orbitRows_eq_map_eval, orbitRows_sym_eq_map_act, List.map_map]
  apply List.map_congr_left
  intro g _
  simp only [Function.comp_apply]
  rw [SignedPerm.act_map_eval, representative_map_eval]

theorem representative_mem_orbitRows [LinearOrderedRing α] (i m : Int) (a b c : α)
    (hm : npts_for_orbit i = .val m) : representative i a b c ∈ orbitRows i a b c := by
  unfold npts_for_orbit at hm
  split at hm
  · simp [representative, orbitRows, expand_case0]
  · simp [representative, orbitRows, expand_case1]
  · simp [representative, orbitRows, expand_case2]
  · simp [representative, orbitRows, expand_case3]
  · simp [representative, orbitRows, expand_case4]
  · simp [representative, orbitRows, expand_case5]
  · simp [representative, orbitRows, expand_case6]
  · simp at hm

theorem act_representative_mem [LinearOrderedRing α] (i m : Int) (a b c : α)
    (hm : npts_for_orbit i = .val m) (g : SignedPerm) :
    g.act (representative i a b c) ∈ orbitRows i a b c :=
  SignedPerm.closed_of_generators (fun v => v ∈ orbitRows i a b c)
    (fun v hv => (orbitRows_closed i a b c v hv).1)
    (fun v hv => (orbitRows_closed i a b c v hv).2.1)
    (fun v hv => (orbitRows_closed i a b c v hv).2.2) g _
    (representative_mem_orbitRows i m a b c hm)

theorem mem_orbitRows_is_image [LinearOrderedRing α] (i : Int) (a b c : α) (v : Vector3T α)
    (hv : v ∈ orbitRows i a b c) : ∃ g : SignedPerm, g.act (representative i a b c) = v := by
  rw [orbitRows_eq_map_act, List.mem_map] at hv
  obtain ⟨g, _, hg⟩ := hv
  exact ⟨g, hg⟩

theorem codeFrom_values [LinearOrderedField α] (a b c : α)
    (ha : a ≠ 0) (hb : b ≠ 0) (hc : c ≠ 0)
    (hab : |a| ≠ |b|) (hac : |a| ≠ |c|) (hbc : |b| ≠ |c|) :
    codeFrom 1 [a, b, c] 0 = 0 ∧
    codeFrom 1 [a, b, c] a = 1 ∧ codeFrom 1 [a, b, c] (-a) = -1 ∧
    codeFrom 1 [a, b, c] b = 2 ∧ codeFrom 1 [a, b, c] (-b) = -2 ∧
    codeFrom 1 [a, b, c] c = 3 ∧ codeFrom 1 [a, b, c] (-c) = -3 := by
  have h1 : a ≠ b := fun h => hab (by rw [h])
  have h2 : a ≠ -b := fun h => hab (by rw [h, abs_neg])
  have h3 : a ≠ c := fun h => hac (by rw [h])
  have h4 : a ≠ -c := fun h => hac (by rw [h, abs_neg])
  have h5 : b ≠ c := fun h => hbc (by rw [h])
  have h6 : b ≠ -c := fun h => hbc (by rw [h, abs_neg])
  have h1' : b ≠ a := fun h => h1 h.symm
  have h2' : b ≠ -a := fun h => h2 (by rw [h, neg_neg])
  have h3' : c ≠ a := fun h => h3 h.symm
  have h4' : c ≠ -a := fun h => h4 (by rw [h, neg_neg])
  have h5' : c ≠ b := fun h => h5 h.symm
  have h6' : c ≠ -b := fun h => h6 (by rw [h, neg_neg])
  have z1 : (0 : α) ≠ a := fun h => ha h.symm
  have z2 : (0 : α) ≠ b := fun h => hb h.symm
  have z3 : (0 : α) ≠ c := fun h => hc h.symm
  have n1 : a ≠ -a := fun h => ha (by linarith)
  have n2 : b ≠ -b := fun h => hb (by linarith)
  have n3 : c ≠ -c := fun h => hc (by linarith)
  simp [codeFrom, ha, hb, hc, h1, h2, h3, h4, h5, h6, h1', h2', h3', h4', h5', h6', z1, z2, z3,
    n1, n2, n3, neg_eq_iff_eq_neg]

theorem orbitRows_int_nodup (i : Int) : (orbitRows i (1 : Int) 2 3).Nodup := by
  unfold orbitRows
  split <;> decide

theorem orbitRows_map_code [LinearOrderedField α] (i : Int) (a b c : α) (f : α → Int)
    (h0 : f 0 = 0) (ha : f a = 1) (hna : f (-a) = -1) (hb : f b = 2) (hnb : f (-b) = -2)
    (hc : f c = 3) (hnc : f (-c) = -3) :
    (orbitRows i a b c).map (Vector3T.map f) = orbitRows i (1 : Int) 2 3 := by
  unfold orbitRows
  split
  · simp [expand_case0, Vector3T.map, h0]
  · simp [expand_case1, Vector3T.map, h0, ha, hna]
  · simp [expand_case2, Vector3T.map, h0, ha, hna]
  · simp [expand_case3, Vector3T.map, h0, ha, hna]
  · simp [expand_case4, Vector3T.map, h0, ha, hna, hb, hnb]
  · simp [expand_case5, Vector3T.map, h0, ha, hna, hb, hnb]
  · simp [expand_case6, Vector3T.map, h0, ha, hna, hb, hnb, hc, hnc]
  · simp

theorem orbitRows_congr [Zero α] [Neg α] (i n : Int) (a b c a' b' c' : α)
    (hn : narg_for_orbit i = .val n)
    (ha : 0 < n → a = a') (hb : 1 < n → b = b') (hc : 2 < n → c = c') :
    orbitRows i a b c = orbitRows i a' b' c' := by
  unfold narg_for_orbit at hn
  split at hn <;> simp at hn <;> subst hn <;> simp at ha hb hc <;>
    simp [orbitRows, ha, hb, hc]

theorem narg_for_orbit_range (i n : Int) (hn : narg_for_orbit i = .val n) :
    n = 0 ∨ n = 1 ∨ n = 2 ∨ n = 3 := by
  unfold narg_for_orbit at hn
  split at hn <;> simp at hn <;> omega

/-- The rows of an orbit are pairwise distinct when its arguments are non-zero and have
pairwise distinct absolute values. -/
theorem orbitRows_nodup [LinearOrderedField α] (i n : Int) (a b c : α)
    (hn : narg_for_orbit i = .val n)
    (ha : 0 < n → a ≠ 0) (hb : 1 < n → b ≠ 0 ∧ |a| ≠ |b|)
    (hc : 2 < n → c ≠ 0 ∧ |a| ≠ |c| ∧ |b| ≠ |c|) :
    (orbitRows i a b c).Nodup := by
  obtain ⟨a', b', c', ea, eb, ec, ha', hb', hc', hab, hac, hbc⟩ :
      ∃ a' b' c' : α, (0 < n → a = a') ∧ (1 < n → b = b') ∧ (2 < n → c = c') ∧
        a' ≠ 0 ∧ b' ≠ 0 ∧ c' ≠ 0 ∧ |a'| ≠ |b'| ∧ |a'| ≠ |c'| ∧ |b'| ≠ |c'| := by
    have key : ∀ x y : α, x ≠ 0 → |x| + |y| + 1 ≠ 0 ∧ |x| ≠ abs (|x| + |y| + 1) ∧
        |y| ≠ abs (|x| + |y| + 1) := by
      intro x y _
      have hx := abs_nonneg x
      have hy := abs_nonneg y
      have hpos : 0 < |x| + |y| + 1 := by linarith
      rw [abs_of_pos hpos]
      exact ⟨ne_of_gt hpos, by intro h; linarith, by intro h; linarith⟩
    rcases narg_for_orbit_range i n hn with h | h | h | h <;> subst h
    · obtain ⟨k1, k2, k3⟩ := key (1 : α) 0 one_ne_zero
      obtain ⟨k4, k5, k6⟩ := key (1 : α) (|(1 : α)| + |(0 : α)| + 1) one_ne_zero
      exact ⟨1, |(1 : α)| + |(0 : α)| + 1, |(1 : α)| + abs (|(1 : α)| + |(0 : α)| + 1) + 1,
        by simp, by simp, by simp, one_ne_zero, k1, k4, k2, k5, k6⟩
    · have ha1 := ha (by decide)
      obtain ⟨k1, k2, k3⟩ := key a 0 ha1
      obtain ⟨k4, k5, k6⟩ := key a (|a| + |(0 : α)| + 1) ha1
      exact ⟨a, |a| + |(0 : α)| + 1, |a| + abs (|a| + |(0 : α)| + 1) + 1,
        by simp, by simp, by simp, ha1, k1, k4, k2, k5, k6⟩
    · have ha1 := ha (by decide)
      obtain ⟨hb1, hb2⟩ := hb (by decide)
      obtain ⟨k4, k5, k6⟩ := key a b ha1
      exact ⟨a, b, |a| + |b| + 1, by simp, by simp, by simp, ha1, hb1, k4, hb2, k5, k6⟩
    · have ha1 := ha (by decide)
      obtain ⟨hb1, hb2⟩ := hb (by decide)
      obtain ⟨hc1, hc2, hc3⟩ := hc (by decide)
      exact ⟨a, b, c, by simp, by simp, by simp, ha1, hb1, hc1, hb2, hc2, hc3⟩
  rw [orbitRows_congr i n a b c a' b' c' hn ea eb ec]
  obtain ⟨v0, v1, v2, v3, v4, v5, v6⟩ := codeFrom_values a' b' c' ha' hb' hc' hab hac hbc
  have hmap := orbitRows_map_code i a' b' c' (codeFrom 1 [a', b', c']) v0 v1 v2 v3 v4 v5 v6
  have hnd := orbitRows_int_nodup i
  rw [← hmap] at hnd
  exact List.Nodup.of_map _ hnd

/-- C3 (as amended): for an orbit type in `0..6` and offsets in bounds, `expand_orbit`
returns and the rows it wrote are the images of the representative point under the
signed coordinate permutations: every written row is an image, every image is a written
row, there are `npts_for_orbit i` rows, and the rows are pairwise distinct whenever the
arguments are non-zero and have pairwise distinct absolute values. -/
theorem expand_orbit_enumerates_orbit [LinearOrderedField α] (i aoff poff n m : Int)
    (args : List α) (pts : List (Vector3T α))
    (hn : narg_for_orbit i = .val n) (hm : npts_for_orbit i = .val m)
    (ha0 : 0 ≤ aoff) (ha1 : aoff + n ≤ args.length)
    (hp0 : 0 ≤ poff) (hp1 : poff + m ≤ pts.length) :
    ∃ pts', expand_orbit i aoff poff args pts = .ret pts' ∧
      (∀ v ∈ rowsAt pts' poff m, ∃ g : SignedPerm,
        g.act (representative i (argAt args aoff 0) (argAt args aoff 1) (argAt args aoff 2))
          = v) ∧
      (∀ g : SignedPerm,
        g.act (representative i (argAt args aoff 0) (argAt args aoff 1) (argAt args aoff 2))
          ∈ rowsAt pts' poff m) ∧
      ((rowsAt pts' poff m).length : Int) = m ∧
      ((∀ k : Int, 0 ≤ k → k < n → argAt args aoff k ≠ 0) →
        (∀ j k : Int, 0 ≤ j → j < k → k < n → |argAt args aoff j| ≠ |argAt args aoff k|) →
        (rowsAt pts' poff m).Nodup) := by
  obtain ⟨pts', hret, hrows⟩ := expand_orbit_rows i aoff poff n m args pts hn hm ha0 ha1 hp0 hp1
  refine ⟨pts', hret, ?_, ?_, ?_, ?_⟩
  · intro v hv
    rw [hrows] at hv
    exact mem_orbitRows_is_image i _ _ _ v hv
  · intro g
    rw [hrows]
    exact act_representative_mem i m _ _ _ hm g
  · rw [hrows]
    exact orbitRows_length i m _ _ _ hm
  · intro hz hd
    rw [hrows]
    refine orbitRows_nodup i n _ _ _ hn (fun h => hz 0 le_rfl h)
      (fun h => ⟨hz 1 (by decide) h, hd 0 1 le_rfl (by decide) h⟩)
      (fun h => ⟨hz 2 (by decide) h, hd 0 2 le_rfl (by decide) h,
        hd 1 2 (by decide) (by decide) h⟩)

/-- Instance of `expand_orbit_enumerates_orbit`: orbit type 5 with arguments `(2, 3)` read
at offset 1, written to rows `1 .. 24` of a 26-row matrix. -/
theorem expand_orbit_enumerates_orbit_witness :
    (narg_for_orbit 5 = .val 2 ∧ npts_for_orbit 5 = .val 24 ∧
      (0 : Int) ≤ 1 ∧ (1 : Int) + 2 ≤ ([7, 2, 3] : List ℚ).length ∧
      (0 : Int) ≤ 1 ∧ (1 : Int) + 24 ≤ (List.replicate 26 (⟨9, 9, 9⟩ : Vector3T ℚ)).length) ∧
    ∃ pts', expand_orbit 5 1 1 [7, 2, 3] (List.replicate 26 (⟨9, 9, 9⟩ : Vector3T ℚ))
        = .ret pts' ∧
      (∀ v ∈ rowsAt pts' 1 24, ∃ g : SignedPerm,
        g.act (representative 5 (argAt [7, 2, 3] 1 0) (argAt [7, 2, 3] 1 1)
          (argAt ([7, 2, 3] : List ℚ) 1 2)) = v) ∧
      (∀ g : SignedPerm,
        g.act (representative 5 (argAt [7, 2, 3] 1 0) (argAt [7, 2, 3] 1 1)
          (argAt ([7, 2, 3] : List ℚ) 1 2)) ∈ rowsAt pts' 1 24) ∧
      ((rowsAt pts' 1 24).length : Int) = 24 ∧
      ((∀ k : Int, 0 ≤ k → k < 2 → argAt ([7, 2, 3] : List ℚ) 1 k ≠ 0) →
        (∀ j k : Int, 0 ≤ j → j < k → k < 2 →
          |argAt ([7, 2, 3] : List ℚ) 1 j| ≠ |argAt ([7, 2, 3] : List ℚ) 1 k|) →
        (rowsAt pts' 1 24).Nodup) :=
  ⟨by decide, expand_orbit_enumerates_orbit 5 1 1 2 24 [7, 2, 3] _ (by decide) (by decide)
    (by decide) (by decide) (by decide) (by decide)⟩

/-- C3 (as stated) fails: for orbit type 4 with the arguments `(1, -1)`, which are
non-zero and distinct, `expand_orbit` writes 24 rows that are not pairwise distinct. -/
theorem expand_orbit_distinct_args_repeated_rows :
    expand_orbit 4 0 0 [(1 : ℚ), -1] (List.replicate 24 ⟨0, 0, 0⟩)
        = .ret (orbitRows 4 (1 : ℚ) (-1) 0) ∧
      npts_for_orbit 4 = .val 24 ∧
      (1 : ℚ) ≠ 0 ∧ (-1 : ℚ) ≠ 0 ∧ (1 : ℚ) ≠ -1 ∧
      ¬ (rowsAt (orbitRows 4 (1 : ℚ) (-1) 0) 0 24).Nodup := by
  decide

/-! ## C4: which argument vectors give the same point set -/

theorem argWindow_eq_take [Zero α] (args : List α) (i aoff n : Int)
    (hn : narg_for_orbit i = .val n) :
    argWindow args aoff n
      = [argAt args aoff 0, argAt args aoff 1, argAt args aoff 2].take n.toNat := by
  rcases narg_for_orbit_range i n hn with h | h | h | h <;> subst h <;>
    simp [argWindow, List.range_succ]

theorem not_nodup_of_getElem?_eq {β : Type} (l : List β) (j k : Nat) (hjk : j < k)
    (hk : k < l.length) (h : l[j]? = l[k]?) : ¬ l.Nodup := fun hnd =>
  (List.nodup_iff_getElem?_ne_getElem?.mp hnd) j k hjk hk h

/-- An orbit whose rows are pairwise distinct has non-zero arguments. -/
theorem orbitRows_nodup_ne_zero [LinearOrderedField α] (i n : Int) (a b c : α)
    (hn : narg_for_orbit i = .val n) (hnd : (orbitRows i a b c).Nodup) :
    (0 < n → a ≠ 0) ∧ (1 < n → b ≠ 0) ∧ (2 < n → c ≠ 0) := by
  unfold narg_for_orbit at hn
  split at hn <;> simp at hn <;> subst hn
  · simp
  · refine ⟨fun _ h => ?_, by simp, by simp⟩
    subst h
    exact not_nodup_of_getElem?_eq _ 0 1 (by decide) (by simp [orbitRows, expand_case1])
      (by simp [orbitRows, expand_case1]) hnd
  · refine ⟨fun _ h => ?_, by simp, by simp⟩
    subst h
    exact not_nodup_of_getElem?_eq _ 0 1 (by decide) (by simp [orbitRows, expand_case2])
      (by simp [orbitRows, expand_case2]) hnd
  · refine ⟨fun _ h => ?_, by simp, by simp⟩
    subst h
    exact not_nodup_of_getElem?_eq _ 0 1 (by decide) (by simp [orbitRows, expand_case3])
      (by simp [orbitRows, expand_case3]) hnd
  · refine ⟨fun _ h => ?_, fun _ h => ?_, by simp⟩
    · subst h
      exact not_nodup_of_getElem?_eq _ 0 1 (by decide) (by simp [orbitRows, expand_case4])
        (by simp [orbitRows, expand_case4]) hnd
    · subst h
      exact not_nodup_of_getElem?_eq _ 0 4 (by decide) (by simp [orbitRows, expand_case4])
        (by simp [orbitRows, expand_case4]) hnd
  · refine ⟨fun _ h => ?_, fun _ h => ?_, by simp⟩
    · subst h
      exact not_nodup_of_getElem?_eq _ 0 2 (by decide) (by simp [orbitRows, expand_case5])
        (by simp [orbitRows, expand_case5]) hnd
    · subst h
      exact not_nodup_of_getElem?_eq _ 0 6 (by decide) (by simp [orbitRows, expand_case5])
        (by simp [orbitRows, expand_case5]) hnd
  · refine ⟨fun _ h => ?_, fun _ h => ?_, fun _ h => ?_⟩
    · subst h
      exact not_nodup_of_getElem?_eq _ 0 25 (by decide) (by simp [orbitRows, expand_case6])
        (by simp [orbitRows, expand_case6]) hnd
    · subst h
      exact not_nodup_of_getElem?_eq _ 0 40 (by decide) (by simp [orbitRows, expand_case6])
        (by simp [orbitRows, expand_case6]) hnd
    · subst h
      exact not_nodup_of_getElem?_eq _ 0 7 (by decide) (by simp [orbitRows, expand_case6])
        (by simp [orbitRows, expand_case6]) hnd

/-- Taking absolute values of the coordinates turns a signed coordinate permutation into
its axis permutation. -/
theorem SignedPerm.map_abs_act [LinearOrderedField α] (g : SignedPerm) (v : Vector3T α) :
    (g.act v).map abs = g.perm.act (v.map abs) := by
  rcases g with ⟨p, sx, sy, sz⟩
  cases p <;> cases sx <;> cases sy <;> cases sz <;>
    simp [SignedPerm.act, AxisPerm.act, signed, Vector3T.map]

set_option linter.unusedTactic false in
set_option linter.unreachableTactic false in
/-- A signed coordinate permutation that maps the representative of positive arguments to
the representative of other positive arguments rearranges the arguments. -/
theorem representative_act_eq [LinearOrderedField α] (i n : Int) (a b c a' b' c' : α)
    (hi : 1 ≤ i) (hn : narg_for_orbit i = .val n)
    (ha : 0 < n → 0 < a ∧ 0 < a') (hb : 1 < n → 0 < b ∧ 0 < b')
    (hc : 2 < n → 0 < c ∧ 0 < c') (g : SignedPerm)
    (hg : g.act (representative i a b c) = representative i a' b' c') :
    ([a, b, c].take n.toNat).Perm ([a', b', c'].take n.toNat) ∧
      (i ≠ 4 → i ≠ 6 → [a, b, c].take n.toNat = [a', b', c'].take n.toNat) := by
  have habs := congrArg (Vector3T.map abs) hg
  rw [SignedPerm.map_abs_act] at habs
  have hx := congrArg Vector3T.x habs
  have hy := congrArg Vector3T.y habs
  have hz := congrArg Vector3T.z habs
  clear hg habs
  generalize g.perm = p at hx hy hz
  unfold narg_for_orbit at hn
  split at hn <;> simp at hn <;> subst hn
  · omega
  · obtain ⟨pa, pa'⟩ := ha (by decide)
    cases p <;>
      simp only [representative, AxisPerm.act, Vector3T.map, abs_zero, abs_of_pos pa,
        abs_of_pos pa'] at hx hy hz <;>
      first
        | (exfalso; linarith)
        | (subst_vars; simp; done)
        | (subst_vars; simp; exact List.Perm.swap _ _ _)
        | (subst_vars; simp; exact (List.Perm.swap _ _ _).trans ((List.Perm.swap _ _ _).cons _))
        | (subst_vars; simp; exact ((List.Perm.swap _ _ _).cons _).trans (List.Perm.swap _ _ _))
        | (subst_vars; simp;
            exact (List.Perm.swap _ _ _).trans
              (((List.Perm.swap _ _ _).cons _).trans (List.Perm.swap _ _ _)))
  · obtain ⟨pa, pa'⟩ := ha (by decide)
    cases p <;>
      simp only [representative, AxisPerm.act, Vector3T.map, abs_zero, abs_of_pos pa,
        abs_of_pos pa'] at hx hy hz <;>
      first
        | (exfalso; linarith)
        | (subst_vars; simp; done)
        | (subst_vars; simp; exact List.Perm.swap _ _ _)
        | (subst_vars; simp; exact (List.Perm.swap _ _ _).trans ((List.Perm.swap _ _ _).cons _))
        | (subst_vars; simp; exact ((List.Perm.swap _ _ _).cons _).trans (List.Perm.swap _ _ _))
        | (subst_vars; simp;
            exact (List.Perm.swap _ _ _).trans
              (((List.Perm.swap _ _ _).cons _).trans (List.Perm.swap _ _ _)))
  · obtain ⟨pa, pa'⟩ := ha (by decide)
    cases p <;>
      simp only [representative, AxisPerm.act, Vector3T.map, abs_zero, abs_of_pos pa,
        abs_of_pos pa'] at hx hy hz <;>
      first
        | (exfalso; linarith)
        | (subst_vars; simp; done)
        | (subst_vars; simp; exact List.Perm.swap _ _ _)
        | (subst_vars; simp; exact (List.Perm.swap _ _ _).trans ((List.Perm.swap _ _ _).cons _))
        | (subst_vars; simp; exact ((List.Perm.swap _ _ _).cons _).trans (List.Perm.swap _ _ _))
        | (subst_vars; simp;
            exact (List.Perm.swap _ _ _).trans
              (((List.Perm.swap _ _ _).cons _).trans (List.Perm.swap _ _ _)))
  · obtain ⟨pa, pa'⟩ := ha (by decide)
    obtain ⟨pb, pb'⟩ := hb (by decide)
    cases p <;>
      simp only [representative, AxisPerm.act, Vector3T.map, abs_zero, abs_of_pos pa,
        abs_of_pos pa', abs_of_pos pb, abs_of_pos pb'] at hx hy hz <;>
      first
        | (exfalso; linarith)
        | (subst_vars; simp; done)
        | (subst_vars; simp; exact List.Perm.swap _ _ _)
        | (subst_vars; simp; exact (List.Perm.swap _ _ _).trans ((List.Perm.swap _ _ _).cons _))
        | (subst_vars; simp; exact ((List.Perm.swap _ _ _).cons _).trans (List.Perm.swap _ _ _))
        | (subst_vars; simp;
            exact (List.Perm.swap _ _ _).trans
              (((List.Perm.swap _ _ _).cons _).trans (List.Perm.swap _ _ _)))
  · obtain ⟨pa, pa'⟩ := ha (by decide)
    obtain ⟨pb, pb'⟩ := hb (by decide)
    cases p <;>
      simp only [representative, AxisPerm.act, Vector3T.map, abs_zero, abs_of_pos pa,
        abs_of_pos pa', abs_of_pos pb, abs_of_pos pb'] at hx hy hz <;>
      first
        | (exfalso; linarith)
        | (subst_vars; simp; done)
        | (subst_vars; simp; exact List.Perm.swap _ _ _)
        | (subst_vars; simp; exact (List.Perm.swap _ _ _).trans ((List.Perm.swap _ _ _).cons _))
        | (subst_vars; simp; exact ((List.Perm.swap _ _ _).cons _).trans (List.Perm.swap _ _ _))
        | (subst_vars; simp;
            exact (List.Perm.swap _ _ _).trans
              (((List.Perm.swap _ _ _).cons _).trans (List.Perm.swap _ _ _)))
  · obtain ⟨pa, pa'⟩ := ha (by decide)
    obtain ⟨pb, pb'⟩ := hb (by decide)
    obtain ⟨pc, pc'⟩ := hc (by decide)
    cases p <;>
      simp only [representative, AxisPerm.act, Vector3T.map, abs_zero, abs_of_pos pa,
        abs_of_pos pa', abs_of_pos pb, abs_of_pos pb', abs_of_pos pc, abs_of_pos pc']
        at hx hy hz <;>
      first
        | (exfalso; linarith)
        | (subst_vars; simp; done)
        | (subst_vars; simp; exact List.Perm.swap _ _ _)
        | (subst_vars; simp; exact (List.Perm.swap _ _ _).trans ((List.Perm.swap _ _ _).cons _))
        | (subst_vars; simp; exact ((List.Perm.swap _ _ _).cons _).trans (List.Perm.swap _ _ _))
        | (subst_vars; simp;
            exact (List.Perm.swap _ _ _).trans
              (((List.Perm.swap _ _ _).cons _).trans (List.Perm.swap _ _ _)))

theorem orbitRows4_swap_mem [LinearOrderedField α] (a b c : α) :
    ∀ v ∈ orbitRows 4 a b c, v ∈ orbitRows 4 b a c := by
  intro v hv
  obtain ⟨g, rfl⟩ := mem_orbitRows_is_image 4 a b c v hv
  have hrep : representative 4 a b c ∈ orbitRows 4 b a c := by
    have h := (orbitRows_closed 4 b a c _
      (representative_mem_orbitRows 4 24 b a c (by decide))).2.1
    simpa [representative, swapXY] using h
  exact SignedPerm.closed_of_generators (fun v => v ∈ orbitRows 4 b a c)
    (fun v hv => (orbitRows_closed 4 b a c v hv).1)
    (fun v hv => (orbitRows_closed 4 b a c v hv).2.1)
    (fun v hv => (orbitRows_closed 4 b a c v hv).2.2) g _ hrep

/-- C4 (as amended): for an orbit type in `1..6` and two argument vectors with entries in
`[0, 1]`, if neither is degenerate (each yields pairwise distinct rows) and `expand_orbit`
writes the same set of points for both, then one parameter vector is a rearrangement of
the other, and for the orbit types other than 4 and 6 the two parameter vectors are equal. -/
theorem expand_orbit_same_points_rearranged [LinearOrderedField α]
    (i aoff poff n m : Int) (args₁ args₂ : List α) (pts : List (Vector3T α))
    (hi : 1 ≤ i)
    (hn : narg_for_orbit i = .val n) (hm : npts_for_orbit i = .val m)
    (ha0 : 0 ≤ aoff) (ha1 : aoff + n ≤ args₁.length) (ha2 : aoff + n ≤ args₂.length)
    (hp0 : 0 ≤ poff) (hp1 : poff + m ≤ pts.length)
    (hu : ∀ k : Int, 0 ≤ k → k < n → 0 ≤ argAt args₁ aoff k ∧ argAt args₁ aoff k ≤ 1)
    (hv : ∀ k : Int, 0 ≤ k → k < n → 0 ≤ argAt args₂ aoff k ∧ argAt args₂ aoff k ≤ 1) :
    ∃ p₁ p₂, expand_orbit i aoff poff args₁ pts = .ret p₁ ∧
      expand_orbit i aoff poff args₂ pts = .ret p₂ ∧
      ((rowsAt p₁ poff m).Nodup → (rowsAt p₂ poff m).Nodup →
        (∀ x, x ∈ rowsAt p₁ poff m ↔ x ∈ rowsAt p₂ poff m) →
        (argWindow args₁ aoff n).Perm (argWindow args₂ aoff n) ∧
          (i ≠ 4 → i ≠ 6 → argWindow args₁ aoff n = argWindow args₂ aoff n)) := by
  obtain ⟨p₁, hret₁, hrows₁⟩ :=
    expand_orbit_rows i aoff poff n m args₁ pts hn hm ha0 ha1 hp0 hp1
  obtain ⟨p₂, hret₂, hrows₂⟩ :=
    expand_orbit_rows i aoff poff n m args₂ pts hn hm ha0 ha2 hp0 hp1
  refine ⟨p₁, p₂, hret₁, hret₂, ?_⟩
  rw [hrows₁, hrows₂, argWindow_eq_take args₁ i aoff n hn, argWindow_eq_take args₂ i aoff n hn]
  intro hnd₁ hnd₂ hsame
  obtain ⟨za, zb, zc⟩ := orbitRows_nodup_ne_zero i n _ _ _ hn hnd₁
  obtain ⟨za', zb', zc'⟩ := orbitRows_nodup_ne_zero i n _ _ _ hn hnd₂
  have hmem := (hsame _).mpr (representative_mem_orbitRows i m (argAt args₂ aoff 0)
    (argAt args₂ aoff 1) (argAt args₂ aoff 2) hm)
  obtain ⟨g, hg⟩ := mem_orbitRows_is_image i _ _ _ _ hmem
  exact representative_act_eq i n _ _ _ _ _ _ hi hn
    (fun h => ⟨lt_of_le_of_ne (hu 0 le_rfl h).1 (Ne.symm (za h)),
      lt_of_le_of_ne (hv 0 le_rfl h).1 (Ne.symm (za' h))⟩)
    (fun h => ⟨lt_of_le_of_ne (hu 1 (by decide) h).1 (Ne.symm (zb h)),
      lt_of_le_of_ne (hv 1 (by decide) h).1 (Ne.symm (zb' h))⟩)
    (fun h => ⟨lt_of_le_of_ne (hu 2 (by decide) h).1 (Ne.symm (zc h)),
      lt_of_le_of_ne (hv 2 (by decide) h).1 (Ne.symm (zc' h))⟩) g hg

/-- Instance of `expand_orbit_same_points_rearranged`: orbit type 3 with the argument `1`
read at offset 1 of two different argument vectors. -/
theorem expand_orbit_same_points_rearranged_witness :
    ((1 : Int) ≤ 3 ∧ narg_for_orbit 3 = .val 1 ∧ npts_for_orbit 3 = .val 12 ∧
      (0 : Int) ≤ 1 ∧ (1 : Int) + 1 ≤ ([7, 1] : List ℚ).length ∧
      (1 : Int) + 1 ≤ ([3, 1, 5] : List ℚ).length ∧
      (0 : Int) ≤ 1 ∧ (1 : Int) + 12 ≤ (List.replicate 14 (⟨9, 9, 9⟩ : Vector3T ℚ)).length ∧
      (∀ k : Int, 0 ≤ k → k < 1 →
        0 ≤ argAt ([7, 1] : List ℚ) 1 k ∧ argAt ([7, 1] : List ℚ) 1 k ≤ 1) ∧
      (∀ k : Int, 0 ≤ k → k < 1 →
        0 ≤ argAt ([3, 1, 5] : List ℚ) 1 k ∧ argAt ([3, 1, 5] : List ℚ) 1 k ≤ 1)) ∧
    ∃ p₁ p₂, expand_orbit 3 1 1 [7, 1] (List.replicate 14 (⟨9, 9, 9⟩ : Vector3T ℚ))
        = .ret p₁ ∧
      expand_orbit 3 1 1 [3, 1, 5] (List.replicate 14 (⟨9, 9, 9⟩ : Vector3T ℚ)) = .ret p₂ ∧
      ((rowsAt p₁ 1 12).Nodup → (rowsAt p₂ 1 12).Nodup →
        (∀ x, x ∈ rowsAt p₁ 1 12 ↔ x ∈ rowsAt p₂ 1 12) →
        (argWindow ([7, 1] : List ℚ) 1 1).Perm (argWindow ([3, 1, 5] : List ℚ) 1 1) ∧
          ((3 : Int) ≠ 4 → (3 : Int) ≠ 6 →
            argWindow ([7, 1] : List ℚ) 1 1 = argWindow ([3, 1, 5] : List ℚ) 1 1)) := by
  have hk : ∀ (l : List ℚ), (0 ≤ argAt l 1 0 ∧ argAt l 1 0 ≤ 1) →
      ∀ k : Int, 0 ≤ k → k < 1 → 0 ≤ argAt l 1 k ∧ argAt l 1 k ≤ 1 := by
    intro l h0 k hk0 hk1
    have : k = 0 := by omega
    subst this
    exact h0
  exact ⟨⟨by decide, by decide, by decide, by decide, by decide, by decide, by decide,
      by decide, hk _ (by decide), hk _ (by decide)⟩,
    expand_orbit_same_points_rearranged 3 1 1 1 12 [7, 1] [3, 1, 5] _ (by decide)
      (by decide) (by decide) (by decide) (by decide) (by decide) (by decide) (by decide)
      (hk _ (by decide)) (hk _ (by decide))⟩

/-- C4 (as stated) fails: for orbit type 4 the argument vectors `(1/2, 1)` and `(1, 1/2)`
are distinct, have entries in `[0, 1]`, are both non-degenerate (24 pairwise distinct
rows each), and `expand_orbit` writes the same set of points for both. -/
theorem expand_orbit_rearranged_args_same_points :
    ([1 / 2, 1] : List ℚ) ≠ [1, 1 / 2] ∧
      (∀ x ∈ ([1 / 2, 1] : List ℚ), 0 ≤ x ∧ x ≤ 1) ∧
      (∀ x ∈ ([1, 1 / 2] : List ℚ), 0 ≤ x ∧ x ≤ 1) ∧
      npts_for_orbit 4 = .val 24 ∧
      ∃ p₁ p₂,
        expand_orbit 4 0 0 ([1 / 2, 1] : List ℚ) (List.replicate 24 ⟨0, 0, 0⟩) = .ret p₁ ∧
        expand_orbit 4 0 0 ([1, 1 / 2] : List ℚ) (List.replicate 24 ⟨0, 0, 0⟩) = .ret p₂ ∧
        (rowsAt p₁ 0 24).Nodup ∧ (rowsAt p₂ 0 24).Nodup ∧
        ∀ x, x ∈ rowsAt p₁ 0 24 ↔ x ∈ rowsAt p₂ 0 24 := by
  refine ⟨by norm_num, by norm_num, by norm_num, by decide, ?_⟩
  obtain ⟨p₁, hret₁, hrows₁⟩ := expand_orbit_rows 4 0 0 2 24 ([1 / 2, 1] : List ℚ)
    (List.replicate 24 ⟨0, 0, 0⟩) (by decide) (by decide) (by decide) (by decide)
    (by decide) (by decide)
  obtain ⟨p₂, hret₂, hrows₂⟩ := expand_orbit_rows 4 0 0 2 24 ([1, 1 / 2] : List ℚ)
    (List.replicate 24 ⟨0, 0, 0⟩) (by decide) (by decide) (by decide) (by decide)
    (by decide) (by decide)
  have e1 : argAt ([1 / 2, 1] : List ℚ) 0 0 = 1 / 2 := by simp [argAt, getAt]
  have e2 : argAt ([1 / 2, 1] : List ℚ) 0 1 = 1 := by simp [argAt, getAt]
  have e3 : argAt ([1, 1 / 2] : List ℚ) 0 0 = 1 := by simp [argAt, getAt]
  have e4 : argAt ([1, 1 / 2] : List ℚ) 0 1 = 1 / 2 := by simp [argAt, getAt]
  have e5 : argAt ([1 / 2, 1] : List ℚ) 0 2 = 0 := by simp [argAt, getAt]
  have e6 : argAt ([1, 1 / 2] : List ℚ) 0 2 = 0 := by simp [argAt, getAt]
  rw [e1, e2, e5] at hrows₁
  rw [e3, e4, e6] at hrows₂
  refine ⟨p₁, p₂, hret₁, hret₂, ?_, ?_, ?_⟩
  · rw [hrows₁]
    exact orbitRows_nodup 4 2 _ _ _ (by decide) (fun _ => by norm_num)
      (fun _ => ⟨by norm_num, by norm_num [abs_of_pos]⟩) (fun h => absurd h (by decide))
  · rw [hrows₂]
    exact orbitRows_nodup 4 2 _ _ _ (by decide) (fun _ => by norm_num)
      (fun _ => ⟨by norm_num, by norm_num [abs_of_pos]⟩) (fun h => absurd h (by decide))
  · intro x
    rw [hrows₁, hrows₂]
    exact ⟨orbitRows4_swap_mem _ _ _ x, orbitRows4_swap_mem _ _ _ x⟩

/-! ## The loops over the degree -/

theorem wrap32_eq_self (x : Int) (h1 : -2147483648 ≤ x) (h2 : x ≤ 2147483647) :
    wrap32 x = x := by
  unfold wrap32
  omega

theorem wrap32_wrap32_add (x y : Int) : wrap32 (wrap32 x + y) = wrap32 (x + y) := by
  unfold wrap32
  omega

/-- A loop whose bound leaves room for the last increment (`hi + 2` is an `int`) runs its
body at `x, x + 2, ...` up to `hi`: the loop variable does not wrap. -/
theorem forStep2_eq_foldlM {σ : Type} (hi : Int) (body : Int → σ → Option σ)
    (hhi : hi ≤ 2147483645) :
    ∀ (fuel : Nat) (x : Int) (s : σ), -2147483648 ≤ x → hi < x + 2 * fuel →
      forStep2 hi body fuel x s = (stepsFrom hi fuel x).foldlM (fun s x => body x s) s := by
  intro fuel
  induction fuel with
  | zero =>
    intro x s _ h
    have : ¬ x ≤ hi := by omega
    simp [forStep2, stepsFrom, this]
  | succ fuel ih =>
    intro x s hlo h
    by_cases hx : x ≤ hi
    · simp only [forStep2, stepsFrom, hx, if_true, List.foldlM_cons]
      rw [wrap32_eq_self (x + 2) (by omega) (by omega)]
      cases hb : body x s with
      | none => simp
      | some s' =>
        simp only [Option.some_bind, Option.bind_eq_bind]
        exact ih (x + 2) s' (by omega) (by push_cast at h; omega)
    · simp [forStep2, stepsFrom, hx]

theorem mem_stepsFrom (hi : Int) :
    ∀ (fuel : Nat) (x y : Int), hi < x + 2 * fuel →
      (y ∈ stepsFrom hi fuel x ↔ x ≤ y ∧ y ≤ hi ∧ 2 ∣ (y - x)) := by
  intro fuel
  induction fuel with
  | zero =>
    intro x y h
    simp only [stepsFrom, List.not_mem_nil, false_iff]
    omega
  | succ fuel ih =>
    intro x y h
    by_cases hx : x ≤ hi
    · simp only [stepsFrom, hx, if_true, List.mem_cons]
      rw [ih (x + 2) y (by push_cast at h; omega)]
      constructor
      · rintro (rfl | ⟨h1, h2, h3⟩)
        · exact ⟨le_rfl, hx, by simp⟩
        · exact ⟨by omega, h2, by omega⟩
      · rintro ⟨h1, h2, h3⟩
        by_cases hy : y = x
        · exact Or.inl hy
        · exact Or.inr ⟨by omega, h2, by omega⟩
    · simp only [stepsFrom, hx, if_false, List.not_mem_nil, false_iff]
      omega

theorem stepsFrom_sorted (hi : Int) :
    ∀ (fuel : Nat) (x : Int), (stepsFrom hi fuel x).Pairwise (· < ·) ∧
      ∀ y ∈ stepsFrom hi fuel x, x ≤ y := by
  intro fuel
  induction fuel with
  | zero => intro x; simp [stepsFrom]
  | succ fuel ih =>
    intro x
    by_cases hx : x ≤ hi
    · obtain ⟨h1, h2⟩ := ih (x + 2)
      simp only [stepsFrom, hx, if_true, List.pairwise_cons, List.mem_cons]
      refine ⟨⟨fun y hy => ?_, h1⟩, ?_⟩
      · have := h2 y hy
        omega
      · rintro y (rfl | hy)
        · exact le_rfl
        · have := h2 y hy
          omega
    · simp [stepsFrom, hx]

theorem loopFuel_spec (qdeg x : Int) (hx : 0 ≤ x) (hi : Int) (h : hi ≤ qdeg) :
    hi < x + 2 * (loopFuel qdeg : Nat) := by
  unfold loopFuel
  push_cast
  omega

theorem mem_basisIndices (qdeg : Int) (t : Int × Int × Int) :
    t ∈ basisIndices qdeg ↔ IsBasisIndex qdeg t := by
  obtain ⟨i, j, k⟩ := t
  unfold basisIndices IsBasisIndex
  simp only [List.mem_flatMap, List.mem_map, Prod.mk.injEq]
  constructor
  · rintro ⟨i', hi', j', hj', k', hk', rfl, rfl, rfl⟩
    rw [mem_stepsFrom _ _ _ _ (loopFuel_spec qdeg 0 le_rfl qdeg le_rfl)] at hi'
    have hi0 : 0 ≤ i' := hi'.1
    rw [mem_stepsFrom _ _ _ _ (loopFuel_spec qdeg i' hi0 _ (by omega))] at hj'
    rw [mem_stepsFrom _ _ _ _ (loopFuel_spec qdeg j' (by omega) _ (by omega))] at hk'
    obtain ⟨a1, a2, a3⟩ := hi'
    obtain ⟨b1, b2, b3⟩ := hj'
    obtain ⟨c1, c2, c3⟩ := hk'
    exact ⟨a1, b1, c1, by omega, by omega, by omega, by omega⟩
  · rintro ⟨h0, h1, h2, h3, d1, d2, d3⟩
    refine ⟨i, ?_, j, ?_, k, ?_, rfl, rfl, rfl⟩
    · rw [mem_stepsFrom _ _ _ _ (loopFuel_spec qdeg 0 le_rfl qdeg le_rfl)]
      exact ⟨h0, by omega, by omega⟩
    · rw [mem_stepsFrom _ _ _ _ (loopFuel_spec qdeg i h0 _ (by omega))]
      exact ⟨h1, by omega, by omega⟩
    · rw [mem_stepsFrom _ _ _ _ (loopFuel_spec qdeg j (by omega) _ (by omega))]
      exact ⟨h2, by omega, by omega⟩

theorem basisIndices_sorted (qdeg : Int) : (basisIndices qdeg).Pairwise lexLt := by
  unfold basisIndices
  rw [List.pairwise_flatMap]
  refine ⟨fun i _ => ?_, ?_⟩
  · rw [List.pairwise_flatMap]
    refine ⟨fun j _ => ?_, ?_⟩
    · rw [List.pairwise_map]
      exact (stepsFrom_sorted _ _ _).1.imp (fun h => Or.inr ⟨rfl, Or.inr ⟨rfl, h⟩⟩)
    · refine (stepsFrom_sorted _ _ _).1.imp ?_
      intro j j' hjj s hs t ht
      simp only [List.mem_map] at hs ht
      obtain ⟨k, _, rfl⟩ := hs
      obtain ⟨k', _, rfl⟩ := ht
      exact Or.inr ⟨rfl, Or.inl hjj⟩
  · refine (stepsFrom_sorted _ _ _).1.imp ?_
    intro i i' hii s hs t ht
    simp only [List.mem_flatMap, List.mem_map] at hs ht
    obtain ⟨j, _, k, _, rfl⟩ := hs
    obtain ⟨j', _, k', _, rfl⟩ := ht
    exact Or.inl hii

theorem lexLt_irrefl (t : Int × Int × Int) : ¬ lexLt t t := by
  unfold lexLt
  omega

theorem basisIndices_nodup (qdeg : Int) : (basisIndices qdeg).Nodup := by
  unfold List.Nodup
  refine (basisIndices_sorted qdeg).imp ?_
  intro s t h e
  subst e
  exact lexLt_irrefl _ h

theorem foldlM_flatMap {σ β γ : Type} (f : β → List γ) (g : σ → γ → Option σ) :
    ∀ (l : List β) (s : σ),
      (l.flatMap f).foldlM g s = l.foldlM (fun s b => (f b).foldlM g s) s := by
  intro l
  induction l with
  | nil => intro s; simp
  | cons b l ih =>
    intro s
    simp only [List.flatMap_cons, List.foldlM_append, List.foldlM_cons]
    cases h : (f b).foldlM g s with
    | none => simp
    | some s' => simpa using ih s'

theorem foldlM_map {σ β γ : Type} (f : β → γ) (g : σ → γ → Option σ) :
    ∀ (l : List β) (s : σ), (l.map f).foldlM g s = l.foldlM (fun s b => g s (f b)) s := by
  intro l
  induction l with
  | nil => intro s; simp
  | cons b l ih =>
    intro s
    simp only [List.map_cons, List.foldlM_cons]
    cases h : g s (f b) with
    | none => simp
    | some s' => simpa using ih s'

theorem foldlM_congr_mem {σ β : Type} (g g' : σ → β → Option σ) :
    ∀ (l : List β) (s : σ), (∀ b ∈ l, ∀ s, g s b = g' s b) →
      l.foldlM g s = l.foldlM g' s := by
  intro l
  induction l with
  | nil => intro s _; simp
  | cons b l ih =>
    intro s h
    simp only [List.foldlM_cons]
    rw [h b (List.mem_cons_self _ _)]
    cases hb : g' s b with
    | none => simp
    | some s' =>
      simpa using ih s' (fun b' hb' => h b' (List.mem_cons_of_mem _ hb'))

/-- For a degree `qdeg` such that `qdeg + 2` is an `int`, the three nested loops over the
degree run a body once per basis index, in the order of `basisIndices`, and terminate
within the iteration bound: no loop variable and no loop bound wraps. -/
theorem loops_eq_foldlM {σ : Type} (qdeg : Int) (hq : qdeg ≤ 2147483645)
    (body : Int → Int → Int → σ → Option σ) (s : σ) :
    forStep2 qdeg (fun i s =>
      forStep2 (wrap32 (qdeg - i)) (fun j s =>
        forStep2 (wrap32 (wrap32 (qdeg - i) - j)) (fun k s => body i j k s)
          (loopFuel qdeg) j s)
        (loopFuel qdeg) i s)
      (loopFuel qdeg) 0 s
    = (basisIndices qdeg).foldlM (fun s t => body t.1 t.2.1 t.2.2 s) s := by
  unfold basisIndices
  rw [forStep2_eq_foldlM _ _ hq _ _ _ (by omega)
    (loopFuel_spec qdeg 0 le_rfl qdeg le_rfl), foldlM_flatMap]
  apply foldlM_congr_mem
  intro i hi s
  rw [mem_stepsFrom _ _ _ _ (loopFuel_spec qdeg 0 le_rfl qdeg le_rfl)] at hi
  rw [wrap32_eq_self (qdeg - i) (by omega) (by omega)]
  rw [forStep2_eq_foldlM _ _ (by omega) _ _ _ (by omega)
    (loopFuel_spec qdeg i hi.1 _ (by omega)), foldlM_flatMap]
  apply foldlM_congr_mem
  intro j hj s
  rw [mem_stepsFrom _ _ _ _ (loopFuel_spec qdeg i hi.1 _ (by omega))] at hj
  rw [wrap32_eq_self (qdeg - i - j) (by omega) (by omega)]
  rw [forStep2_eq_foldlM _ _ (by omega) _ _ _ (by omega)
    (loopFuel_spec qdeg j (by omega) _ (by omega)), foldlM_map]

theorem count_foldlM {β : Type} (l : List β) :
    ∀ n : Int, l.foldlM (fun n _ => some (wrap32 (n + 1))) (wrap32 n)
      = some (wrap32 (n + l.length)) := by
  induction l with
  | nil => intro n; simp
  | cons b l ih =>
    intro n
    simp only [List.foldlM_cons, Option.some_bind, Option.bind_eq_bind, wrap32_wrap32_add, ih,
      List.length_cons]
    congr 2
    push_cast
    omega

/-- For a degree `qdeg` such that `qdeg + 2` is an `int`, `nbfn_for_qdeg` returns the
number of basis indices reduced to an `int`. -/
theorem nbfn_for_qdeg_eq_wrap (qdeg : Int) (hq : qdeg ≤ 2147483645) :
    nbfn_for_qdeg qdeg = some (wrap32 ((basisIndices qdeg).length : Int)) := by
  unfold nbfn_for_qdeg
  rw [loops_eq_foldlM qdeg hq (fun _ _ _ n => some (wrap32 (n + 1))) 0]
  have := count_foldlM (basisIndices qdeg) 0
  rw [wrap32_eq_self 0 (by omega) (by omega)] at this
  simpa using this

theorem assign_foldlM {β ρ : Type} (f : β → ρ) :
    ∀ (l : List β) (pre rest : List ρ), l.length ≤ rest.length →
      pre.length + l.length ≤ 2147483647 →
      l.foldlM (fun (s : Int × List ρ) t =>
          (setAt s.2 s.1 (f t)).map (fun out' => (wrap32 (s.1 + 1), out')))
          ((pre.length : Int), pre ++ rest)
        = some (((pre.length + l.length : Nat) : Int), pre ++ l.map f ++ rest.drop l.length) := by
  intro l
  induction l with
  | nil => intro pre rest _ _; simp
  | cons t l ih =>
    intro pre rest h hmax
    obtain ⟨r, rest', rfl⟩ : ∃ r rest', rest = r :: rest' := by
      cases rest with
      | nil => simp at h
      | cons r rest' => exact ⟨r, rest', rfl⟩
    have hset : setAt (pre ++ r :: rest') (pre.length : Int) (f t)
        = some ((pre ++ [f t]) ++ rest') := by
      have hpos : (0 : Int) < (rest'.length : Int) + 1 := by omega
      simp [setAt, List.set_append, hpos]
    have hlen : l.length ≤ rest'.length := by simpa using h
    have hmax0 : pre.length + (l.length + 1) ≤ 2147483647 := by simpa using hmax
    have hmax' : (pre ++ [f t]).length + l.length ≤ 2147483647 := by
      rw [List.length_append, List.length_singleton]
      omega
    have hw : wrap32 ((pre.length : Int) + 1) = (pre.length : Int) + 1 :=
      wrap32_eq_self _ (by omega) (by omega)
    have := ih (pre ++ [f t]) rest' hlen hmax'
    simp only [List.length_append, List.length_singleton, Nat.cast_add, Nat.cast_one] at this
    simp only [List.foldlM_cons, hset, Option.map_some', Option.some_bind, Option.bind_eq_bind,
      hw, this]
    simp
    omega

theorem eval_orthob_block_eq {ρ : Type} (qdeg : Int) (basisRow : Int → Int → Int → ρ)
    (out : List ρ) (hq : qdeg ≤ 2147483645) (h : (basisIndices qdeg).length ≤ out.length)
    (hmax : (basisIndices qdeg).length ≤ 2147483647) :
    eval_orthob_block qdeg basisRow out
      = some (((basisIndices qdeg).length : Int),
          (basisIndices qdeg).map (fun t => basisRow t.1 t.2.1 t.2.2)
            ++ out.drop (basisIndices qdeg).length) := by
  unfold eval_orthob_block
  rw [loops_eq_foldlM qdeg hq (fun i j k (s : Int × List ρ) =>
    (setAt s.2 s.1 (basisRow i j k)).map (fun out' => (wrap32 (s.1 + 1), out'))) (0, out)]
  have := assign_foldlM (fun t : Int × Int × Int => basisRow t.1 t.2.1 t.2.2)
    (basisIndices qdeg) [] out h (by simpa using hmax)
  simpa using this

theorem basisIndices_head (qdeg : Int) (h : 0 ≤ qdeg) :
    (basisIndices qdeg).head? = some (0, 0, 0) := by
  have hf : loopFuel qdeg = qdeg.toNat + 1 := rfl
  have h0 : (0 : Int) ≤ qdeg - 0 := by omega
  have h1 : (0 : Int) ≤ qdeg - 0 - 0 := by omega
  simp [basisIndices, hf, stepsFrom, h, List.flatMap_cons]

theorem basisIndex_set_eq (qdeg : Int) :
    {t : Int × Int × Int | IsBasisIndex qdeg t} = ↑(basisIndices qdeg).toFinset := by
  ext t
  simp [mem_basisIndices]

/-! ## The number of basis indices -/

theorem length_stepsFrom (hi : Int) :
    ∀ (fuel : Nat) (x : Int), hi < x + 2 * fuel →
      ((stepsFrom hi fuel x).length : Int) = if x ≤ hi then (hi - x) / 2 + 1 else 0 := by
  intro fuel
  induction fuel with
  | zero =>
    intro x h
    have : ¬ x ≤ hi := by omega
    simp [stepsFrom, this]
  | succ fuel ih =>
    intro x h
    by_cases hx : x ≤ hi
    · have := ih (x + 2) (by push_cast at h; omega)
      simp only [stepsFrom, hx, if_true, List.length_cons, Nat.cast_add, Nat.cast_one, this]
      split <;> omega
    · simp [stepsFrom, hx]

theorem stepsFrom_succ_of_le (hi : Int) (fuel : Nat) (x : Int) (h : x ≤ hi) :
    stepsFrom hi (fuel + 1) x = x :: stepsFrom hi fuel (x + 2) := by
  simp [stepsFrom, h]

theorem stepsFrom_of_not_le (hi : Int) (fuel : Nat) (x : Int) (h : ¬ x ≤ hi) :
    stepsFrom hi fuel x = [] := by
  cases fuel <;> simp [stepsFrom, h]

theorem pairCount_of_neg (w : Int) (h : w < 0) : pairCount w = 0 := by
  simp [pairCount, h]

theorem pairCount_step (w : Int) :
    (if 0 ≤ w then w / 2 + 1 else 0) + pairCount (w - 4) = pairCount w := by
  by_cases h0 : w < 0
  · rw [pairCount_of_neg w h0, pairCount_of_neg (w - 4) (by omega), if_neg (by omega)]
    rfl
  · by_cases h4 : w < 4
    · have hq : w / 4 = 0 := by omega
      rw [pairCount_of_neg (w - 4) (by omega), if_pos (by omega)]
      simp [pairCount, h0, hq]
    · have e1 : (w - 4) / 4 = w / 4 - 1 := by omega
      have e2 : (w - 4) / 2 = w / 2 - 2 := by omega
      have h4' : ¬ w - 4 < 0 := by omega
      unfold pairCount
      rw [if_pos (by omega), if_neg h4', if_neg h0, e1, e2]
      ring

/-- The pairs `(j, k)` visited by the two inner loops for a bound `c = qdeg - i`, the
middle loop starting at `x`. -/
theorem length_inner_loops {γ : Type} (qdeg c : Int) (hc : c ≤ qdeg) (g : Int → Int → γ) :
    ∀ (fuel : Nat) (x : Int), 0 ≤ x → c < x + 2 * fuel →
      ((((stepsFrom c fuel x).flatMap fun j =>
          (stepsFrom (c - j) (loopFuel qdeg) j).map fun k => g j k).length : Nat) : Int)
        = pairCount (c - 2 * x) := by
  intro fuel
  induction fuel with
  | zero =>
    intro x hx h
    rw [stepsFrom_of_not_le c 0 x (by omega)]
    simp only [List.flatMap_nil, List.length_nil, Nat.cast_zero]
    exact (pairCount_of_neg _ (by omega)).symm
  | succ fuel ih =>
    intro x hx h
    by_cases hxc : x ≤ c
    · have h1 := length_stepsFrom (c - x) (loopFuel qdeg) x (loopFuel_spec qdeg x hx _ (by omega))
      have h2 := ih (x + 2) (by omega) (by push_cast at h; omega)
      rw [stepsFrom_succ_of_le c fuel x hxc]
      simp only [List.flatMap_cons, List.length_append, List.length_map, Nat.cast_add, h1, h2]
      rw [← pairCount_step (c - 2 * x)]
      have e : c - 2 * (x + 2) = c - 2 * x - 4 := by ring
      rw [e]
      congr 1
      split_ifs <;> omega
    · rw [stepsFrom_of_not_le c _ x hxc]
      simp only [List.flatMap_nil, List.length_nil, Nat.cast_zero]
      exact (pairCount_of_neg _ (by omega)).symm

/-- The triples visited by the three loops, the outer loop starting at `x`. -/
theorem length_outer_loop (qdeg : Int) :
    ∀ (fuel : Nat) (x : Int), 0 ≤ x →
      ((((stepsFrom qdeg fuel x).flatMap fun i =>
          (stepsFrom (qdeg - i) (loopFuel qdeg) i).flatMap fun j =>
            (stepsFrom (qdeg - i - j) (loopFuel qdeg) j).map fun k => (i, j, k)).length : Nat) : Int)
        = ∑ t in Finset.range fuel, pairCount (qdeg - 3 * (x + 2 * t)) := by
  intro fuel
  induction fuel with
  | zero => intro x _; simp [stepsFrom]
  | succ fuel ih =>
    intro x hx
    by_cases hxq : x ≤ qdeg
    · have h1 := length_inner_loops qdeg (qdeg - x) (by omega) (fun j k => (x, j, k))
        (loopFuel qdeg) x hx (loopFuel_spec qdeg x hx _ (by omega))
      have h2 := ih (x + 2) (by omega)
      rw [stepsFrom_succ_of_le qdeg fuel x hxq]
      simp only [List.flatMap_cons, List.length_append, Nat.cast_add, h1, h2]
      rw [Finset.sum_range_succ']
      rw [add_comm]
      congr 1
      · apply Finset.sum_congr rfl
        intro t _
        congr 1
        push_cast
        ring
      · congr 1
        push_cast
        ring
    · rw [stepsFrom_of_not_le qdeg _ x hxq]
      simp only [List.flatMap_nil, List.length_nil, Nat.cast_zero]
      symm
      apply Finset.sum_eq_zero
      intro t _
      exact pairCount_of_neg _ (by omega)

theorem countTree_eq_sum (qdeg : Int) :
    ∀ (d : Nat) (t : Int),
      countTree qdeg d t = ∑ s in Finset.range (2 ^ d), pairCount (qdeg - 6 * (t + s)) := by
  intro d
  induction d with
  | zero => intro t; simp [countTree]
  | succ d ih =>
    intro t
    rw [countTree, ih, ih, pow_succ, mul_two, Finset.sum_range_add]
    congr 1
    apply Finset.sum_congr rfl
    intro s _
    congr 2
    push_cast
    ring

theorem sum_range_of_zero (f : Nat → Int) (k n : Nat) (hk : k ≤ n)
    (h : ∀ t, k ≤ t → f t = 0) :
    ∑ t in Finset.range n, f t = ∑ t in Finset.range k, f t := by
  symm
  apply Finset.sum_subset (Finset.range_subset.2 hk)
  intro t _ ht
  exact h t (by simpa using ht)

/-- The number of basis indices of degree at most `qdeg` is the sum of the pair counts
`pairCount (qdeg - 6 t)`, `t = 0, 1, ...`, added up by `countTree`. -/
theorem basisIndices_length_eq_countTree (qdeg : Int) (d : Nat) (h : qdeg < 6 * 2 ^ d) :
    ((basisIndices qdeg).length : Int) = countTree qdeg d 0 := by
  have h1 := length_outer_loop qdeg (loopFuel qdeg) 0 le_rfl
  have h2 := countTree_eq_sum qdeg d 0
  unfold basisIndices
  rw [h1, h2]
  have hz : ∀ t : Nat, (qdeg / 6 + 1).toNat ≤ t → pairCount (qdeg - 3 * (0 + 2 * (t : Int))) = 0 := by
    intro t ht
    apply pairCount_of_neg
    omega
  have hz' : ∀ t : Nat, (qdeg / 6 + 1).toNat ≤ t → pairCount (qdeg - 6 * (0 + (t : Int))) = 0 := by
    intro t ht
    apply pairCount_of_neg
    omega
  have hd : (qdeg / 6 + 1).toNat ≤ 2 ^ d := by
    obtain ⟨n, hn⟩ : ∃ n : Nat, n = 2 ^ d := ⟨_, rfl⟩
    have hn' : qdeg < 6 * (n : Int) := by rw [hn]; push_cast; exact h
    rw [← hn]
    omega
  rw [sum_range_of_zero _ (qdeg / 6 + 1).toNat (loopFuel qdeg) (by unfold loopFuel; omega) hz,
    sum_range_of_zero _ (qdeg / 6 + 1).toNat (2 ^ d) hd hz']
  apply Finset.sum_congr rfl
  intro t _
  congr 1
  ring

theorem basisIndices_length_8513 : (basisIndices 8513).length = 2146709495 := by
  have h := basisIndices_length_eq_countTree 8513 11 (by norm_num)
  have hv : countTree 8513 11 0 = 2146709495 := by decide
  rw [hv] at h
  exact_mod_cast h

theorem basisIndices_length_8514 : (basisIndices 8514).length = 2148221795 := by
  have h := basisIndices_length_eq_countTree 8514 11 (by norm_num)
  have hv : countTree 8514 11 0 = 2148221795 := by decide
  rw [hv] at h
  exact_mod_cast h

theorem IsBasisIndex.mono {d e : Int} (h : d ≤ e) {t : Int × Int × Int}
    (ht : IsBasisIndex d t) : IsBasisIndex e t := by
  obtain ⟨h0, h1, h2, h3, h4⟩ := ht
  exact ⟨h0, h1, h2, by omega, h4⟩

theorem basisIndices_length_mono (d e : Int) (h : d ≤ e) :
    (basisIndices d).length ≤ (basisIndices e).length := by
  have hsub : basisIndices d ⊆ basisIndices e := by
    intro t ht
    rw [mem_basisIndices] at ht ⊢
    exact ht.mono h
  exact ((basisIndices_nodup d).subperm hsub).length_le

theorem basisIndices_odd_length (m : Int) :
    (basisIndices (2 * m + 1)).length = (basisIndices (2 * m)).length := by
  have hsub : ∀ t, t ∈ basisIndices (2 * m + 1) ↔ t ∈ basisIndices (2 * m) := by
    intro t
    rw [mem_basisIndices, mem_basisIndices]
    constructor
    · rintro ⟨h0, h1, h2, h3, ⟨a, ha⟩, ⟨b, hb⟩, ⟨c, hc⟩⟩
      exact ⟨h0, h1, h2, by omega, ⟨a, ha⟩, ⟨b, hb⟩, ⟨c, hc⟩⟩
    · intro ht
      exact ht.mono (by omega)
  exact ((List.perm_ext_iff_of_nodup (basisIndices_nodup _) (basisIndices_nodup _)).mpr
    hsub).length_eq

/-- Up to degree 8513 the number of basis indices is an `int`. -/
theorem basisIndices_length_le (qdeg : Int) (hq : qdeg ≤ 8513) :
    (basisIndices qdeg).length ≤ 2146709495 := by
  rw [← basisIndices_length_8513]
  exact basisIndices_length_mono qdeg 8513 hq

/-- Up to degree 8513 the counter of `nbfn_for_qdeg` does not wrap: the result is the
number of basis indices. -/
theorem nbfn_for_qdeg_eq_length (qdeg : Int) (hq : qdeg ≤ 8513) :
    nbfn_for_qdeg qdeg = some ((basisIndices qdeg).length : Int) := by
  have h := basisIndices_length_le qdeg hq
  rw [nbfn_for_qdeg_eq_wrap qdeg (by omega), wrap32_eq_self _ (by omega) (by omega)]

/-- At degree 8514 the counter of `nbfn_for_qdeg` wraps: the result is
`2148221795 - 2 ^ 32`. -/
theorem nbfn_for_qdeg_8514 : nbfn_for_qdeg 8514 = some (-2146745501) := by
  rw [nbfn_for_qdeg_eq_wrap 8514 (by norm_num), basisIndices_length_8514]
  decide

theorem ncard_basisIndex (qdeg : Int) :
    Set.ncard {t : Int × Int × Int | IsBasisIndex qdeg t} = (basisIndices qdeg).length := by
  rw [basisIndex_set_eq, Set.ncard_coe_Finset,
    List.toFinset_card_of_nodup (basisIndices_nodup qdeg)]

/-- Row assignments with an `int` counter fail when the matrix has fewer rows than there
are assignments, and also when there are more than `2 ^ 31` of them: the counter then
wraps to a negative row index. -/
theorem assign_foldlM_none {β ρ : Type} (f : β → ρ) :
    ∀ (l : List β) (pre rest : List ρ), pre.length ≤ 2147483647 →
      (rest.length < l.length ∨ 2147483648 < pre.length + l.length) →
      l.foldlM (fun (s : Int × List ρ) t =>
          (setAt s.2 s.1 (f t)).map (fun out' => (wrap32 (s.1 + 1), out')))
          ((pre.length : Int), pre ++ rest) = none := by
  intro l
  induction l with
  | nil => intro pre rest h1 h2; simp at h2; omega
  | cons t l ih =>
    intro pre rest h1 h2
    cases rest with
    | nil =>
      have hset : setAt (pre ++ []) (pre.length : Int) (f t) = none := by
        simp [setAt]
      simp only [List.foldlM_cons, hset, Option.map_none', Option.none_bind,
        Option.bind_eq_bind]
    | cons r rest' =>
      have hset : setAt (pre ++ r :: rest') (pre.length : Int) (f t)
          = some ((pre ++ [f t]) ++ rest') := by
        have hpos : (0 : Int) < (rest'.length : Int) + 1 := by omega
        simp [setAt, List.set_append, hpos]
      simp only [List.foldlM_cons, hset, Option.map_some', Option.some_bind,
        Option.bind_eq_bind]
      simp only [List.length_cons] at h2
      by_cases hlt : pre.length + 1 ≤ 2147483647
      · rw [wrap32_eq_self _ (by omega) (by omega)]
        have := ih (pre ++ [f t]) rest' (by simpa using hlt)
          (by rw [List.length_append, List.length_singleton]; omega)
        simpa using this
      · have hw : wrap32 ((pre.length : Int) + 1) = -2147483648 := by
          unfold wrap32
          omega
        rw [hw]
        cases l with
        | nil => simp at h2; omega
        | cons t' l' =>
          have hset' : setAt (pre ++ [f t] ++ rest') (-2147483648) (f t') = none := by
            simp [setAt]
          simp only [List.foldlM_cons, hset', Option.map_none', Option.none_bind,
            Option.bind_eq_bind]

/-- At degree 8514 the row counter of `eval_orthob_block` cannot reach the number of basis
indices: some row assignment is out of range, whatever the output matrix. -/
theorem eval_orthob_block_8514_none {ρ : Type} (basisRow : Int → Int → Int → ρ)
    (out : List ρ) : eval_orthob_block 8514 basisRow out = none := by
  unfold eval_orthob_block
  rw [loops_eq_foldlM 8514 (by norm_num) (fun i j k (s : Int × List ρ) =>
    (setAt s.2 s.1 (basisRow i j k)).map (fun out' => (wrap32 (s.1 + 1), out'))) (0, out)]
  have := assign_foldlM_none (fun t : Int × Int × Int => basisRow t.1 t.2.1 t.2.2)
    (basisIndices 8514) [] out (by simp) (by rw [basisIndices_length_8514]; simp)
  simpa using this

/-! ## C5: `nbfn_for_qdeg` counts the basis indices -/

/-- C5, counterexample: there are 2148221795 triples `(i, j, k)` of even non-negative
integers with `i <= j <= k` and `i + j + k <= 8514`, more than the largest `int`
2147483647, and `nbfn_for_qdeg 8514` returns -2146745501, which is not their number. -/
theorem nbfn_for_qdeg_8514_not_count :
    Set.ncard {t : Int × Int × Int | IsBasisIndex 8514 t} = 2148221795 ∧
    nbfn_for_qdeg 8514 = some (-2146745501) ∧
    nbfn_for_qdeg 8514
      ≠ some ((Set.ncard {t : Int × Int × Int | IsBasisIndex 8514 t} : Nat) : Int) := by
  have hc : Set.ncard {t : Int × Int × Int | IsBasisIndex 8514 t} = 2148221795 := by
    rw [ncard_basisIndex, basisIndices_length_8514]
  refine ⟨hc, nbfn_for_qdeg_8514, ?_⟩
  rw [hc, nbfn_for_qdeg_8514]
  decide

/-- C5 (amended): for every integer `qdeg <= 8513` (negative and odd values included),
`nbfn_for_qdeg qdeg` returns the number of triples `(i, j, k)` of even non-negative
integers with `i <= j <= k` and `i + j + k <= qdeg` (a finite set); the values for
`qdeg = 0, 2, 4, 6` are 1, 2, 4, 7. -/
theorem nbfn_for_qdeg_counts_triples (qdeg : Int) (hq : qdeg ≤ 8513) :
    {t : Int × Int × Int | IsBasisIndex qdeg t}.Finite ∧
    nbfn_for_qdeg qdeg
      = some ((Set.ncard {t : Int × Int × Int | IsBasisIndex qdeg t} : Nat) : Int) ∧
    nbfn_for_qdeg 0 = some 1 ∧ nbfn_for_qdeg 2 = some 2 ∧ nbfn_for_qdeg 4 = some 4 ∧
    nbfn_for_qdeg 6 = some 7 := by
  refine ⟨?_, ?_, by decide, by decide, by decide, by decide⟩
  · rw [basisIndex_set_eq]
    exact Finset.finite_toSet _
  · rw [ncard_basisIndex]
    exact nbfn_for_qdeg_eq_length qdeg hq

/-- Instance of `nbfn_for_qdeg_counts_triples` at the degree 6. -/
theorem nbfn_for_qdeg_counts_triples_witness :
    (6 : Int) ≤ 8513 ∧
    ({t : Int × Int × Int | IsBasisIndex 6 t}.Finite ∧
    nbfn_for_qdeg 6
      = some ((Set.ncard {t : Int × Int × Int | IsBasisIndex 6 t} : Nat) : Int) ∧
    nbfn_for_qdeg 0 = some 1 ∧ nbfn_for_qdeg 2 = some 2 ∧ nbfn_for_qdeg 4 = some 4 ∧
    nbfn_for_qdeg 6 = some 7) :=
  ⟨by decide, nbfn_for_qdeg_counts_triples 6 (by decide)⟩

/-! ## C6: the rows written by `eval_orthob_block` -/

/-- C6, counterexample: `nbfn_for_qdeg 8514` returns -2146745501, so that every output
matrix (the empty one too) has at least that many rows, but `eval_orthob_block` does not
write the rows of the basis indices of degree at most 8514 for any output matrix: a row
assignment is out of range. -/
theorem eval_orthob_block_8514_fails :
    nbfn_for_qdeg 8514 = some (-2146745501) ∧
    (-2146745501 : Int) ≤ (([] : List (Int × Int × Int)).length : Int) ∧
    IsBasisIndex 8514 (0, 0, 0) ∧
    ∀ out : List (Int × Int × Int),
      eval_orthob_block 8514 (fun i j k => (i, j, k)) out = none :=
  ⟨nbfn_for_qdeg_8514, by decide,
    ⟨le_rfl, le_rfl, le_rfl, by decide, by decide, by decide, by decide⟩,
    fun out => eval_orthob_block_8514_none _ out⟩

/-- C6 (amended): for `qdeg <= 8513`, if `nbfn_for_qdeg qdeg` returns `n` and `out` has at
least `n` rows, then `eval_orthob_block` returns with `off = n`, and there is a list `L`
of index triples that contains exactly the basis indices of degree at most `qdeg`, each
once, in strictly increasing lexicographic order, has length `n`, and such that row
`p < n` of `out` now holds the value for the index `L[p]` while the rows from `n` on are
unchanged; for `qdeg >= 0` the first index is `(0, 0, 0)`. -/
theorem eval_orthob_block_enumerates {ρ : Type} (qdeg n : Int)
    (basisRow : Int → Int → Int → ρ) (out : List ρ) (hq : qdeg ≤ 8513)
    (hn : nbfn_for_qdeg qdeg = some n) (hout : n ≤ out.length) :
    ∃ L : List (Int × Int × Int),
      (∀ t, t ∈ L ↔ IsBasisIndex qdeg t) ∧ L.Nodup ∧ L.Pairwise lexLt ∧
      (L.length : Int) = n ∧
      eval_orthob_block qdeg basisRow out
        = some (n, L.map (fun t => basisRow t.1 t.2.1 t.2.2) ++ out.drop L.length) ∧
      (0 ≤ qdeg → L.head? = some (0, 0, 0)) := by
  have hlen : ((basisIndices qdeg).length : Int) = n := by
    have := nbfn_for_qdeg_eq_length qdeg hq
    rw [hn] at this
    exact (Option.some.inj this).symm
  have hmax := basisIndices_length_le qdeg hq
  refine ⟨basisIndices qdeg, mem_basisIndices qdeg, basisIndices_nodup qdeg,
    basisIndices_sorted qdeg, hlen, ?_, basisIndices_head qdeg⟩
  rw [← hlen]
  exact eval_orthob_block_eq qdeg basisRow out (by omega) (by omega) (by omega)

/-- Instance of `eval_orthob_block_enumerates`: degree 4, four basis indices, an output
matrix with five rows, the row value being the index itself. -/
theorem eval_orthob_block_enumerates_witness :
    ((4 : Int) ≤ 8513 ∧ nbfn_for_qdeg 4 = some 4 ∧
      (4 : Int) ≤ (List.replicate 5 ((9, 9, 9) : Int × Int × Int)).length) ∧
    ∃ L : List (Int × Int × Int),
      (∀ t, t ∈ L ↔ IsBasisIndex 4 t) ∧ L.Nodup ∧ L.Pairwise lexLt ∧
      (L.length : Int) = 4 ∧
      eval_orthob_block 4 (fun i j k => (i, j, k)) (List.replicate 5 ((9, 9, 9) : Int × Int × Int))
        = some (4, L.map (fun t => (t.1, t.2.1, t.2.2))
            ++ (List.replicate 5 ((9, 9, 9) : Int × Int × Int)).drop L.length) ∧
      ((0 : Int) ≤ 4 → L.head? = some (0, 0, 0)) :=
  ⟨by decide, eval_orthob_block_enumerates 4 4 (fun i j k => (i, j, k)) _ (by decide)
    (by decide) (by decide)⟩

/-! ## `clamp_arg` -/

theorem getAt_setAt {β : Type} (xs xs' : List β) (k : Int) (x : β)
    (h : setAt xs k x = some xs') :
    xs'.length = xs.length ∧ getAt xs' k = some x ∧ ∀ j, j ≠ k → getAt xs' j = getAt xs j := by
  unfold setAt at h
  split at h
  · rename_i hk
    obtain ⟨hk0, hk1⟩ := hk
    have hx : xs' = xs.set k.toNat x := (Option.some.inj h).symm
    subst hx
    have hlt : k.toNat < xs.length := by omega
    refine ⟨by simp, ?_, ?_⟩
    · simp [getAt, hk0, hlt]
    · intro j hj
      unfold getAt
      by_cases hj0 : 0 ≤ j
      · have hne : k.toNat ≠ j.toNat := by omega
        simp [hj0, List.getElem?_set_ne hne]
      · simp [hj0]
  · simp at h

theorem clampAt_spec [LinearOrderedField α] (args : List α) (k : Int) (h0 : 0 ≤ k)
    (h1 : k < args.length) :
    ∃ args', clampAt args k = some args' ∧ args'.length = args.length ∧
      getAt args' k = (getAt args k).map (fun x => clamp 0 x 1) ∧
      ∀ j, j ≠ k → getAt args' j = getAt args j := by
  have hlt : k.toNat < args.length := by omega
  have hget : getAt args k = some (args.get ⟨k.toNat, hlt⟩) := by
    simp [getAt, h0, List.getElem?_eq_getElem hlt]
  have hset : setAt args k (clamp 0 (args.get ⟨k.toNat, hlt⟩) 1)
      = some (args.set k.toNat (clamp 0 (args.get ⟨k.toNat, hlt⟩) 1)) := by
    simp [setAt, h0, h1]
  obtain ⟨e1, e2, e3⟩ := getAt_setAt _ _ _ _ hset
  refine ⟨_, ?_, e1, ?_, e3⟩
  · simp only [clampAt, hget, Option.bind_eq_bind, Option.some_bind, hset]
  · rw [e2, hget]
    rfl

/-- In-range orbit type and in-bounds offset: `clamp_arg` returns, keeps the length,
applies `clamp` to the entries of the window and leaves the other entries alone. -/
theorem clamp_arg_spec [LinearOrderedField α] (i aoff n : Int) (args : List α)
    (hn : narg_for_orbit i = .val n) (ha0 : 0 ≤ aoff) (ha1 : aoff + n ≤ args.length) :
    ∃ args', clamp_arg i aoff args = .ret args' ∧ args'.length = args.length ∧
      (∀ j, aoff ≤ j → j < aoff + n →
        getAt args' j = (getAt args j).map (fun x => clamp 0 x 1)) ∧
      (∀ j, ¬ (aoff ≤ j ∧ j < aoff + n) → getAt args' j = getAt args j) := by
  unfold narg_for_orbit at hn
  split at hn <;> simp at hn <;> subst hn
  · exact ⟨args, by simp [clamp_arg], rfl, fun j h1 h2 => by omega, fun _ _ => rfl⟩
  · obtain ⟨a₁, c₁, l₁, w₁, f₁⟩ := clampAt_spec args aoff ha0 (by omega)
    refine ⟨a₁, by simp [clamp_arg, c₁, Outcome.ofAccess], l₁, ?_, ?_⟩
    · intro j h1 h2
      have : j = aoff := by omega
      subst this
      exact w₁
    · intro j hj
      exact f₁ j (by omega)
  · obtain ⟨a₁, c₁, l₁, w₁, f₁⟩ := clampAt_spec args aoff ha0 (by omega)
    refine ⟨a₁, by simp [clamp_arg, c₁, Outcome.ofAccess], l₁, ?_, ?_⟩
    · intro j h1 h2
      have : j = aoff := by omega
      subst this
      exact w₁
    · intro j hj
      exact f₁ j (by omega)
  · obtain ⟨a₁, c₁, l₁, w₁, f₁⟩ := clampAt_spec args aoff ha0 (by omega)
    refine ⟨a₁, by simp [clamp_arg, c₁, Outcome.ofAccess], l₁, ?_, ?_⟩
    · intro j h1 h2
      have : j = aoff := by omega
      subst this
      exact w₁
    · intro j hj
      exact f₁ j (by omega)
  · obtain ⟨a₁, c₁, l₁, w₁, f₁⟩ := clampAt_spec args aoff ha0 (by omega)
    obtain ⟨a₂, c₂, l₂, w₂, f₂⟩ := clampAt_spec a₁ (aoff + 1) (by omega) (by omega)
    refine ⟨a₂, by simp [clamp_arg, c₁, c₂, Outcome.ofAccess], by omega, ?_, ?_⟩
    · intro j h1 h2
      have : j = aoff ∨ j = aoff + 1 := by omega
      rcases this with rfl | rfl
      · rw [f₂ j (by omega), w₁]
      · rw [w₂, f₁ _ (by omega)]
    · intro j hj
      rw [f₂ j (by omega), f₁ j (by omega)]
  · obtain ⟨a₁, c₁, l₁, w₁, f₁⟩ := clampAt_spec args aoff ha0 (by omega)
    obtain ⟨a₂, c₂, l₂, w₂, f₂⟩ := clampAt_spec a₁ (aoff + 1) (by omega) (by omega)
    refine ⟨a₂, by simp [clamp_arg, c₁, c₂, Outcome.ofAccess], by omega, ?_, ?_⟩
    · intro j h1 h2
      have : j = aoff ∨ j = aoff + 1 := by omega
      rcases this with rfl | rfl
      · rw [f₂ j (by omega), w₁]
      · rw [w₂, f₁ _ (by omega)]
    · intro j hj
      rw [f₂ j (by omega), f₁ j (by omega)]
  · obtain ⟨a₁, c₁, l₁, w₁, f₁⟩ := clampAt_spec args aoff ha0 (by omega)
    obtain ⟨a₂, c₂, l₂, w₂, f₂⟩ := clampAt_spec a₁ (aoff + 1) (by omega) (by omega)
    obtain ⟨a₃, c₃, l₃, w₃, f₃⟩ := clampAt_spec a₂ (aoff + 2) (by omega) (by omega)
    refine ⟨a₃, by simp [clamp_arg, c₁, c₂, c₃, Outcome.ofAccess], by omega, ?_, ?_⟩
    · intro j h1 h2
      have : j = aoff ∨ j = aoff + 1 ∨ j = aoff + 2 := by omega
      rcases this with rfl | rfl | rfl
      · rw [f₃ j (by omega), f₂ j (by omega), w₁]
      · rw [f₃ _ (by omega), w₂, f₁ _ (by omega)]
      · rw [w₃, f₂ _ (by omega), f₁ _ (by omega)]
    · intro j hj
      rw [f₃ j (by omega), f₂ j (by omega), f₁ j (by omega)]

theorem clamp_clamp [LinearOrderedField α] (x : α) : clamp 0 (clamp 0 x 1) 1 = clamp 0 x 1 := by
  unfold clamp
  split_ifs <;> first | rfl | (exfalso; linarith)

theorem clamp_props [LinearOrderedField α] (x : α) :
    0 ≤ clamp 0 x 1 ∧ clamp 0 x 1 ≤ 1 ∧ (x < 0 → clamp 0 x 1 = 0) ∧
      (1 < x → clamp 0 x 1 = 1) ∧ (0 ≤ x → x ≤ 1 → clamp 0 x 1 = x) := by
  unfold clamp
  refine ⟨?_, ?_, ?_, ?_, ?_⟩
  · split_ifs <;> first | exact le_rfl | exact zero_le_one | linarith
  · split_ifs <;> first | exact le_rfl | exact zero_le_one | linarith
  · intro h
    simp [h]
  · intro h
    have : ¬ x < 0 := by linarith
    simp [h, this]
  · intro h0 h1
    have h2 : ¬ x < 0 := by linarith
    have h3 : ¬ 1 < x := by linarith
    simp [h2, h3]

theorem getAt_ext {β : Type} (xs ys : List β) (h : ∀ k : Int, getAt xs k = getAt ys k) :
    xs = ys := by
  apply List.ext_getElem?
  intro n
  have := h (n : Int)
  simpa [getAt] using this

/-! ## C7: `clamp_arg` is idempotent -/

/-- C7: for an orbit type in `0..6` and an in-bounds offset, `clamp_arg` returns, and
applied to its own result it returns that result again. -/
theorem clamp_arg_idempotent [LinearOrderedField α] (i aoff n : Int) (args : List α)
    (hn : narg_for_orbit i = .val n) (ha0 : 0 ≤ aoff) (ha1 : aoff + n ≤ args.length) :
    ∃ args', clamp_arg i aoff args = .ret args' ∧ clamp_arg i aoff args' = .ret args' := by
  obtain ⟨a₁, r₁, l₁, w₁, f₁⟩ := clamp_arg_spec i aoff n args hn ha0 ha1
  obtain ⟨a₂, r₂, l₂, w₂, f₂⟩ := clamp_arg_spec i aoff n a₁ hn ha0 (by omega)
  refine ⟨a₁, r₁, ?_⟩
  rw [r₂]
  congr 1
  apply getAt_ext
  intro k
  by_cases hk : aoff ≤ k ∧ k < aoff + n
  · rw [w₂ k hk.1 hk.2, w₁ k hk.1 hk.2]
    cases getAt args k with
    | none => rfl
    | some x => simp [clamp_clamp]
  · exact f₂ k hk

/-- Instance of `clamp_arg_idempotent`: orbit type 6, window `(-3, 5, 0)` at offset 1. -/
theorem clamp_arg_idempotent_witness :
    (narg_for_orbit 6 = .val 3 ∧ (0 : Int) ≤ 1 ∧
      (1 : Int) + 3 ≤ ([7, -3, 5, 0, 2] : List ℚ).length) ∧
    ∃ args', clamp_arg 6 1 ([7, -3, 5, 0, 2] : List ℚ) = .ret args' ∧
      clamp_arg 6 1 args' = .ret args' :=
  ⟨by decide, clamp_arg_idempotent 6 1 3 [7, -3, 5, 0, 2] (by decide) (by decide) (by decide)⟩

/-! ## C8: `clamp_arg` projects the window onto `[0, 1]` -/

/-- C8: for an orbit type in `0..6` and an in-bounds offset, `clamp_arg` returns normally
for every argument vector (no error, whatever the values); the vector keeps its length;
each entry `x` of the window `aoff .. aoff + narg - 1` becomes `0` if `x < 0`, `1` if
`1 < x`, and stays `x` if `0 <= x <= 1`; every other entry is unchanged. -/
theorem clamp_arg_projects [LinearOrderedField α] (i aoff n : Int) (args : List α)
    (hn : narg_for_orbit i = .val n) (ha0 : 0 ≤ aoff) (ha1 : aoff + n ≤ args.length) :
    ∃ args', clamp_arg i aoff args = .ret args' ∧ args'.length = args.length ∧
      (∀ k, aoff ≤ k → k < aoff + n →
        ∃ x y, getAt args k = some x ∧ getAt args' k = some y ∧ 0 ≤ y ∧ y ≤ 1 ∧
          (x < 0 → y = 0) ∧ (1 < x → y = 1) ∧ (0 ≤ x → x ≤ 1 → y = x)) ∧
      (∀ k, ¬ (aoff ≤ k ∧ k < aoff + n) → getAt args' k = getAt args k) := by
  obtain ⟨a₁, r₁, l₁, w₁, f₁⟩ := clamp_arg_spec i aoff n args hn ha0 ha1
  refine ⟨a₁, r₁, l₁, ?_, f₁⟩
  intro k hk0 hk1
  have hlt : k.toNat < args.length := by omega
  have hget : getAt args k = some (args.get ⟨k.toNat, hlt⟩) := by
    simp [getAt, show 0 ≤ k by omega, List.getElem?_eq_getElem hlt]
  exact ⟨args.get ⟨k.toNat, hlt⟩, clamp 0 (args.get ⟨k.toNat, hlt⟩) 1, hget,
    by rw [w₁ k hk0 hk1, hget]; rfl, clamp_props _⟩

/-- Instance of `clamp_arg_projects`: orbit type 6, window `(-3, 5, 0)` at offset 1. -/
theorem clamp_arg_projects_witness :
    (narg_for_orbit 6 = .val 3 ∧ (0 : Int) ≤ 1 ∧
      (1 : Int) + 3 ≤ ([7, -3, 5, 0, 2] : List ℚ).length) ∧
    ∃ args', clamp_arg 6 1 ([7, -3, 5, 0, 2] : List ℚ) = .ret args' ∧
      args'.length = ([7, -3, 5, 0, 2] : List ℚ).length ∧
      (∀ k, (1 : Int) ≤ k → k < 1 + 3 →
        ∃ x y, getAt ([7, -3, 5, 0, 2] : List ℚ) k = some x ∧ getAt args' k = some y ∧
          0 ≤ y ∧ y ≤ 1 ∧ (x < 0 → y = 0) ∧ (1 < x → y = 1) ∧ (0 ≤ x → x ≤ 1 → y = x)) ∧
      (∀ k, ¬ ((1 : Int) ≤ k ∧ k < 1 + 3) →
        getAt args' k = getAt ([7, -3, 5, 0, 2] : List ℚ) k) :=
  ⟨by decide, clamp_arg_projects 6 1 3 [7, -3, 5, 0, 2] (by decide) (by decide) (by decide)⟩

/-! ## C9: `validate_orbit` -/

/-- C9: `validate_orbit orb` is true exactly when the multiplicity `orb 0` of the centroid
orbit is at most 1; a selection with `orb 0 > 1` is rejected; the result depends on
`orb 0` only. -/
theorem validate_orbit_iff (orb : Fin 7 → Int) :
    (validate_orbit orb = true ↔ orb 0 ≤ 1) ∧
    (1 < orb 0 ↔ validate_orbit orb = false) ∧
    (∀ orb' : Fin 7 → Int, orb' 0 = orb 0 → validate_orbit orb' = validate_orbit orb) := by
  refine ⟨by simp [validate_orbit], by simp [validate_orbit], ?_⟩
  intro orb' h
  simp [validate_orbit, h]

/-! ## C10: the fatal path -/

theorem Outcome.ofAccess_ne_abort {σ : Type} (o : Option σ) (s : σ) :
    Outcome.ofAccess o ≠ .abort s := by
  cases o <;> simp [Outcome.ofAccess]

theorem not_orbit_index (i : Int) (h0 : i = 0 → False) (h1 : i = 1 → False)
    (h2 : i = 2 → False) (h3 : i = 3 → False) (h4 : i = 4 → False) (h5 : i = 5 → False)
    (h6 : i = 6 → False) : ¬ (0 ≤ i ∧ i ≤ 6) := by
  rintro ⟨a, b⟩
  have h : i = 0 ∨ i = 1 ∨ i = 2 ∨ i = 3 ∨ i = 4 ∨ i = 5 ∨ i = 6 := by omega
  rcases h with h | h | h | h | h | h | h
  · exact h0 h
  · exact h1 h
  · exact h2 h
  · exact h3 h
  · exact h4 h
  · exact h5 h
  · exact h6 h

theorem npts_for_orbit_bad_iff (i : Int) :
    npts_for_orbit i = .badOrbit ↔ ¬ (0 ≤ i ∧ i ≤ 6) := by
  unfold npts_for_orbit
  split
  case h_8 h0 h1 h2 h3 h4 h5 h6 => simp [not_orbit_index i h0 h1 h2 h3 h4 h5 h6]
  all_goals simp

theorem narg_for_orbit_bad_iff (i : Int) :
    narg_for_orbit i = .badOrbit ↔ ¬ (0 ≤ i ∧ i ≤ 6) := by
  unfold narg_for_orbit
  split
  case h_8 h0 h1 h2 h3 h4 h5 h6 => simp [not_orbit_index i h0 h1 h2 h3 h4 h5 h6]
  all_goals simp

theorem expand_orbit_abort_iff [Zero α] [Neg α] (i aoff poff : Int) (args : List α)
    (pts s : List (Vector3T α)) :
    expand_orbit i aoff poff args pts = .abort s ↔ ¬ (0 ≤ i ∧ i ≤ 6) ∧ s = pts := by
  unfold expand_orbit
  split
  case h_8 h0 h1 h2 h3 h4 h5 h6 =>
    simp only [Outcome.abort.injEq, not_orbit_index i h0 h1 h2 h3 h4 h5 h6, not_false_eq_true,
      true_and]
    exact eq_comm
  all_goals simp [Outcome.ofAccess_ne_abort]

theorem seed_orbit_abort_iff {γ : Type} [Zero α] [One α] (rand : α → α → γ → α × γ)
    (i aoff : Int) (args : List α) (gen : γ) (s : List α × γ) :
    seed_orbit rand i aoff args gen = .abort s ↔ ¬ (0 ≤ i ∧ i ≤ 6) ∧ s = (args, gen) := by
  unfold seed_orbit
  split
  case h_8 h0 h1 h2 h3 h4 h5 h6 =>
    simp only [Outcome.abort.injEq, not_orbit_index i h0 h1 h2 h3 h4 h5 h6, not_false_eq_true,
      true_and]
    exact eq_comm
  all_goals simp [Outcome.ofAccess_ne_abort]

theorem clamp_arg_abort_iff [LinearOrderedField α] (i aoff : Int) (args s : List α) :
    clamp_arg i aoff args = .abort s ↔ ¬ (0 ≤ i ∧ i ≤ 6) ∧ s = args := by
  unfold clamp_arg
  split
  case h_8 h0 h1 h2 h3 h4 h5 h6 =>
    simp only [Outcome.abort.injEq, not_orbit_index i h0 h1 h2 h3 h4 h5 h6, not_false_eq_true,
      true_and]
    exact eq_comm
  all_goals simp [Outcome.ofAccess_ne_abort]

/-- C10: each of `npts_for_orbit`, `narg_for_orbit`, `expand_orbit`, `seed_orbit` and
`clamp_arg` takes the fatal `Bad orbit` path exactly when the orbit index is outside
`0..6` (for instance 7 or -1); when it does, no value is returned and `pts`, `args` and
the generator are as they were before the call. -/
theorem bad_orbit_iff [LinearOrderedField α] {γ : Type} (rand : α → α → γ → α × γ)
    (i aoff poff : Int) (args : List α) (pts : List (Vector3T α)) (gen : γ) :
    (npts_for_orbit i = .badOrbit ↔ ¬ (0 ≤ i ∧ i ≤ 6)) ∧
    (narg_for_orbit i = .badOrbit ↔ ¬ (0 ≤ i ∧ i ≤ 6)) ∧
    (∀ s, expand_orbit i aoff poff args pts = .abort s ↔ ¬ (0 ≤ i ∧ i ≤ 6) ∧ s = pts) ∧
    (∀ s, seed_orbit rand i aoff args gen = .abort s ↔
      ¬ (0 ≤ i ∧ i ≤ 6) ∧ s = (args, gen)) ∧
    (∀ s, clamp_arg i aoff args = .abort s ↔ ¬ (0 ≤ i ∧ i ≤ 6) ∧ s = args) ∧
    npts_for_orbit 7 = .badOrbit ∧ npts_for_orbit (-1) = .badOrbit ∧
    narg_for_orbit 7 = .badOrbit ∧ narg_for_orbit (-1) = .badOrbit ∧
    expand_orbit 7 aoff poff args pts = .abort pts ∧
    expand_orbit (-1) aoff poff args pts = .abort pts ∧
    seed_orbit rand 7 aoff args gen = .abort (args, gen) ∧
    seed_orbit rand (-1) aoff args gen = .abort (args, gen) ∧
    clamp_arg 7 aoff args = .abort args ∧ clamp_arg (-1) aoff args = .abort args :=
  ⟨npts_for_orbit_bad_iff i, narg_for_orbit_bad_iff i,
    fun s => expand_orbit_abort_iff i aoff poff args pts s,
    fun s => seed_orbit_abort_iff rand i aoff args gen s,
    fun s => clamp_arg_abort_iff i aoff args s,
    by decide, by decide, by decide, by decide,
    (expand_orbit_abort_iff 7 aoff poff args pts pts).mpr ⟨by decide, rfl⟩,
    (expand_orbit_abort_iff (-1) aoff poff args pts pts).mpr ⟨by decide, rfl⟩,
    (seed_orbit_abort_iff rand 7 aoff args gen _).mpr ⟨by decide, rfl⟩,
    (seed_orbit_abort_iff rand (-1) aoff args gen _).mpr ⟨by decide, rfl⟩,
    (clamp_arg_abort_iff 7 aoff args args).mpr ⟨by decide, rfl⟩,
    (clamp_arg_abort_iff (-1) aoff args args).mpr ⟨by decide, rfl⟩⟩
/-! ## C11: the arguments read by `expand_orbit` -/

/-- The orbit table determines the arguments it was built from. -/
theorem orbitRows_injective [Zero α] [Neg α] (i n : Int) (a b c a' b' c' : α)
    (hn : narg_for_orbit i = .val n) (h : orbitRows i a b c = orbitRows i a' b' c') :
    (0 < n → a = a') ∧ (1 < n → b = b') ∧ (2 < n → c = c') := by
  unfold narg_for_orbit at hn
  split at hn <;> simp at hn <;> subst hn
  · simp
  · have := congrArg (fun l => l[4]?) h
    simp [orbitRows, expand_case1] at this
    simp [this]
  · have := congrArg (fun l => l[6]?) h
    simp [orbitRows, expand_case2] at this
    simp [this]
  · have := congrArg (fun l => l[3]?) h
    simp [orbitRows, expand_case3] at this
    simp [this]
  · have := congrArg (fun l => l[10]?) h
    simp [orbitRows, expand_case4] at this
    simp [this]
  · have := congrArg (fun l => l[20]?) h
    simp [orbitRows, expand_case5] at this
    simp [this]
  · have := congrArg (fun l => l[42]?) h
    simp [orbitRows, expand_case6] at this
    simp [this]

theorem argAt_eq_of_getAt_eq [Zero α] (args₁ args₂ : List α) (aoff k : Int)
    (h : getAt args₁ (aoff + k) = getAt args₂ (aoff + k)) :
    argAt args₁ aoff k = argAt args₂ aoff k := by
  unfold argAt
  rw [h]

/-- For in-bounds offsets, two argument vectors give the same result exactly when they
agree on the window `aoff .. aoff + n - 1`. -/
theorem expand_orbit_eq_iff [Zero α] [Neg α] (i aoff poff n m : Int)
    (args₁ args₂ : List α) (pts : List (Vector3T α))
    (hn : narg_for_orbit i = .val n) (hm : npts_for_orbit i = .val m)
    (ha0 : 0 ≤ aoff) (ha1 : aoff + n ≤ args₁.length) (ha2 : aoff + n ≤ args₂.length)
    (hp0 : 0 ≤ poff) (hp1 : poff + m ≤ pts.length) :
    expand_orbit i aoff poff args₁ pts = expand_orbit i aoff poff args₂ pts ↔
      ∀ k : Int, 0 ≤ k → k < n → getAt args₁ (aoff + k) = getAt args₂ (aoff + k) := by
  obtain ⟨p₁, hret₁, hrows₁⟩ :=
    expand_orbit_rows i aoff poff n m args₁ pts hn hm ha0 ha1 hp0 hp1
  obtain ⟨p₂, hret₂, hrows₂⟩ :=
    expand_orbit_rows i aoff poff n m args₂ pts hn hm ha0 ha2 hp0 hp1
  constructor
  · intro h
    rw [hret₁, hret₂] at h
    have hp : p₁ = p₂ := Outcome.ret.inj h
    subst hp
    rw [hrows₁] at hrows₂
    obtain ⟨e0, e1, e2⟩ := orbitRows_injective i n _ _ _ _ _ _ hn hrows₂
    intro k hk0 hk1
    rw [getAt_argAt args₁ aoff k (by omega) (by omega),
      getAt_argAt args₂ aoff k (by omega) (by omega)]
    have hk : k = 0 ∨ k = 1 ∨ k = 2 := by
      rcases narg_for_orbit_range i n hn with h | h | h | h <;> omega
    rcases hk with rfl | rfl | rfl
    · rw [e0 hk1]
    · rw [e1 hk1]
    · rw [e2 hk1]
  · intro h
    rw [expand_orbit_eq i aoff poff n m args₁ pts hn hm ha0 ha1 hp0 hp1,
      expand_orbit_eq i aoff poff n m args₂ pts hn hm ha0 ha2 hp0 hp1,
      orbitRows_congr i n _ _ _ (argAt args₂ aoff 0) (argAt args₂ aoff 1) (argAt args₂ aoff 2)
        hn (fun h0 => argAt_eq_of_getAt_eq _ _ _ _ (h 0 le_rfl h0))
        (fun h1 => argAt_eq_of_getAt_eq _ _ _ _ (h 1 (by decide) h1))
        (fun h2 => argAt_eq_of_getAt_eq _ _ _ _ (h 2 (by decide) h2))]

/-- C11: the orbit types `0..6` take 0, 1, 1, 1, 2, 2, 3 arguments.  For in-bounds
offsets the result of `expand_orbit` depends on the window `args(aoff .. aoff + n - 1)`
and on nothing else in `args`: two argument vectors give the same result exactly when they
agree on the window, and for every position of the window there is an argument vector
that differs from `args₁` at that position only and gives a different result. -/
theorem expand_orbit_reads_window [LinearOrderedField α] (i aoff poff n m : Int)
    (args₁ args₂ : List α) (pts : List (Vector3T α))
    (hn : narg_for_orbit i = .val n) (hm : npts_for_orbit i = .val m)
    (ha0 : 0 ≤ aoff) (ha1 : aoff + n ≤ args₁.length) (ha2 : aoff + n ≤ args₂.length)
    (hp0 : 0 ≤ poff) (hp1 : poff + m ≤ pts.length) :
    List.map narg_for_orbit [0, 1, 2, 3, 4, 5, 6]
        = [.val 0, .val 1, .val 1, .val 1, .val 2, .val 2, .val 3] ∧
    (expand_orbit i aoff poff args₁ pts = expand_orbit i aoff poff args₂ pts ↔
      ∀ k : Int, 0 ≤ k → k < n → getAt args₁ (aoff + k) = getAt args₂ (aoff + k)) ∧
    (∀ k : Int, 0 ≤ k → k < n → ∃ args₃ : List α, args₃.length = args₁.length ∧
      (∀ j : Int, j ≠ aoff + k → getAt args₃ j = getAt args₁ j) ∧
      expand_orbit i aoff poff args₃ pts ≠ expand_orbit i aoff poff args₁ pts) := by
  refine ⟨by decide, expand_orbit_eq_iff i aoff poff n m args₁ args₂ pts hn hm ha0 ha1 ha2
    hp0 hp1, ?_⟩
  intro k hk0 hk1
  have hset : setAt args₁ (aoff + k) (argAt args₁ aoff k + 1)
      = some (args₁.set (aoff + k).toNat (argAt args₁ aoff k + 1)) := by
    have h1 : 0 ≤ aoff + k := by omega
    have h2 : aoff + k < args₁.length := by omega
    simp [setAt, h1, h2]
  obtain ⟨hl, hg, hf⟩ := getAt_setAt _ _ _ _ hset
  refine ⟨_, hl, hf, ?_⟩
  intro heq
  have := (expand_orbit_eq_iff i aoff poff n m _ args₁ pts hn hm ha0 (by omega) ha1
    hp0 hp1).mp heq k hk0 hk1
  rw [hg, getAt_argAt args₁ aoff k (by omega) (by omega)] at this
  have h3 : argAt args₁ aoff k + 1 = argAt args₁ aoff k := Option.some.inj this
  linarith

/-- Instance of `expand_orbit_reads_window`: orbit type 4 read at offset 1 of `(7, 2, 3)`
and of `(5, 2, 3, 1)`, written to rows `1 .. 24` of a 26-row matrix. -/
theorem expand_orbit_reads_window_witness :
    (narg_for_orbit 4 = .val 2 ∧ npts_for_orbit 4 = .val 24 ∧
      (0 : Int) ≤ 1 ∧ (1 : Int) + 2 ≤ ([7, 2, 3] : List ℚ).length ∧
      (1 : Int) + 2 ≤ ([5, 2, 3, 1] : List ℚ).length ∧
      (0 : Int) ≤ 1 ∧ (1 : Int) + 24 ≤ (List.replicate 26 (⟨9, 9, 9⟩ : Vector3T ℚ)).length) ∧
    (List.map narg_for_orbit [0, 1, 2, 3, 4, 5, 6]
        = [.val 0, .val 1, .val 1, .val 1, .val 2, .val 2, .val 3] ∧
    (expand_orbit 4 1 1 ([7, 2, 3] : List ℚ) (List.replicate 26 (⟨9, 9, 9⟩ : Vector3T ℚ))
        = expand_orbit 4 1 1 ([5, 2, 3, 1] : List ℚ)
          (List.replicate 26 (⟨9, 9, 9⟩ : Vector3T ℚ)) ↔
      ∀ k : Int, 0 ≤ k → k < 2 →
        getAt ([7, 2, 3] : List ℚ) (1 + k) = getAt ([5, 2, 3, 1] : List ℚ) (1 + k)) ∧
    (∀ k : Int, 0 ≤ k → k < 2 → ∃ args₃ : List ℚ,
      args₃.length = ([7, 2, 3] : List ℚ).length ∧
      (∀ j : Int, j ≠ 1 + k → getAt args₃ j = getAt ([7, 2, 3] : List ℚ) j) ∧
      expand_orbit 4 1 1 args₃ (List.replicate 26 (⟨9, 9, 9⟩ : Vector3T ℚ))
        ≠ expand_orbit 4 1 1 ([7, 2, 3] : List ℚ)
          (List.replicate 26 (⟨9, 9, 9⟩ : Vector3T ℚ)))) :=
  ⟨by decide, expand_orbit_reads_window 4 1 1 2 24 [7, 2, 3] [5, 2, 3, 1] _ (by decide)
    (by decide) (by decide) (by decide) (by decide) (by decide) (by decide)⟩
/-! ## C12: `seed_orbit` -/

theorem setAt_spec {β : Type} (xs : List β) (k : Int) (x : β) (h0 : 0 ≤ k)
    (h1 : k < xs.length) :
    ∃ xs', setAt xs k x = some xs' ∧ xs'.length = xs.length ∧ getAt xs' k = some x ∧
      ∀ j, j ≠ k → getAt xs' j = getAt xs j := by
  have hset : setAt xs k x = some (xs.set k.toNat x) := by simp [setAt, h0, h1]
  exact ⟨_, hset, getAt_setAt _ _ _ _ hset⟩

/-- C12: with the random source an explicit stream `s`, for an orbit type in `0..6` and an
in-bounds offset `seed_orbit` returns; it has consumed exactly `n = narg_for_orbit i`
draws, each requested over the range `(0, 1)`; the draws are stored in order in
`args(aoff), ..., args(aoff + n - 1)`; every other entry of `args` is unchanged; for
`i = 0` nothing is drawn and nothing changes. -/
theorem seed_orbit_draws [Zero α] [One α] (s : Nat → α) (i aoff n : Int) (args : List α)
    (g : StreamState α)
    (hn : narg_for_orbit i = .val n) (ha0 : 0 ≤ aoff) (ha1 : aoff + n ≤ args.length) :
    ∃ args', seed_orbit (streamRand s) i aoff args g
        = .ret (args', ⟨g.pos + n.toNat, g.log ++ List.replicate n.toNat (0, 1)⟩) ∧
      args'.length = args.length ∧
      (∀ k : Int, 0 ≤ k → k < n → getAt args' (aoff + k) = some (s (g.pos + k.toNat))) ∧
      (∀ j : Int, ¬ (aoff ≤ j ∧ j < aoff + n) → getAt args' j = getAt args j) ∧
      (i = 0 → seed_orbit (streamRand s) i aoff args g = .ret (args, g)) := by
  unfold narg_for_orbit at hn
  split at hn <;> simp at hn <;> subst hn
  · refine ⟨args, ?_, rfl, fun k h0 h1 => by omega, fun _ _ => rfl, fun _ => ?_⟩
    · simp [seed_orbit]
    · simp [seed_orbit]
  · obtain ⟨a₁, c₁, l₁, w₁, f₁⟩ := setAt_spec args aoff (s g.pos) ha0 (by omega)
    refine ⟨a₁, ?_, l₁, ?_, ?_, fun h => absurd h (by decide)⟩
    · simp [seed_orbit, streamRand, c₁, Outcome.ofAccess]
    · intro k h0 h1
      have : k = 0 := by omega
      subst this
      simpa using w₁
    · intro j hj
      exact f₁ j (by omega)
  · obtain ⟨a₁, c₁, l₁, w₁, f₁⟩ := setAt_spec args aoff (s g.pos) ha0 (by omega)
    refine ⟨a₁, ?_, l₁, ?_, ?_, fun h => absurd h (by decide)⟩
    · simp [seed_orbit, streamRand, c₁, Outcome.ofAccess]
    · intro k h0 h1
      have : k = 0 := by omega
      subst this
      simpa using w₁
    · intro j hj
      exact f₁ j (by omega)
  · obtain ⟨a₁, c₁, l₁, w₁, f₁⟩ := setAt_spec args aoff (s g.pos) ha0 (by omega)
    refine ⟨a₁, ?_, l₁, ?_, ?_, fun h => absurd h (by decide)⟩
    · simp [seed_orbit, streamRand, c₁, Outcome.ofAccess]
    · intro k h0 h1
      have : k = 0 := by omega
      subst this
      simpa using w₁
    · intro j hj
      exact f₁ j (by omega)
  · obtain ⟨a₁, c₁, l₁, w₁, f₁⟩ := setAt_spec args aoff (s g.pos) ha0 (by omega)
    obtain ⟨a₂, c₂, l₂, w₂, f₂⟩ := setAt_spec a₁ (aoff + 1) (s (g.pos + 1)) (by omega)
      (by omega)
    refine ⟨a₂, ?_, by omega, ?_, ?_, fun h => absurd h (by decide)⟩
    · simp [seed_orbit, streamRand, c₁, c₂, Outcome.ofAccess, List.replicate]
    · intro k h0 h1
      have : k = 0 ∨ k = 1 := by omega
      rcases this with rfl | rfl
      · rw [f₂ _ (by omega)]
        simpa using w₁
      · simpa using w₂
    · intro j hj
      rw [f₂ j (by omega), f₁ j (by omega)]
  · obtain ⟨a₁, c₁, l₁, w₁, f₁⟩ := setAt_spec args aoff (s g.pos) ha0 (by omega)
    obtain ⟨a₂, c₂, l₂, w₂, f₂⟩ := setAt_spec a₁ (aoff + 1) (s (g.pos + 1)) (by omega)
      (by omega)
    refine ⟨a₂, ?_, by omega, ?_, ?_, fun h => absurd h (by decide)⟩
    · simp [seed_orbit, streamRand, c₁, c₂, Outcome.ofAccess, List.replicate]
    · intro k h0 h1
      have : k = 0 ∨ k = 1 := by omega
      rcases this with rfl | rfl
      · rw [f₂ _ (by omega)]
        simpa using w₁
      · simpa using w₂
    · intro j hj
      rw [f₂ j (by omega), f₁ j (by omega)]
  · obtain ⟨a₁, c₁, l₁, w₁, f₁⟩ := setAt_spec args aoff (s g.pos) ha0 (by omega)
    obtain ⟨a₂, c₂, l₂, w₂, f₂⟩ := setAt_spec a₁ (aoff + 1) (s (g.pos + 1)) (by omega)
      (by omega)
    obtain ⟨a₃, c₃, l₃, w₃, f₃⟩ := setAt_spec a₂ (aoff + 2) (s (g.pos + 1 + 1)) (by omega)
      (by omega)
    refine ⟨a₃, ?_, by omega, ?_, ?_, fun h => absurd h (by decide)⟩
    · simp [seed_orbit, streamRand, c₁, c₂, c₃, Outcome.ofAccess, List.replicate]
    · intro k h0 h1
      have : k = 0 ∨ k = 1 ∨ k = 2 := by omega
      rcases this with rfl | rfl | rfl
      · rw [f₃ _ (by omega), f₂ _ (by omega)]
        simpa using w₁
      · rw [f₃ _ (by omega)]
        simpa using w₂
      · simpa using w₃
    · intro j hj
      rw [f₃ j (by omega), f₂ j (by omega), f₁ j (by omega)]

/-- Instance of `seed_orbit_draws`: orbit type 6 at offset 1 of a five-entry vector, the
stream being `10, 11, 12, ...` with two draws already consumed. -/
theorem seed_orbit_draws_witness :
    (narg_for_orbit 6 = .val 3 ∧ (0 : Int) ≤ 1 ∧
      (1 : Int) + 3 ≤ ([7, -3, 5, 0, 2] : List ℚ).length) ∧
    ∃ args', seed_orbit (streamRand (fun k => (k : ℚ) + 10)) 6 1 ([7, -3, 5, 0, 2] : List ℚ)
          ⟨2, [(0, 1), (0, 1)]⟩
        = .ret (args', ⟨2 + (3 : Int).toNat,
            [(0, 1), (0, 1)] ++ List.replicate (3 : Int).toNat (0, 1)⟩) ∧
      args'.length = ([7, -3, 5, 0, 2] : List ℚ).length ∧
      (∀ k : Int, 0 ≤ k → k < 3 →
        getAt args' (1 + k) = some ((fun k : Nat => (k : ℚ) + 10) (2 + k.toNat))) ∧
      (∀ j : Int, ¬ (1 ≤ j ∧ j < 1 + 3) → getAt args' j = getAt ([7, -3, 5, 0, 2] : List ℚ) j) ∧
      ((6 : Int) = 0 →
        seed_orbit (streamRand (fun k => (k : ℚ) + 10)) 6 1 ([7, -3, 5, 0, 2] : List ℚ)
          ⟨2, [(0, 1), (0, 1)]⟩ = .ret ([7, -3, 5, 0, 2], ⟨2, [(0, 1), (0, 1)]⟩)) :=
  ⟨by decide, seed_orbit_draws (fun k => (k : ℚ) + 10) 6 1 3 [7, -3, 5, 0, 2]
    ⟨2, [(0, 1), (0, 1)]⟩ (by decide) (by decide) (by decide)⟩
/-! ## C16: feasible arguments give points of the reference cube -/

theorem orbitRows_sym_rank (i n : Int) (hn : narg_for_orbit i = .val n) :
    ∀ w ∈ orbitRows i Sym.pa Sym.pb Sym.pc,
      Sym.rank w.x ≤ n ∧ Sym.rank w.y ≤ n ∧ Sym.rank w.z ≤ n := by
  unfold narg_for_orbit at hn
  split at hn <;> simp at hn <;> subst hn <;> unfold orbitRows <;> decide

theorem Sym.eval_mem_Icc [LinearOrderedField α] (a b c : α) (n : Int) (s : Sym)
    (hs : Sym.rank s ≤ n)
    (ha : 0 < n → 0 ≤ a ∧ a ≤ 1) (hb : 1 < n → 0 ≤ b ∧ b ≤ 1) (hc : 2 < n → 0 ≤ c ∧ c ≤ 1) :
    -1 ≤ Sym.eval a b c s ∧ Sym.eval a b c s ≤ 1 := by
  cases s <;> simp only [Sym.rank] at hs <;> simp only [Sym.eval]
  · exact ⟨by linarith [zero_le_one (α := α)], zero_le_one⟩
  · obtain ⟨h0, h1⟩ := ha (by omega)
    exact ⟨by linarith, h1⟩
  · obtain ⟨h0, h1⟩ := ha (by omega)
    exact ⟨by linarith, by linarith⟩
  · obtain ⟨h0, h1⟩ := hb (by omega)
    exact ⟨by linarith, h1⟩
  · obtain ⟨h0, h1⟩ := hb (by omega)
    exact ⟨by linarith, by linarith⟩
  · obtain ⟨h0, h1⟩ := hc (by omega)
    exact ⟨by linarith, h1⟩
  · obtain ⟨h0, h1⟩ := hc (by omega)
    exact ⟨by linarith, by linarith⟩

/-- Arguments in `[0, 1]` give orbit rows in the cube `[-1, 1]^3`. -/
theorem orbitRows_mem_cube [LinearOrderedField α] (i n : Int) (a b c : α)
    (hn : narg_for_orbit i = .val n)
    (ha : 0 < n → 0 ≤ a ∧ a ≤ 1) (hb : 1 < n → 0 ≤ b ∧ b ≤ 1) (hc : 2 < n → 0 ≤ c ∧ c ≤ 1) :
    ∀ v ∈ orbitRows i a b c,
      (-1 ≤ v.x ∧ v.x ≤ 1) ∧ (-1 ≤ v.y ∧ v.y ≤ 1) ∧ (-1 ≤ v.z ∧ v.z ≤ 1) := by
  intro v hv
  rw [orbitRows_eq_map_eval] at hv
  obtain ⟨w, hw, rfl⟩ := List.mem_map.mp hv
  obtain ⟨r1, r2, r3⟩ := orbitRows_sym_rank i n hn w hw
  exact ⟨Sym.eval_mem_Icc a b c n _ r1 ha hb hc, Sym.eval_mem_Icc a b c n _ r2 ha hb hc,
    Sym.eval_mem_Icc a b c n _ r3 ha hb hc⟩

/-- C16: for an orbit type in `0..6` and in-bounds offsets, if every argument of the window
lies in `[0, 1]` then every coordinate of every row written by `expand_orbit` lies in
`[-1, 1]`; in particular this holds for the rows written from the result of `clamp_arg`,
whatever the arguments were before. -/
theorem expand_orbit_in_cube [LinearOrderedField α] (i aoff poff n m : Int)
    (args : List α) (pts : List (Vector3T α))
    (hn : narg_for_orbit i = .val n) (hm : npts_for_orbit i = .val m)
    (ha0 : 0 ≤ aoff) (ha1 : aoff + n ≤ args.length)
    (hp0 : 0 ≤ poff) (hp1 : poff + m ≤ pts.length) :
    ((∀ k : Int, 0 ≤ k → k < n → ∃ x, getAt args (aoff + k) = some x ∧ 0 ≤ x ∧ x ≤ 1) →
      ∃ pts', expand_orbit i aoff poff args pts = .ret pts' ∧
        ∀ v ∈ rowsAt pts' poff m,
          (-1 ≤ v.x ∧ v.x ≤ 1) ∧ (-1 ≤ v.y ∧ v.y ≤ 1) ∧ (-1 ≤ v.z ∧ v.z ≤ 1)) ∧
    (∃ args' pts', clamp_arg i aoff args = .ret args' ∧
      expand_orbit i aoff poff args' pts = .ret pts' ∧
        ∀ v ∈ rowsAt pts' poff m,
          (-1 ≤ v.x ∧ v.x ≤ 1) ∧ (-1 ≤ v.y ∧ v.y ≤ 1) ∧ (-1 ≤ v.z ∧ v.z ≤ 1)) := by
  have key : ∀ args₀ : List α, aoff + n ≤ args₀.length →
      (∀ k : Int, 0 ≤ k → k < n → ∃ x, getAt args₀ (aoff + k) = some x ∧ 0 ≤ x ∧ x ≤ 1) →
      ∃ pts', expand_orbit i aoff poff args₀ pts = .ret pts' ∧
        ∀ v ∈ rowsAt pts' poff m,
          (-1 ≤ v.x ∧ v.x ≤ 1) ∧ (-1 ≤ v.y ∧ v.y ≤ 1) ∧ (-1 ≤ v.z ∧ v.z ≤ 1) := by
    intro args₀ hlen hfeas
    obtain ⟨pts', hret, hrows⟩ :=
      expand_orbit_rows i aoff poff n m args₀ pts hn hm ha0 hlen hp0 hp1
    refine ⟨pts', hret, ?_⟩
    rw [hrows]
    have hk : ∀ k : Int, 0 ≤ k → k < n → 0 ≤ argAt args₀ aoff k ∧ argAt args₀ aoff k ≤ 1 := by
      intro k h0 h1
      obtain ⟨x, hx, hx0, hx1⟩ := hfeas k h0 h1
      rw [getAt_argAt args₀ aoff k (by omega) (by omega)] at hx
      rw [Option.some.inj hx]
      exact ⟨hx0, hx1⟩
    exact orbitRows_mem_cube i n _ _ _ hn (fun h => hk 0 le_rfl h)
      (fun h => hk 1 (by decide) h) (fun h => hk 2 (by decide) h)
  refine ⟨key args ha1, ?_⟩
  obtain ⟨args', hc, hl, hw, _⟩ := clamp_arg_spec i aoff n args hn ha0 ha1
  obtain ⟨pts', hret, hin⟩ := key args' (by omega) (by
    intro k h0 h1
    have hg := hw (aoff + k) (by omega) (by omega)
    rw [getAt_argAt args aoff k (by omega) (by omega)] at hg
    exact ⟨_, hg, (clamp_props _).1, (clamp_props _).2.1⟩)
  exact ⟨args', pts', hc, hret, hin⟩

/-- Instance of `expand_orbit_in_cube`: orbit type 4 read at offset 1 of `(7, 1, 0)`,
written to rows `1 .. 24` of a 26-row matrix. -/
theorem expand_orbit_in_cube_witness :
    (narg_for_orbit 4 = .val 2 ∧ npts_for_orbit 4 = .val 24 ∧
      (0 : Int) ≤ 1 ∧ (1 : Int) + 2 ≤ ([7, 1, 0] : List ℚ).length ∧
      (0 : Int) ≤ 1 ∧ (1 : Int) + 24 ≤ (List.replicate 26 (⟨9, 9, 9⟩ : Vector3T ℚ)).length) ∧
    (((∀ k : Int, 0 ≤ k → k < 2 →
        ∃ x, getAt ([7, 1, 0] : List ℚ) (1 + k) = some x ∧ 0 ≤ x ∧ x ≤ 1) →
      ∃ pts', expand_orbit 4 1 1 ([7, 1, 0] : List ℚ)
          (List.replicate 26 (⟨9, 9, 9⟩ : Vector3T ℚ)) = .ret pts' ∧
        ∀ v ∈ rowsAt pts' 1 24,
          (-1 ≤ v.x ∧ v.x ≤ 1) ∧ (-1 ≤ v.y ∧ v.y ≤ 1) ∧ (-1 ≤ v.z ∧ v.z ≤ 1)) ∧
    (∃ args' pts', clamp_arg 4 1 ([7, 1, 0] : List ℚ) = .ret args' ∧
      expand_orbit 4 1 1 args' (List.replicate 26 (⟨9, 9, 9⟩ : Vector3T ℚ)) = .ret pts' ∧
        ∀ v ∈ rowsAt pts' 1 24,
          (-1 ≤ v.x ∧ v.x ≤ 1) ∧ (-1 ≤ v.y ∧ v.y ≤ 1) ∧ (-1 ≤ v.z ∧ v.z ≤ 1))) :=
  ⟨by decide, expand_orbit_in_cube 4 1 1 2 24 [7, 1, 0] _ (by decide) (by decide)
    (by decide) (by decide) (by decide) (by decide)⟩
/-! ## C17: index safety -/

theorem seed_orbit_ret {γ : Type} [Zero α] [One α] (rand : α → α → γ → α × γ)
    (i aoff n : Int) (args : List α) (gen : γ)
    (hn : narg_for_orbit i = .val n) (ha0 : 0 ≤ aoff) (ha1 : aoff + n ≤ args.length) :
    ∃ s, seed_orbit rand i aoff args gen = .ret s := by
  unfold narg_for_orbit at hn
  split at hn <;> simp at hn <;> subst hn
  · exact ⟨(args, gen), by simp [seed_orbit]⟩
  · obtain ⟨a₁, c₁, l₁, -, -⟩ := setAt_spec args aoff (rand 0 1 gen).1 ha0 (by omega)
    exact ⟨(a₁, (rand 0 1 gen).2), by simp [seed_orbit, c₁, Outcome.ofAccess]⟩
  · obtain ⟨a₁, c₁, l₁, -, -⟩ := setAt_spec args aoff (rand 0 1 gen).1 ha0 (by omega)
    exact ⟨(a₁, (rand 0 1 gen).2), by simp [seed_orbit, c₁, Outcome.ofAccess]⟩
  · obtain ⟨a₁, c₁, l₁, -, -⟩ := setAt_spec args aoff (rand 0 1 gen).1 ha0 (by omega)
    exact ⟨(a₁, (rand 0 1 gen).2), by simp [seed_orbit, c₁, Outcome.ofAccess]⟩
  · obtain ⟨a₁, c₁, l₁, -, -⟩ := setAt_spec args aoff (rand 0 1 gen).1 ha0 (by omega)
    obtain ⟨a₂, c₂, l₂, -, -⟩ := setAt_spec a₁ (aoff + 1) (rand 0 1 (rand 0 1 gen).2).1
      (by omega) (by omega)
    exact ⟨(a₂, (rand 0 1 (rand 0 1 gen).2).2),
      by simp [seed_orbit, c₁, c₂, Outcome.ofAccess]⟩
  · obtain ⟨a₁, c₁, l₁, -, -⟩ := setAt_spec args aoff (rand 0 1 gen).1 ha0 (by omega)
    obtain ⟨a₂, c₂, l₂, -, -⟩ := setAt_spec a₁ (aoff + 1) (rand 0 1 (rand 0 1 gen).2).1
      (by omega) (by omega)
    exact ⟨(a₂, (rand 0 1 (rand 0 1 gen).2).2),
      by simp [seed_orbit, c₁, c₂, Outcome.ofAccess]⟩
  · obtain ⟨a₁, c₁, l₁, -, -⟩ := setAt_spec args aoff (rand 0 1 gen).1 ha0 (by omega)
    obtain ⟨a₂, c₂, l₂, -, -⟩ := setAt_spec a₁ (aoff + 1) (rand 0 1 (rand 0 1 gen).2).1
      (by omega) (by omega)
    obtain ⟨a₃, c₃, l₃, -, -⟩ := setAt_spec a₂ (aoff + 2)
      (rand 0 1 (rand 0 1 (rand 0 1 gen).2).2).1 (by omega) (by omega)
    exact ⟨(a₃, (rand 0 1 (rand 0 1 (rand 0 1 gen).2).2).2),
      by simp [seed_orbit, c₁, c₂, c₃, Outcome.ofAccess]⟩

/-- C17: element accesses return `Option` in this embedding and the outcome `oob` stands
for an access that returned `none`.  For an orbit type in `0..6`, `0 <= aoff`,
`aoff + narg <= length(args)`, `0 <= poff` and `poff + npts <= rows(pts)`, none of
`expand_orbit`, `seed_orbit` and `clamp_arg` ends in `oob`: each returns normally. -/
theorem index_safety [LinearOrderedField α] {γ : Type} (rand : α → α → γ → α × γ)
    (i aoff poff n m : Int) (args : List α) (pts : List (Vector3T α)) (gen : γ)
    (hn : narg_for_orbit i = .val n) (hm : npts_for_orbit i = .val m)
    (ha0 : 0 ≤ aoff) (ha1 : aoff + n ≤ args.length)
    (hp0 : 0 ≤ poff) (hp1 : poff + m ≤ pts.length) :
    (expand_orbit i aoff poff args pts ≠ .oob ∧
      ∃ pts', expand_orbit i aoff poff args pts = .ret pts') ∧
    (seed_orbit rand i aoff args gen ≠ .oob ∧
      ∃ s, seed_orbit rand i aoff args gen = .ret s) ∧
    (clamp_arg i aoff args ≠ .oob ∧ ∃ args', clamp_arg i aoff args = .ret args') := by
  obtain ⟨pts', h1, -⟩ := expand_orbit_rows i aoff poff n m args pts hn hm ha0 ha1 hp0 hp1
  obtain ⟨s, h2⟩ := seed_orbit_ret rand i aoff n args gen hn ha0 ha1
  obtain ⟨args', h3, -⟩ := clamp_arg_spec i aoff n args hn ha0 ha1
  refine ⟨⟨?_, pts', h1⟩, ⟨?_, s, h2⟩, ⟨?_, args', h3⟩⟩
  · rw [h1]; simp
  · rw [h2]; simp
  · rw [h3]; simp

/-- Instance of `index_safety`: orbit type 6 at offset 1 of a five-entry vector, rows
`2 .. 49` of a 50-row matrix, the generator being a list of pending draws. -/
theorem index_safety_witness :
    (narg_for_orbit 6 = .val 3 ∧ npts_for_orbit 6 = .val 48 ∧
      (0 : Int) ≤ 1 ∧ (1 : Int) + 3 ≤ ([7, -3, 5, 0, 2] : List ℚ).length ∧
      (0 : Int) ≤ 2 ∧ (2 : Int) + 48 ≤ (List.replicate 50 (⟨9, 9, 9⟩ : Vector3T ℚ)).length) ∧
    ((expand_orbit 6 1 2 ([7, -3, 5, 0, 2] : List ℚ)
        (List.replicate 50 (⟨9, 9, 9⟩ : Vector3T ℚ)) ≠ .oob ∧
      ∃ pts', expand_orbit 6 1 2 ([7, -3, 5, 0, 2] : List ℚ)
        (List.replicate 50 (⟨9, 9, 9⟩ : Vector3T ℚ)) = .ret pts') ∧
    (seed_orbit (fun _ _ (g : List ℚ) => (g.headD 0, g.tail)) 6 1
        ([7, -3, 5, 0, 2] : List ℚ) [1, 0, 1] ≠ .oob ∧
      ∃ s, seed_orbit (fun _ _ (g : List ℚ) => (g.headD 0, g.tail)) 6 1
        ([7, -3, 5, 0, 2] : List ℚ) [1, 0, 1] = .ret s) ∧
    (clamp_arg 6 1 ([7, -3, 5, 0, 2] : List ℚ) ≠ .oob ∧
      ∃ args', clamp_arg 6 1 ([7, -3, 5, 0, 2] : List ℚ) = .ret args')) :=
  ⟨by decide, index_safety (fun _ _ (g : List ℚ) => (g.headD 0, g.tail)) 6 1 2 3 48
    [7, -3, 5, 0, 2] _ [1, 0, 1] (by decide) (by decide) (by decide) (by decide) (by decide)
    (by decide)⟩
/-! ## C18: `nbfn_for_qdeg` is monotone and blind to odd degrees -/

/-- C18, counterexample: `nbfn_for_qdeg 8513` returns 2146709495 and `nbfn_for_qdeg 8514`
returns -2146745501, so that `nbfn_for_qdeg` decreases from the degree 8513 to the degree
8514 and is not at least 1 at the degree `8514 >= 0`. -/
theorem nbfn_for_qdeg_not_monotone :
    (8513 : Int) ≤ 8514 ∧
    nbfn_for_qdeg 8513 = some 2146709495 ∧
    nbfn_for_qdeg 8514 = some (-2146745501) ∧
    (¬ ∃ a b : Int, nbfn_for_qdeg 8513 = some a ∧ nbfn_for_qdeg 8514 = some b ∧ a ≤ b) ∧
    (0 : Int) ≤ 8514 ∧
    ¬ ∃ a : Int, nbfn_for_qdeg 8514 = some a ∧ 1 ≤ a := by
  have h3 : nbfn_for_qdeg 8513 = some 2146709495 := by
    rw [nbfn_for_qdeg_eq_length 8513 le_rfl, basisIndices_length_8513]
    rfl
  refine ⟨by decide, h3, nbfn_for_qdeg_8514, ?_, by decide, ?_⟩
  · rintro ⟨a, b, ha, hb, hab⟩
    rw [h3] at ha
    rw [nbfn_for_qdeg_8514] at hb
    obtain rfl := Option.some.inj ha
    obtain rfl := Option.some.inj hb
    omega
  · rintro ⟨a, ha, h1⟩
    rw [nbfn_for_qdeg_8514] at ha
    obtain rfl := Option.some.inj ha
    omega

/-- C18 (amended): for integers `d <= e <= 8513` the calls `nbfn_for_qdeg d` and
`nbfn_for_qdeg e` return values `a <= b`; for every integer `m` with
`2 m + 1 <= 2147483645`, so that no loop variable wraps, `nbfn_for_qdeg (2 m + 1)` and
`nbfn_for_qdeg (2 m)` return the same value; `nbfn_for_qdeg` returns 0 for every negative
degree and at least 1 for every degree from 0 to 8513. -/
theorem nbfn_for_qdeg_monotone (d e : Int) (hde : d ≤ e) (he : e ≤ 8513) :
    (∃ a b : Int, nbfn_for_qdeg d = some a ∧ nbfn_for_qdeg e = some b ∧ a ≤ b) ∧
    (∀ m : Int, 2 * m + 1 ≤ 2147483645 →
      ∃ a : Int, nbfn_for_qdeg (2 * m + 1) = some a ∧ nbfn_for_qdeg (2 * m) = some a) ∧
    (∀ k : Int, k < 0 → nbfn_for_qdeg k = some 0) ∧
    (∀ k : Int, 0 ≤ k → k ≤ 8513 → ∃ a : Int, nbfn_for_qdeg k = some a ∧ 1 ≤ a) := by
  refine ⟨⟨_, _, nbfn_for_qdeg_eq_length d (by omega), nbfn_for_qdeg_eq_length e he, ?_⟩,
    ?_, ?_, ?_⟩
  · exact_mod_cast basisIndices_length_mono d e hde
  · intro m hm
    refine ⟨_, nbfn_for_qdeg_eq_wrap (2 * m + 1) hm, ?_⟩
    rw [nbfn_for_qdeg_eq_wrap (2 * m) (by omega), basisIndices_odd_length]
  · intro k hk
    rw [nbfn_for_qdeg_eq_length k (by omega)]
    have hnil : basisIndices k = [] := by
      apply List.eq_nil_iff_forall_not_mem.mpr
      intro t ht
      rw [mem_basisIndices] at ht
      obtain ⟨h0, h1, h2, h3, _⟩ := ht
      omega
    simp [hnil]
  · intro k hk hk'
    refine ⟨_, nbfn_for_qdeg_eq_length k hk', ?_⟩
    have hmem : ((0, 0, 0) : Int × Int × Int) ∈ basisIndices k := by
      rw [mem_basisIndices]
      exact ⟨le_rfl, le_rfl, le_rfl, by simpa using hk, by simp, by simp, by simp⟩
    have := List.length_pos_of_mem hmem
    omega

/-- Instance of `nbfn_for_qdeg_monotone` at the degrees 3 and 6. -/
theorem nbfn_for_qdeg_monotone_witness :
    ((3 : Int) ≤ 6 ∧ (6 : Int) ≤ 8513) ∧
    ((∃ a b : Int, nbfn_for_qdeg 3 = some a ∧ nbfn_for_qdeg 6 = some b ∧ a ≤ b) ∧
    (∀ m : Int, 2 * m + 1 ≤ 2147483645 →
      ∃ a : Int, nbfn_for_qdeg (2 * m + 1) = some a ∧ nbfn_for_qdeg (2 * m) = some a) ∧
    (∀ k : Int, k < 0 → nbfn_for_qdeg k = some 0) ∧
    (∀ k : Int, 0 ≤ k → k ≤ 8513 → ∃ a : Int, nbfn_for_qdeg k = some a ∧ 1 ≤ a)) :=
  ⟨by decide, nbfn_for_qdeg_monotone 3 6 (by decide) (by decide)⟩

/-! ## C14: moments of an orbit -/

set_option maxRecDepth 100000 in
theorem orbitRows_sym_perm (i : Int) :
    ((orbitRows i Sym.pa Sym.pb Sym.pc).map flipX).Perm (orbitRows i Sym.pa Sym.pb Sym.pc) ∧
    ((orbitRows i Sym.pa Sym.pb Sym.pc).map swapXY).Perm (orbitRows i Sym.pa Sym.pb Sym.pc) ∧
    ((orbitRows i Sym.pa Sym.pb Sym.pc).map swapYZ).Perm (orbitRows i Sym.pa Sym.pb Sym.pc) := by
  unfold orbitRows
  split <;> decide

theorem map_eval_flipX [LinearOrderedRing α] (a b c : α) (w : Vector3T Sym) :
    (flipX w).map (Sym.eval a b c) = flipX (w.map (Sym.eval a b c)) := by
  simp [flipX, Vector3T.map, Sym.eval_neg]

/-- The list of rows of an orbit is mapped to a rearrangement of itself by each of the
three generators. -/
theorem orbitRows_perm [LinearOrderedRing α] (i : Int) (a b c : α) :
    ((orbitRows i a b c).map flipX).Perm (orbitRows i a b c) ∧
    ((orbitRows i a b c).map swapXY).Perm (orbitRows i a b c) ∧
    ((orbitRows i a b c).map swapYZ).Perm (orbitRows i a b c) := by
  obtain ⟨h1, h2, h3⟩ := orbitRows_sym_perm i
  rw [orbitRows_eq_map_eval]
  refine ⟨?_, ?_, ?_⟩
  · have := h1.map (Vector3T.map (Sym.eval a b c))
    simpa [List.map_map, Function.comp_def, map_eval_flipX] using this
  · have := h2.map (Vector3T.map (Sym.eval a b c))
    simpa [List.map_map, Function.comp_def, swapXY, Vector3T.map] using this
  · have := h3.map (Vector3T.map (Sym.eval a b c))
    simpa [List.map_map, Function.comp_def, swapYZ, Vector3T.map] using this

theorem moment_perm [CommRing α] {l₁ l₂ : List (Vector3T α)} (h : l₁.Perm l₂)
    (p q r : Nat) : moment l₁ p q r = moment l₂ p q r := by
  unfold moment
  exact (h.map _).sum_eq

theorem moment_map_flipX [CommRing α] (l : List (Vector3T α)) (p q r : Nat) :
    moment (l.map flipX) p q r = (-1) ^ p * moment l p q r := by
  unfold moment
  rw [List.map_map, ← List.sum_map_mul_left]
  congr 1
  apply List.map_congr_left
  intro v _
  simp only [Function.comp_apply, flipX]
  rw [neg_pow]
  ring

theorem moment_map_swapXY [CommRing α] (l : List (Vector3T α)) (p q r : Nat) :
    moment (l.map swapXY) p q r = moment l q p r := by
  unfold moment
  rw [List.map_map]
  congr 1
  apply List.map_congr_left
  intro v _
  simp only [Function.comp_apply, swapXY]
  ring

theorem moment_map_swapYZ [CommRing α] (l : List (Vector3T α)) (p q r : Nat) :
    moment (l.map swapYZ) p q r = moment l p r q := by
  unfold moment
  rw [List.map_map]
  congr 1
  apply List.map_congr_left
  intro v _
  simp only [Function.comp_apply, swapYZ]
  ring

/-- Moments of the rows of an orbit: invariant under exchanging exponents, zero when the
first exponent is odd. -/
theorem orbitRows_moment [LinearOrderedField α] (i : Int) (a b c : α) (p q r : Nat) :
    moment (orbitRows i a b c) p q r = moment (orbitRows i a b c) q p r ∧
    moment (orbitRows i a b c) p q r = moment (orbitRows i a b c) p r q ∧
    (Odd p → moment (orbitRows i a b c) p q r = 0) := by
  obtain ⟨h1, h2, h3⟩ := orbitRows_perm i a b c
  refine ⟨?_, ?_, ?_⟩
  · rw [← moment_map_swapXY, moment_perm h2]
  · rw [← moment_map_swapYZ, moment_perm h3]
  · intro hp
    have h := moment_perm h1 p q r
    rw [moment_map_flipX, hp.neg_one_pow] at h
    linarith

/-- C14: for an orbit type in `0..6`, any arguments and in-bounds offsets, the sum of
`x^p * y^q * z^r` over the rows written by `expand_orbit` is zero as soon as one of
`p`, `q`, `r` is odd, and it has the same value for each of the six arrangements of
`(p, q, r)`. -/
theorem expand_orbit_moments [LinearOrderedField α] (i aoff poff n m : Int)
    (args : List α) (pts : List (Vector3T α)) (p q r : Nat)
    (hn : narg_for_orbit i = .val n) (hm : npts_for_orbit i = .val m)
    (ha0 : 0 ≤ aoff) (ha1 : aoff + n ≤ args.length)
    (hp0 : 0 ≤ poff) (hp1 : poff + m ≤ pts.length) :
    ∃ pts', expand_orbit i aoff poff args pts = .ret pts' ∧
      (Odd p ∨ Odd q ∨ Odd r → moment (rowsAt pts' poff m) p q r = 0) ∧
      moment (rowsAt pts' poff m) p q r = moment (rowsAt pts' poff m) p r q ∧
      moment (rowsAt pts' poff m) p q r = moment (rowsAt pts' poff m) q p r ∧
      moment (rowsAt pts' poff m) p q r = moment (rowsAt pts' poff m) q r p ∧
      moment (rowsAt pts' poff m) p q r = moment (rowsAt pts' poff m) r p q ∧
      moment (rowsAt pts' poff m) p q r = moment (rowsAt pts' poff m) r q p := by
  obtain ⟨pts', hret, hrows⟩ := expand_orbit_rows i aoff poff n m args pts hn hm ha0 ha1 hp0 hp1
  refine ⟨pts', hret, ?_⟩
  rw [hrows]
  have hxy := fun p q r => (orbitRows_moment i (argAt args aoff 0) (argAt args aoff 1)
    (argAt args aoff 2) p q r).1
  have hyz := fun p q r => (orbitRows_moment i (argAt args aoff 0) (argAt args aoff 1)
    (argAt args aoff 2) p q r).2.1
  have hodd := fun p q r => (orbitRows_moment i (argAt args aoff 0) (argAt args aoff 1)
    (argAt args aoff 2) p q r).2.2
  refine ⟨?_, hyz p q r, hxy p q r, ?_, ?_, ?_⟩
  · rintro (h | h | h)
    · exact hodd p q r h
    · rw [hxy p q r]
      exact hodd q p r h
    · rw [hyz p q r, hxy p r q]
      exact hodd r p q h
  · rw [hxy p q r, hyz q p r]
  · rw [hyz p q r, hxy p r q]
  · rw [hxy p q r, hyz q p r, hxy q r p]

/-- Instance of `expand_orbit_moments`: orbit type 6 with arguments `(2, 3, 5)` read at
offset 1, rows `2 .. 49` of a 50-row matrix, exponents `(3, 2, 4)`. -/
theorem expand_orbit_moments_witness :
    (narg_for_orbit 6 = .val 3 ∧ npts_for_orbit 6 = .val 48 ∧
      (0 : Int) ≤ 1 ∧ (1 : Int) + 3 ≤ ([7, 2, 3, 5] : List ℚ).length ∧
      (0 : Int) ≤ 2 ∧ (2 : Int) + 48 ≤ (List.replicate 50 (⟨9, 9, 9⟩ : Vector3T ℚ)).length) ∧
    ∃ pts', expand_orbit 6 1 2 [7, 2, 3, 5] (List.replicate 50 (⟨9, 9, 9⟩ : Vector3T ℚ))
        = .ret pts' ∧
      (Odd 3 ∨ Odd 2 ∨ Odd 4 → moment (rowsAt pts' 2 48) 3 2 4 = 0) ∧
      moment (rowsAt pts' 2 48) 3 2 4 = moment (rowsAt pts' 2 48) 3 4 2 ∧
      moment (rowsAt pts' 2 48) 3 2 4 = moment (rowsAt pts' 2 48) 2 3 4 ∧
      moment (rowsAt pts' 2 48) 3 2 4 = moment (rowsAt pts' 2 48) 2 4 3 ∧
      moment (rowsAt pts' 2 48) 3 2 4 = moment (rowsAt pts' 2 48) 4 3 2 ∧
      moment (rowsAt pts' 2 48) 3 2 4 = moment (rowsAt pts' 2 48) 4 2 3 :=
  ⟨by decide, expand_orbit_moments 6 1 2 3 48 [7, 2, 3, 5] _ 3 2 4 (by decide) (by decide)
    (by decide) (by decide) (by decide) (by decide)⟩

/-! ## C13: the basis is orthonormal on the cube -/

section Legendre

open Polynomial

theorem choose_mul_descFactorial (n k : Nat) (hk : k ≤ n) :
    n.choose k * (n.descFactorial (n - k) * n.descFactorial k)
      = n.factorial * n.choose k ^ 2 := by
  rw [Nat.descFactorial_eq_factorial_mul_choose, Nat.descFactorial_eq_factorial_mul_choose,
    Nat.choose_symm hk]
  have h := Nat.choose_mul_factorial_mul_factorial hk
  calc n.choose k * ((n - k).factorial * n.choose k * (k.factorial * n.choose k))
      = (n.choose k * k.factorial * (n - k).factorial) * n.choose k ^ 2 := by ring
    _ = n.factorial * n.choose k ^ 2 := by rw [h]

theorem iterate_derivative_sq_sub_one_pow (n : Nat) :
    derivative^[n] ((X ^ 2 - 1 : ℝ[X]) ^ n)
      = ∑ k in Finset.range (n + 1),
          C ((n.factorial : ℝ) * (n.choose k : ℝ) ^ 2) * (X - C 1) ^ k * (X + C 1) ^ (n - k) := by
  have hfac : (X ^ 2 - 1 : ℝ[X]) ^ n = (X - C 1) ^ n * (X + C 1) ^ n := by
    rw [← mul_pow]
    congr 1
    simp only [map_one]
    ring
  rw [hfac, iterate_derivative_mul]
  apply Finset.sum_congr rfl
  intro k hk
  have hk' : k ≤ n := Nat.lt_succ_iff.mp (Finset.mem_range.mp hk)
  rw [iterate_derivative_X_sub_pow, iterate_derivative_X_add_pow, Nat.sub_sub_self hk']
  have h : ((n.choose k : ℕ) : ℝ[X]) * ((n.descFactorial (n - k) : ℕ) * (n.descFactorial k : ℕ))
      = (n.factorial : ℕ) * ((n.choose k : ℕ) : ℝ[X]) ^ 2 := by
    exact_mod_cast congrArg (Nat.cast : ℕ → ℝ[X]) (choose_mul_descFactorial n k hk')
  simp only [nsmul_eq_mul, map_mul, map_pow, map_natCast]
  linear_combination ((X - C 1) ^ k * (X + C 1) ^ (n - k)) * h

theorem legendre_eq_rodrigues (n : Nat) (x : ℝ) :
    legendre n x
      = (derivative^[n] ((X ^ 2 - 1 : ℝ[X]) ^ n)).eval x / (2 ^ n * (n.factorial : ℝ)) := by
  rw [iterate_derivative_sq_sub_one_pow, legendre, eval_finset_sum]
  have hn : (n.factorial : ℝ) ≠ 0 := Nat.cast_ne_zero.mpr n.factorial_ne_zero
  rw [div_eq_div_iff (by positivity) (by positivity), Finset.sum_mul, Finset.sum_mul]
  apply Finset.sum_congr rfl
  intro k _
  simp only [eval_mul, eval_C, eval_pow, eval_sub, eval_add, eval_X]
  ring

theorem integral_eval_derivative (p : ℝ[X]) (a b : ℝ) :
    ∫ x in a..b, (derivative p).eval x = p.eval b - p.eval a := by
  apply intervalIntegral.integral_eq_sub_of_hasDerivAt
  · intro x _
    exact p.hasDerivAt x
  · exact (derivative p).continuous.intervalIntegrable _ _

/-- Integration by parts for polynomials. -/
theorem integral_eval_derivative_mul (p q : ℝ[X]) (a b : ℝ) :
    ∫ x in a..b, (derivative p * q).eval x
      = (p * q).eval b - (p * q).eval a - ∫ x in a..b, (p * derivative q).eval x := by
  have h := integral_eval_derivative (p * q) a b
  rw [derivative_mul] at h
  simp only [eval_add] at h
  rw [intervalIntegral.integral_add ((derivative p * q).continuous.intervalIntegrable _ _)
    ((p * derivative q).continuous.intervalIntegrable _ _)] at h
  linarith

theorem sq_sub_one_pow_ne_zero (n : Nat) : ((X ^ 2 - 1 : ℝ[X]) ^ n) ≠ 0 := by
  apply pow_ne_zero
  have h : (X ^ 2 - 1 : ℝ[X]) = X ^ 2 - C 1 := by simp
  rw [h]
  exact X_pow_sub_C_ne_zero (by decide) 1

/-- The first `n - 1` derivatives of `(x^2 - 1)^n` vanish at `1` and at `-1`. -/
theorem eval_iterate_derivative_sq_sub_one_pow (n k : Nat) (hk : k < n) :
    (derivative^[k] ((X ^ 2 - 1 : ℝ[X]) ^ n)).eval 1 = 0 ∧
    (derivative^[k] ((X ^ 2 - 1 : ℝ[X]) ^ n)).eval (-1) = 0 := by
  have hne := sq_sub_one_pow_ne_zero n
  constructor
  · apply isRoot_iterate_derivative_of_lt_rootMultiplicity
    apply lt_of_lt_of_le hk
    rw [le_rootMultiplicity_iff hne]
    apply pow_dvd_pow_of_dvd
    exact ⟨X + 1, by simp only [map_one]; ring⟩
  · apply isRoot_iterate_derivative_of_lt_rootMultiplicity
    apply lt_of_lt_of_le hk
    rw [le_rootMultiplicity_iff hne]
    apply pow_dvd_pow_of_dvd
    exact ⟨X - 1, by simp only [map_neg, map_one]; ring⟩

/-- Repeated integration by parts against `d^n/dx^n (x^2 - 1)^n`. -/
theorem integral_rodrigues_mul (n : Nat) (q : ℝ[X]) :
    ∀ k : Nat, k ≤ n →
      ∫ x in (-1 : ℝ)..1, (derivative^[n] ((X ^ 2 - 1 : ℝ[X]) ^ n) * q).eval x
        = (-1) ^ k * ∫ x in (-1 : ℝ)..1,
            (derivative^[n - k] ((X ^ 2 - 1 : ℝ[X]) ^ n) * derivative^[k] q).eval x := by
  intro k
  induction k with
  | zero => intro _; simp
  | succ k ih =>
    intro hk
    rw [ih (by omega)]
    have hsplit : n - k = (n - (k + 1)) + 1 := by omega
    rw [hsplit, Function.iterate_succ_apply', integral_eval_derivative_mul]
    obtain ⟨h1, h2⟩ := eval_iterate_derivative_sq_sub_one_pow n (n - (k + 1)) (by omega)
    rw [eval_mul, eval_mul, h1, h2, ← Function.iterate_succ_apply' derivative k q]
    rw [pow_succ]
    ring

theorem sq_sub_one_pow_monic (n : Nat) : ((X ^ 2 - 1 : ℝ[X]) ^ n).Monic := by
  have h : (X ^ 2 - 1 : ℝ[X]) = X ^ 2 - C 1 := by simp
  rw [h]
  exact (monic_X_pow_sub_C (1 : ℝ) (by decide)).pow n

theorem sq_sub_one_pow_natDegree (n : Nat) : ((X ^ 2 - 1 : ℝ[X]) ^ n).natDegree = 2 * n := by
  have h : (X ^ 2 - 1 : ℝ[X]) = X ^ 2 - C 1 := by simp
  rw [h, (monic_X_pow_sub_C (1 : ℝ) (by decide)).natDegree_pow, natDegree_X_pow_sub_C]
  ring

theorem rodrigues_natDegree_le (n : Nat) :
    (derivative^[n] ((X ^ 2 - 1 : ℝ[X]) ^ n)).natDegree ≤ n := by
  have h := natDegree_iterate_derivative ((X ^ 2 - 1 : ℝ[X]) ^ n) n
  rw [sq_sub_one_pow_natDegree] at h
  omega

/-- Integral of the product of two different Rodrigues polynomials. -/
theorem integral_rodrigues_mul_of_lt (m n : Nat) (h : m < n) :
    ∫ x in (-1 : ℝ)..1, (derivative^[n] ((X ^ 2 - 1 : ℝ[X]) ^ n)
      * derivative^[m] ((X ^ 2 - 1 : ℝ[X]) ^ m)).eval x = 0 := by
  rw [integral_rodrigues_mul n _ n le_rfl,
    iterate_derivative_eq_zero (lt_of_le_of_lt (rodrigues_natDegree_le m) h)]
  simp

theorem iterate_derivative_two_mul (n : Nat) :
    derivative^[n] (derivative^[n] ((X ^ 2 - 1 : ℝ[X]) ^ n)) = C (((2 * n).factorial : ℕ) : ℝ) := by
  rw [← Function.iterate_add_apply, ← two_mul]
  ext j
  rw [coeff_iterate_derivative, coeff_C]
  by_cases hj : j = 0
  · subst hj
    have hmon := (sq_sub_one_pow_monic n).coeff_natDegree
    rw [sq_sub_one_pow_natDegree] at hmon
    simp [hmon, Nat.descFactorial_self]
  · have hdeg : ((X ^ 2 - 1 : ℝ[X]) ^ n).natDegree < j + 2 * n := by
      rw [sq_sub_one_pow_natDegree]
      omega
    simp [hj, coeff_eq_zero_of_natDegree_lt hdeg]

/-- Recurrence for the integrals of `(x^2 - 1)^n` over `[-1, 1]`. -/
theorem integral_sq_sub_one_pow_succ (n : Nat) :
    (2 * (n : ℝ) + 3) * ∫ x in (-1 : ℝ)..1, ((X ^ 2 - 1 : ℝ[X]) ^ (n + 1)).eval x
      = -(2 * (n : ℝ) + 2) * ∫ x in (-1 : ℝ)..1, ((X ^ 2 - 1 : ℝ[X]) ^ n).eval x := by
  have h := integral_eval_derivative (X * (X ^ 2 - 1 : ℝ[X]) ^ (n + 1)) (-1) 1
  have hd : derivative (X * (X ^ 2 - 1 : ℝ[X]) ^ (n + 1))
      = C (2 * (n : ℝ) + 3) * (X ^ 2 - 1 : ℝ[X]) ^ (n + 1)
        + C (2 * (n : ℝ) + 2) * (X ^ 2 - 1 : ℝ[X]) ^ n := by
    simp only [derivative_mul, derivative_X, derivative_pow, derivative_sub, derivative_X_pow,
      derivative_one, map_add, map_mul, map_natCast, map_ofNat]
    simp only [Nat.add_sub_cancel, Nat.cast_add, Nat.cast_one, Nat.cast_ofNat]
    ring
  rw [hd] at h
  simp only [eval_add, eval_mul, eval_C, eval_pow, eval_sub, eval_X, eval_one] at h
  rw [intervalIntegral.integral_add, intervalIntegral.integral_const_mul,
    intervalIntegral.integral_const_mul] at h
  · simp only [eval_pow, eval_sub, eval_X, eval_one]
    norm_num at h
    linarith
  · exact (Continuous.intervalIntegrable (by continuity) _ _)
  · exact (Continuous.intervalIntegrable (by continuity) _ _)

theorem integral_sq_sub_one_pow (n : Nat) :
    (-1) ^ n * (∫ x in (-1 : ℝ)..1, ((X ^ 2 - 1 : ℝ[X]) ^ n).eval x)
        * ((2 * n).factorial : ℝ) * (2 * (n : ℝ) + 1)
      = 2 * 4 ^ n * (n.factorial : ℝ) ^ 2 := by
  induction n with
  | zero => simp; norm_num
  | succ n ih =>
    have hrec := integral_sq_sub_one_pow_succ n
    have hf : ((2 * (n + 1)).factorial : ℝ)
        = (2 * (n : ℝ) + 2) * (2 * (n : ℝ) + 1) * ((2 * n).factorial : ℝ) := by
      have : 2 * (n + 1) = (2 * n + 1) + 1 := by ring
      rw [this, Nat.factorial_succ, Nat.factorial_succ]
      push_cast
      ring
    have hg : ((n + 1).factorial : ℝ) = ((n : ℝ) + 1) * (n.factorial : ℝ) := by
      rw [Nat.factorial_succ]
      push_cast
      ring
    rw [hf, hg]
    push_cast
    have e : (-1 : ℝ) ^ (n + 1) * (∫ x in (-1 : ℝ)..1, ((X ^ 2 - 1 : ℝ[X]) ^ (n + 1)).eval x)
        * ((2 * (n : ℝ) + 2) * (2 * (n : ℝ) + 1) * ((2 * n).factorial : ℝ))
        * (2 * ((n : ℝ) + 1) + 1)
        = (2 * (n : ℝ) + 2) ^ 2 * ((-1) ^ n
          * (∫ x in (-1 : ℝ)..1, ((X ^ 2 - 1 : ℝ[X]) ^ n).eval x)
          * ((2 * n).factorial : ℝ) * (2 * (n : ℝ) + 1)) := by
      linear_combination (-(-1 : ℝ) ^ n * (2 * (n : ℝ) + 2) * (2 * (n : ℝ) + 1)
        * ((2 * n).factorial : ℝ)) * hrec
    rw [e, ih]
    ring

/-- Orthogonality relations of the Legendre polynomials on `[-1, 1]`. -/
theorem integral_legendre_mul (m n : Nat) :
    ∫ x in (-1 : ℝ)..1, legendre m x * legendre n x
      = if m = n then 2 / (2 * (n : ℝ) + 1) else 0 := by
  have hform : ∀ a b : Nat, (fun x : ℝ => legendre a x * legendre b x)
      = fun x => (1 / ((2 ^ a * (a.factorial : ℝ)) * (2 ^ b * (b.factorial : ℝ))))
        * (derivative^[a] ((X ^ 2 - 1 : ℝ[X]) ^ a)
          * derivative^[b] ((X ^ 2 - 1 : ℝ[X]) ^ b)).eval x := by
    intro a b
    funext x
    rw [legendre_eq_rodrigues, legendre_eq_rodrigues, eval_mul]
    have ha : (a.factorial : ℝ) ≠ 0 := Nat.cast_ne_zero.mpr a.factorial_ne_zero
    have hb : (b.factorial : ℝ) ≠ 0 := Nat.cast_ne_zero.mpr b.factorial_ne_zero
    field_simp
  have hlt : ∀ a b : Nat, a < b → ∫ x in (-1 : ℝ)..1, legendre a x * legendre b x = 0 := by
    intro a b hab
    rw [hform, intervalIntegral.integral_const_mul, mul_comm (derivative^[a] _),
      integral_rodrigues_mul_of_lt a b hab, mul_zero]
  rcases lt_trichotomy m n with h | h | h
  · rw [if_neg (ne_of_lt h)]
    exact hlt m n h
  · subst h
    rw [if_pos rfl, hform, intervalIntegral.integral_const_mul,
      integral_rodrigues_mul m _ m le_rfl, Nat.sub_self, Function.iterate_zero_apply,
      iterate_derivative_two_mul]
    have hI := integral_sq_sub_one_pow m
    have hfun : (fun x : ℝ => ((X ^ 2 - 1 : ℝ[X]) ^ m * C (((2 * m).factorial : ℕ) : ℝ)).eval x)
        = fun x => ((2 * m).factorial : ℝ) * ((X ^ 2 - 1 : ℝ[X]) ^ m).eval x := by
      funext x
      rw [eval_mul, eval_C]
      ring
    rw [hfun, intervalIntegral.integral_const_mul]
    have hm : (m.factorial : ℝ) ≠ 0 := Nat.cast_ne_zero.mpr m.factorial_ne_zero
    have h2 : (2 * (m : ℝ) + 1) ≠ 0 := by positivity
    have h4 : (4 : ℝ) ^ m = 2 ^ m * 2 ^ m := by
      rw [← mul_pow]
      norm_num
    rw [h4] at hI
    generalize (∫ x in (-1 : ℝ)..1, ((X ^ 2 - 1 : ℝ[X]) ^ m).eval x) = J at hI ⊢
    field_simp
    linear_combination hI
  · rw [if_neg (ne_of_gt h)]
    have := hlt n m h
    simpa [mul_comm] using this

theorem integral_Icc_legendre_mul (m n : Nat) :
    ∫ x in Set.Icc (-1 : ℝ) 1, legendre m x * legendre n x
      = if m = n then 2 / (2 * (n : ℝ) + 1) else 0 := by
  rw [MeasureTheory.integral_Icc_eq_integral_Ioc,
    ← intervalIntegral.integral_of_le (by norm_num : (-1 : ℝ) ≤ 1)]
  exact integral_legendre_mul m n

/-- The integral over the cube of a product of functions of one coordinate each. -/
theorem integral_cube_mul (F G H : ℝ → ℝ) :
    ∫ v in Set.Icc (-1 : ℝ) 1 ×ˢ Set.Icc (-1 : ℝ) 1 ×ˢ Set.Icc (-1 : ℝ) 1,
        F v.1 * (G v.2.1 * H v.2.2)
      = (∫ x in Set.Icc (-1 : ℝ) 1, F x) * ((∫ y in Set.Icc (-1 : ℝ) 1, G y)
          * ∫ z in Set.Icc (-1 : ℝ) 1, H z) := by
  rw [MeasureTheory.Measure.volume_eq_prod, ← MeasureTheory.Measure.prod_restrict,
    MeasureTheory.integral_prod_mul F (fun w : ℝ × ℝ => G w.1 * H w.2),
    MeasureTheory.Measure.volume_eq_prod, ← MeasureTheory.Measure.prod_restrict,
    MeasureTheory.integral_prod_mul G H]

/-- C13: with `jacobi_poly(n, 0, 0, x)` the Legendre polynomial of degree `n` and `sqrt`
the real square root, the basis functions of `eval_orthob_block` are orthonormal on the
cube `[-1, 1]^3` with unit weight: the integral of the product of the basis functions
with indices `(i, j, k)` and `(i', j', k')` is 1 if the indices are equal and 0
otherwise. -/
theorem orthob_orthonormal (i j k i' j' k' : Nat) :
    ∫ v in Set.Icc (-1 : ℝ) 1 ×ˢ Set.Icc (-1 : ℝ) 1 ×ˢ Set.Icc (-1 : ℝ) 1,
        orthob_value Real.sqrt (i : Int) (j : Int) (k : Int) ⟨v.1, v.2.1, v.2.2⟩
          * orthob_value Real.sqrt (i' : Int) (j' : Int) (k' : Int) ⟨v.1, v.2.1, v.2.2⟩
      = if (i, j, k) = (i', j', k') then 1 else 0 := by
  have hfun : (fun v : ℝ × ℝ × ℝ =>
      orthob_value Real.sqrt (i : Int) (j : Int) (k : Int) ⟨v.1, v.2.1, v.2.2⟩
        * orthob_value Real.sqrt (i' : Int) (j' : Int) (k' : Int) ⟨v.1, v.2.1, v.2.2⟩)
      = fun v => (cijk Real.sqrt i j k * cijk Real.sqrt i' j' k')
          * ((legendre i v.1 * legendre i' v.1)
            * ((legendre j v.2.1 * legendre j' v.2.1)
              * (legendre k v.2.2 * legendre k' v.2.2))) := by
    funext v
    simp only [orthob_value, jacobi_poly, Int.toNat_ofNat]
    ring
  rw [hfun, MeasureTheory.integral_mul_left,
    integral_cube_mul (fun x => legendre i x * legendre i' x)
      (fun y => legendre j y * legendre j' y) (fun z => legendre k z * legendre k' z),
    integral_Icc_legendre_mul, integral_Icc_legendre_mul, integral_Icc_legendre_mul]
  by_cases h : (i, j, k) = (i', j', k')
  · rw [if_pos h]
    simp only [Prod.mk.injEq] at h
    obtain ⟨rfl, rfl, rfl⟩ := h
    simp only [if_true]
    have hpos : (0 : ℝ) ≤ (((i : Int) : ℝ) + 1 / 2) * (((j : Int) : ℝ) + 1 / 2)
        * (((k : Int) : ℝ) + 1 / 2) := by
      simp only [Int.cast_natCast]
      positivity
    unfold cijk
    rw [Real.mul_self_sqrt hpos]
    simp only [Int.cast_natCast]
    field_simp
    ring
  · rw [if_neg h]
    simp only [Prod.mk.injEq, not_and_or] at h
    have h' : i ≠ i' ∨ j ≠ j' ∨ k ≠ k' := by
      by_cases h1 : i = i'
      · by_cases h2 : j = j'
        · right; right
          intro h3
          rcases h with h | h | h
          · exact h h1
          · exact h h2
          · exact h h3
        · exact Or.inr (Or.inl h2)
      · exact Or.inl h1
    rcases h' with h1 | h1 | h1
    · rw [if_neg h1]; ring
    · rw [if_neg h1]; ring
    · rw [if_neg h1]; ring

end Legendre

/-! ## C15: the degree-1 rule -/

theorem legendre_zero [Field α] [CharZero α] (x : α) : legendre 0 x = 1 := by
  simp [legendre]

theorem legendre_one [Field α] [CharZero α] (x : α) : legendre 1 x = x := by
  simp [legendre, Finset.sum_range_succ]

theorem legendre_two [Field α] [CharZero α] (x : α) : legendre 2 x = (3 * x ^ 2 - 1) / 2 := by
  simp [legendre, Finset.sum_range_succ, Nat.choose]
  ring

theorem legendre_three [Field α] [CharZero α] (x : α) :
    legendre 3 x = (5 * x ^ 3 - 3 * x) / 2 := by
  simp [legendre, Finset.sum_range_succ, Nat.choose]
  ring

theorem cijk_zero_mul_scale :
    cijk Real.sqrt 0 0 0 * HexDomain_scale Real.sqrt = 1 := by
  unfold cijk HexDomain_scale
  rw [← Real.sqrt_mul (by norm_num)]
  norm_num

/-- C15: `nbfn_for_qdeg 1` returns 1 and `(0, 0, 0)` is the only basis index of degree at
most 1; the centroid orbit is the single point `(0, 0, 0)`; the basis function of index
`(0, 0, 0)` has the value `c000 = sqrt((0 + 1/2)(0 + 1/2)(0 + 1/2))` there (`P_0 = 1`);
and with the constant `sqrt(8)` of the constructor as reference value, the equation
`w * c000 = sqrt(8)` for the weight `w` of the point holds exactly when `w = 8`. -/
theorem degree_one_centroid_rule (w : ℝ) :
    nbfn_for_qdeg 1 = some 1 ∧
    (∀ t, IsBasisIndex 1 t ↔ t = (0, 0, 0)) ∧
    npts_for_orbit 0 = .val 1 ∧
    expand_orbit 0 0 0 ([] : List ℝ) [⟨1, 1, 1⟩] = .ret [⟨0, 0, 0⟩] ∧
    eval_orthob_block 1 (orthob_row Real.sqrt [⟨0, 0, 0⟩]) [[]]
      = some (1, [[orthob_value Real.sqrt 0 0 0 ⟨0, 0, 0⟩]]) ∧
    orthob_value Real.sqrt 0 0 0 ⟨0, 0, 0⟩ = cijk Real.sqrt 0 0 0 ∧
    cijk Real.sqrt 0 0 0 = Real.sqrt ((0 + 1 / 2) * (0 + 1 / 2) * (0 + 1 / 2)) ∧
    HexDomain_scale Real.sqrt = Real.sqrt 8 ∧
    (w * orthob_value Real.sqrt 0 0 0 ⟨0, 0, 0⟩ = HexDomain_scale Real.sqrt ↔ w = 8) := by
  have hidx : basisIndices 1 = [(0, 0, 0)] := by decide
  have hval : orthob_value Real.sqrt 0 0 0 (⟨0, 0, 0⟩ : Vector3T ℝ) = cijk Real.sqrt 0 0 0 := by
    simp [orthob_value, jacobi_poly, legendre_zero]
  have hc := cijk_zero_mul_scale
  have h8 : HexDomain_scale Real.sqrt * HexDomain_scale Real.sqrt = 8 := by
    unfold HexDomain_scale
    exact Real.mul_self_sqrt (by norm_num)
  refine ⟨by decide, ?_, by decide, ?_, ?_, hval, ?_, rfl, ?_⟩
  · intro t
    rw [← mem_basisIndices, hidx]
    simp
  · simp [expand_orbit, expand_case0, assignRows, setAt, Outcome.ofAccess]
  · rw [eval_orthob_block_eq 1 _ _ (by norm_num) (by rw [hidx]; simp) (by rw [hidx]; simp),
      hidx]
    simp [orthob_row]
  · simp [cijk]
  · rw [hval]
    constructor
    · intro h
      have := congrArg (fun t => t * HexDomain_scale Real.sqrt) h
      simp only [mul_assoc, hc, h8, mul_one] at this
      exact this
    · intro h
      subst h
      calc (8 : ℝ) * cijk Real.sqrt 0 0 0
          = HexDomain_scale Real.sqrt * HexDomain_scale Real.sqrt * cijk Real.sqrt 0 0 0 := by
            rw [h8]
        _ = HexDomain_scale Real.sqrt * (cijk Real.sqrt 0 0 0 * HexDomain_scale Real.sqrt) := by
            ring
        _ = HexDomain_scale Real.sqrt := by rw [hc, mul_one]

end Polyquad
